import Mathlib

/-!
# KadNode, `src/conf.c`: option catalog, dispatcher and source merger

A shallow embedding of the configuration loader.  C strings are `String`
(file bytes are `List Char`, one `Char` for one byte), a nullable `char *`
is `Option String`, `exit(code)` is the result `Res.exit`, a step C gives no
meaning to is the result `Res.undefined`, and the calls into other modules
(DHT, port forwarding, TLS, peer file, file system) are recorded in a trace;
what those modules return is taken from `Env`.  The definitions come first,
the theorems after them.
-/

namespace KadNode

/-! ## Build configuration -/

/-- The `#ifdef` switches of `conf.c` together with the string constants of
`main.h` that `conf.c` uses.  `main.h` is not part of the sources at hand, so
the constants are parameters of the build. -/
structure Build where
  LPD : Bool
  BOB : Bool
  CMD : Bool
  DNS : Bool
  NSS : Bool
  TLS : Bool
  WEB : Bool
  FWD : Bool
  CYGWIN : Bool
  DEBUG : Bool
  QUERY_TLD_DEFAULT : String
  DHT_PORT : String
  DHT_ADDR4 : String
  DHT_ADDR6 : String
  CMD_PORT : String
  DNS_PORT : String
  NSS_PORT : String
  WEB_PORT : String
  LPD_ADDR4 : String
  LPD_ADDR6 : String
  LPD_PORT : String

/-- Address family constant `AF_UNSPEC` of `<sys/socket.h>`. -/
def AF_UNSPEC : Nat := 0

/-- Address family constant `AF_INET` of `<sys/socket.h>`. -/
def AF_INET : Nat := 2

/-- Address family constant `AF_INET6` of `<sys/socket.h>` (Linux value). -/
def AF_INET6 : Nat := 10

/-- The constant `LONG_MAX` of `<limits.h>` on an LP64 platform. -/
def LONG_MAX : Int := 9223372036854775807

/-- The file type bit `S_IFREG` of `<sys/stat.h>` (octal 0100000). -/
def S_IFREG : Nat := 32768

/-- The three verbosity levels (`VERBOSITY_QUIET`, `VERBOSITY_VERBOSE`,
`VERBOSITY_DEBUG` of `log.h`). -/
inductive Verbosity where
  | VERBOSITY_QUIET
  | VERBOSITY_VERBOSE
  | VERBOSITY_DEBUG
  deriving DecidableEq, Repr

/-- A parsed socket address as `addr_parse` hands it back: the family and the
bytes of the address (`sin_addr` or `sin6_addr`). -/
structure IP where
  family : Nat
  addr : List Nat
  deriving DecidableEq, Repr

/-! ## The configuration record -/

/-- The fields of `struct gconf_t` that `conf.c` reads or writes.  A `char *`
field is `none` while it is `NULL`; `af` is `0` while unset. -/
structure gconf_t where
  is_running : Nat
  verbosity : Verbosity
  af : Nat
  is_daemon : Nat
  startup_time : Nat
  time_now : Nat
  query_tld : Option String
  node_id_str : Option String
  user : Option String
  pidfile : Option String
  peerfile : Option String
  dht_port : Option String
  dht_addr : Option String
  dht_ifname : Option String
  configfile : Option String
  lpd_addr : Option String
  lpd_disable : Nat
  cmd_port : Option String
  cmd_disable_stdin : Nat
  dns_port : Option String
  dns_server : Option String
  dns_server_addr : Option IP
  nss_port : Option String
  web_port : Option String
  fwd_disable : Nat
  service_start : Nat
  deriving DecidableEq, Repr

/-! ## Diagnostics, results and the trace of outside calls -/

/-- The message written right before the process ends (`log_err` or `printf`). -/
inductive Diag where
  /-- `conf_arg_expected`: "CFG: Argument expected for option: %s" -/
  | ArgumentExpected (opt : String)
  /-- `conf_no_arg_expected`: "CFG: No argument expected for option: %s" -/
  | NoArgumentExpected (opt : String)
  /-- `conf_duplicate_option`: "CFG: Option was already set: %s" -/
  | DuplicateOption (opt : String)
  /-- "CFG: Invalid argument for %s." (verbosity) and
  "CFG: Invalid argument for %s. Use 'ipv4' or 'ipv6'." (mode) -/
  | InvalidArgument (opt : String)
  /-- "CFG: Invalid option format: %s" -/
  | InvalidFormat (val : String)
  /-- "CFG: Unkown option: %s" -/
  | UnknownOption (opt : String)
  /-- "CFG: Invalid port for value annoucement: %d" -/
  | InvalidAnnouncePort (port : Int)
  /-- "Invalid secret key: %s" -/
  | InvalidSecretKey (val : String)
  /-- "CFG: File expected: %s" -/
  | FileExpected (filename : String)
  /-- "CFG: Cannot open file '%s': %s" -/
  | CannotOpen (filename : String)
  /-- "CFG: Too many arguments in line %ld." -/
  | TooManyArguments (n : Nat)
  /-- "CFG: Option '--config' not allowed inside a configuration file, line %ld." -/
  | NestedConfig (n : Nat)
  /-- "CFG: Invalid DHT port '%s'." and its CMD, DNS, NSS, WEB siblings -/
  | InvalidPort (field : String) (value : Option String)
  /-- "CFG: Failed to parse IP address '%s'." (DNS server) -/
  | DnsServerParse (value : String)
  /-- "CFG: Failed to parse IP address for '%s'." (local discovery) -/
  | LpdAddrParse (value : Option String)
  /-- "CFG: Multicast address expected: %s" -/
  | MulticastExpected (addr : IP)
  /-- The usage text `kadnode_usage_str`. -/
  | Usage
  /-- The version text `kadnode_version_str`. -/
  | Version
  deriving DecidableEq, Repr

/-- How a piece of the program ends: it returns (`ok`), it ends the process
with `exit(code)` after writing `msg`, or it does what C gives no meaning to
(`undefined`: a null pointer passed to `sscanf`, a read outside an array).
Each case carries the state reached. -/
inductive Res (σ : Type) where
  | ok (s : σ)
  | exit (code : Int) (msg : Option Diag) (s : σ)
  | undefined (s : σ)
  deriving DecidableEq, Repr

/-- The state a result carries. -/
def Res.state {σ : Type} : Res σ → σ
  | .ok s => s
  | .exit _ _ s => s
  | .undefined s => s

/-- Carry a result over to a larger state. -/
def Res.map {σ τ : Type} (f : σ → τ) : Res σ → Res τ
  | .ok s => .ok (f s)
  | .exit c m s => .exit c m (f s)
  | .undefined s => .undefined (f s)

/-- Run `f` after `r` when `r` returned. -/
def Res.andThen {σ : Type} (r : Res σ) (f : σ → Res σ) : Res σ :=
  match r with
  | .ok s => f s
  | .exit c m s => .exit c m s
  | .undefined s => .undefined s

/-- Calls that leave `conf.c`, and the entries into `conf_handle_option` and
`conf_load_file`, in the order they happen. -/
inductive Event where
  | conf_handle_option (opt : String) (val : Option String)
  | conf_load_file (filename : String)
  | peerfile_add_peer (val : String)
  | kad_announce (query : String) (port : Int) (lifetime : Int)
  | fwd_add (port : Int) (lifetime : Int)
  | tls_add_ca_entry (val : Option String)
  | tls_add_sni_entry (name crt_file key_file : String)
  | bob_generate_key_pair
  | bob_add_skey (val : String)
  | windows_service_install
  | windows_service_remove
  deriving DecidableEq, Repr

/-- What `stat` and `fopen`/`fgets` find under a file name: the mode `stat`
reports (`none` when `stat` fails) and the bytes of the file (`none` when
`fopen` fails). -/
structure FileInfo where
  st_mode : Option Nat
  content : Option (List Char)

/-- The collaborators of `conf.c`.  A collaborator may keep state of its own,
so its answer may depend on everything that happened before the call. -/
structure Env where
  kad_announce : List Event → String → Int → Int → Int
  tls_add_ca_entry : List Event → Option String → Int
  bob_add_skey : List Event → String → Int
  bob_generate_key_pair : List Event → Int
  fs : String → FileInfo
  random_node_id : String
  addr_parse : Option String → String → Nat → Option IP
  time_now_sec : Nat

/-- The program state of `conf.c`: the record `gconf`, the working argument
vector (the cells `g_argv[0 .. g_argc-1]`, so `g_argc` is the length of
`g_argv`), whether the array has one more cell `g_argv[g_argc]` (which then
holds NULL), and the trace. -/
structure St where
  gconf : gconf_t
  g_argv : List (Option String)
  terminated : Bool
  trace : List Event
  deriving DecidableEq, Repr

/-- The counter `g_argc`. -/
def St.g_argc (st : St) : Nat := st.g_argv.length

/-! ## Option catalog -/

/-- The symbolic codes of `enum OpCode`. -/
inductive OpCode where
  | oQueryTld
  | oPidFile
  | oPeerFile
  | oPeer
  | oVerbosity
  | oCmdDisableStdin
  | oCmdPort
  | oDnsPort
  | oDnsServer
  | oNssPort
  | oTlsClientEntry
  | oTlsServerEntry
  | oWebPort
  | oConfig
  | oMode
  | oPort
  | oAddr
  | oLpdAddr
  | oLpdDisable
  | oFwdDisable
  | oServiceInstall
  | oServiceRemove
  | oServiceStart
  | oBobGenKeys
  | oBobAddSkey
  | oValueId
  | oIfname
  | oUser
  | oDaemon
  | oHelp
  | oVersion
  | oUnknown
  deriving DecidableEq, Repr

/-- The table `options[]`; the entries of a feature are present only when the
feature is compiled in. -/
def options (B : Build) : List (String × OpCode) :=
  [("--query-tld", .oQueryTld),
   ("--pidfile", .oPidFile),
   ("--peerfile", .oPeerFile),
   ("--peer", .oPeer),
   ("--verbosity", .oVerbosity)]
  ++ (if B.CMD then [("--cmd-disable-stdin", .oCmdDisableStdin), ("--cmd-port", .oCmdPort)] else [])
  ++ (if B.DNS then [("--dns-port", .oDnsPort), ("--dns-server", .oDnsServer)] else [])
  ++ (if B.NSS then [("--nss-port", .oNssPort)] else [])
  ++ (if B.TLS then [("--tls-client-entry", .oTlsClientEntry),
                     ("--tls-server-entry", .oTlsServerEntry)] else [])
  ++ (if B.WEB then [("--web-port", .oWebPort)] else [])
  ++ [("--config", .oConfig),
      ("--mode", .oMode),
      ("--port", .oPort),
      ("--addr", .oAddr)]
  ++ (if B.LPD then [("--lpd-addr", .oLpdAddr), ("--lpd-disable", .oLpdDisable)] else [])
  ++ (if B.FWD then [("--fwd-disable", .oFwdDisable)] else [])
  ++ (if B.CYGWIN then [("--service-install", .oServiceInstall),
                        ("--service-remove", .oServiceRemove),
                        ("--service-start", .oServiceStart)] else [])
  ++ (if B.BOB then [("--bob-gen-keys", .oBobGenKeys), ("--bob-add-skey", .oBobAddSkey)] else [])
  ++ [("--value-id", .oValueId),
      ("--ifname", .oIfname),
      ("--user", .oUser),
      ("--daemon", .oDaemon),
      ("-h", .oHelp),
      ("--help", .oHelp),
      ("-v", .oVersion),
      ("--version", .oVersion)]

/-- The scan of `findCode` over a table: the code of the first entry whose
name is `name`, `oUnknown` when there is none. -/
def findCodeIn (name : String) : List (String × OpCode) → OpCode
  | [] => .oUnknown
  | e :: es => if name = e.1 then e.2 else findCodeIn name es

/-- The function `findCode`. -/
def findCode (B : Build) (name : String) : OpCode :=
  findCodeIn name (options B)

/-- The option names that the usage text `kadnode_usage_str` documents, in the
order of the text; the lines of a feature are present only when the feature
is compiled in. -/
def usage_options (B : Build) : List String :=
  ["--value-id", "--peerfile", "--peer", "--user", "--port", "--addr", "--config",
   "--ifname", "--daemon", "--verbosity", "--pidfile", "--mode", "--query-tld"]
  ++ (if B.LPD then ["--lpd-addr", "--lpd-disable"] else [])
  ++ (if B.BOB then ["--bob-gen-pair", "--bob-add-skey"] else [])
  ++ (if B.CMD then ["--cmd-disable-stdin", "--cmd-port"] else [])
  ++ (if B.DNS then ["--dns-port", "--dns-server"] else [])
  ++ (if B.NSS then ["--nss-port"] else [])
  ++ (if B.WEB then ["--web-port"] else [])
  ++ (if B.FWD then ["--fwd-disable"] else [])
  ++ (if B.TLS then ["--tls-client-entry", "--tls-server-entry"] else [])
  ++ (if B.CYGWIN then ["--service-start", "--service-install", "--service-remove"] else [])
  ++ ["-h", "--help", "-v", "--version"]

/-! ## String helpers -/

/-- The search `strchr(s, c)` for a `c` other than NUL: `none` when `c` does
not occur, otherwise the text before the first `c` and the text after it. -/
def strchr : List Char → Char → Option (List Char × List Char)
  | [], _ => none
  | x :: xs, c =>
    if x = c then some ([], xs)
    else match strchr xs c with
      | none => none
      | some (before, after) => some (x :: before, after)

/-- The value of a string of decimal digits. -/
def decimal (ds : List Char) : Nat :=
  ds.foldl (fun n d => 10 * n + (d.toNat - 48)) 0

/-- Modelled from the spec: `port_parse` (utils.c) is not among the sources at
hand.  It returns the decimal value when the string is a number in 0..65535
and the error value `err` otherwise. -/
def port_parse (pstr : Option String) (err : Int) : Int :=
  match pstr with
  | none => err
  | some s =>
    if s.data ≠ [] ∧ s.data.all Char.isDigit ∧ decimal s.data ≤ 65535
    then (decimal s.data : Int) else err

/-- Modelled from the spec: `match` (utils.c) is not among the sources at
hand.  The spec has the keyword options compare their value with a literal
keyword, so `match` is equality of the two strings. -/
def «match» (s t : String) : Bool := s == t

/-- One conversion `%127[^,]` of `sscanf`: the longest run of at most 127
characters other than a comma, which must not be empty, and the rest. -/
def scan_field (s : List Char) : Option (List Char × List Char) :=
  let m := (s.takeWhile (fun c => c ≠ ',')).take 127
  if m = [] then none else some (m, s.drop m.length)

/-- The call `sscanf(val, "%127[^,],%127[^,],%127[^,]", ...)`: the fields it
assigned, in order (their number is what `sscanf` returns, apart from `EOF`
for no field on empty input). -/
def sscanf3 (val : String) : List String :=
  match scan_field val.data with
  | none => []
  | some (a, r1) =>
    match r1 with
    | ',' :: r1 =>
      match scan_field r1 with
      | none => [String.mk a]
      | some (b, r2) =>
        match r2 with
        | ',' :: r2 =>
          match scan_field r2 with
          | none => [String.mk a, String.mk b]
          | some (c, _) => [String.mk a, String.mk b, String.mk c]
        | _ => [String.mk a, String.mk b]
    | _ => [String.mk a]

/-! ## Setters and handlers -/

/-- The setter `conf_str` on the cell `*dst`: set a string once, an error when
it is already set. -/
def conf_str (opt : String) (dst : Option String) (src : Option String) : Res (Option String) :=
  match src with
  | none => .exit 1 (some (.ArgumentExpected opt)) dst
  | some v =>
    match dst with
    | some _ => .exit 1 (some (.DuplicateOption opt)) dst
    | none => .ok (some v)

/-- Add `e` to the trace. -/
def St.emit (st : St) (e : Event) : St :=
  { st with trace := st.trace ++ [e] }

/-- Put the record `g` in place of `gconf`. -/
def St.set_gconf (st : St) (g : gconf_t) : St :=
  { st with gconf := g }

/-- The function `conf_apply_value`: parse a `<id>[:<port>]` value.  The write
`*p = 0` cuts the string `val` at the delimiter, so `kad_announce` gets the
text before it.  (The string is the one the cell `g_argv[i+1]` points to, so
after the call that cell of the program reads `<id>`.  The loop of
`conf_load_args` has stepped over the cell and does not read it again; the
vector of the model keeps the token as it was handed over, `<id>:<port>`, so
the statements about a run with `--value-id` are made on the calls and on
the record, not on the cells the loop has left behind.) -/
def conf_apply_value (B : Build) (E : Env) (val : String) (st : St) : Res St :=
  let parsed : String × Int × Bool :=
    match strchr val.data ':' with
    | some (before, after) => (String.mk before, port_parse (some (String.mk after)) (-1), false)
    | none => (val, 0, true)
  let id := parsed.1
  let port := parsed.2.1
  let is_random_port := parsed.2.2
  let rc := E.kad_announce st.trace id port LONG_MAX
  let st1 := st.emit (.kad_announce id port LONG_MAX)
  if rc < 0 then
    .exit 1 (some (.InvalidAnnouncePort port)) st1
  else if B.FWD && !is_random_port then
    .ok (st1.emit (.fwd_add port LONG_MAX))
  else
    .ok st1

/-- The record right after `conf_init`: zeroed by `calloc`, then `is_running`
and the default verbosity of the build. -/
def conf_init (B : Build) : gconf_t :=
  { is_running := 1
    verbosity := if B.DEBUG then .VERBOSITY_DEBUG else .VERBOSITY_VERBOSE
    af := 0, is_daemon := 0, startup_time := 0, time_now := 0
    query_tld := none, node_id_str := none, user := none, pidfile := none
    peerfile := none, dht_port := none, dht_addr := none, dht_ifname := none
    configfile := none, lpd_addr := none, lpd_disable := 0, cmd_port := none
    cmd_disable_stdin := 0, dns_port := none, dns_server := none
    dns_server_addr := none, nss_port := none, web_port := none
    fwd_disable := 0, service_start := 0 }

/-! ## Source merger: the configuration file -/

/-- The function `conf_append`: the array is grown to `g_argc + 3` cells, the
pair is stored at `g_argc` and `g_argc + 1`, the cell after it is set to NULL
and `g_argc` grows by two. -/
def conf_append (opt : Option String) (val : Option String) (st : St) : St :=
  { st with g_argv := st.g_argv ++ [opt, val], terminated := true }

/-- Put `c` in front of the first piece of a text cut into pieces. -/
def push_front (c : Char) : List (List Char) → List (List Char)
  | [] => [[c]]
  | l :: ls => (c :: l) :: ls

/-- What successive calls `fgets(line, size, file)` store until the file is
used up: each call takes bytes up to and with the next newline, and at most
`size - 1` of them.  `room` is what the call under way may still take. -/
def fgets_from (size : Nat) : Nat → List Char → List (List Char)
  | _, [] => []
  | room, c :: cs =>
    if c = '\n' ∨ room ≤ 1 then [c] :: fgets_from size (size - 1) cs
    else push_front c (fgets_from size (room - 1) cs)

/-- The results of all `fgets(line, size, file)` calls on a file. -/
def fgets_all (size : Nat) (content : List Char) : List (List Char) :=
  fgets_from size (size - 1) content

/-- The C string in a buffer: the bytes before the first NUL. -/
def c_str (buf : List Char) : List Char :=
  buf.takeWhile (fun c => c ≠ Char.ofNat 0)

/-- The delimiters of the `strtok` calls: space, tab, newline, carriage return. -/
def is_delim (c : Char) : Bool :=
  c = ' ' ∨ c = '\t' ∨ c = '\n' ∨ c = '\r'

/-- The tokens the calls `strtok(line, " \t\n\r")`, `strtok(NULL, " \t\n\r")`,
... return in turn: the maximal runs of characters that are no delimiters. -/
def strtok_all : List Char → List (List Char)
  | [] => []
  | c :: cs =>
    if is_delim c then strtok_all cs
    else match cs with
      | [] => [[c]]
      | d :: _ =>
        if is_delim d then [c] :: strtok_all cs
        else push_front c (strtok_all cs)

/-- End the line early at the first number sign. -/
def cut_comment (line : List Char) : List Char :=
  line.takeWhile (fun c => c ≠ '#')

/-- Replace quotation marks (single and double) with spaces. -/
def replace_quotes (line : List Char) : List Char :=
  line.map (fun c => if c = Char.ofNat 39 ∨ c = Char.ofNat 34 then ' ' else c)

/-- The inner `while( pch != NULL )` loop of `conf_load_file`: the first token
becomes `option`, the second `value`, a third one is the error (`none`). -/
def parse_tokens : List String → Option String → Option String →
    Option (Option String × Option String)
  | [], option, value => some (option, value)
  | pch :: rest, none, value => parse_tokens rest (some pch) value
  | pch :: rest, some option, none => parse_tokens rest (some option) (some pch)
  | _ :: _, some _, some _ => none

/-- The tokens of one line buffer after the comment cut and the quote
replacement. -/
def line_tokens (buf : List Char) : List String :=
  (strtok_all (replace_quotes (cut_comment (c_str buf)))).map String.mk

/-- The body of the `while( fgets(...) != NULL )` loop of `conf_load_file` for
the buffer `buf`, with `n` already counted up. -/
def conf_load_file_line (n : Nat) (buf : List Char) (st : St) : Res St :=
  match parse_tokens (line_tokens buf) none none with
  | none => .exit 1 (some (.TooManyArguments n)) st
  | some (none, _) => .ok st
  | some (some option, value) =>
    if option = "--config" then .exit 1 (some (.NestedConfig n)) st
    else .ok (conf_append (some option) value st)

/-- The `while( fgets(...) != NULL )` loop of `conf_load_file` over the buffers
still to come; `n` counts the calls so far. -/
def conf_load_file_loop : List (List Char) → Nat → St → Res St
  | [], _, st => .ok st
  | buf :: rest, n, st =>
    match conf_load_file_line (n + 1) buf st with
    | .ok st1 => conf_load_file_loop rest (n + 1) st1
    | r => r

/-- The test `stat( filename, &s ) == 0 && !(s.st_mode & S_IFREG)`. -/
def not_regular (info : FileInfo) : Bool :=
  match info.st_mode with
  | some mode => mode &&& S_IFREG == 0
  | none => false

/-- The function `conf_load_file`. -/
def conf_load_file (E : Env) (filename : String) (st0 : St) : Res St :=
  let st := st0.emit (.conf_load_file filename)
  if not_regular (E.fs filename) then .exit 1 (some (.FileExpected filename)) st
  else match (E.fs filename).content with
    | none => .exit 1 (some (.CannotOpen filename)) st
    | some content => conf_load_file_loop (fgets_all 512 content) 0 st

/-! ## Dispatcher -/

/-- The `default:` branch of the switch in `conf_handle_option`. -/
def unknown_option (opt : String) (st : St) : Res St :=
  .exit 1 (some (.UnknownOption opt)) st

/-- The function `conf_handle_option`.  A `case` under an `#ifdef` exists only
when the feature is compiled in. -/
def conf_handle_option (B : Build) (E : Env) (opt : String) (val : Option String)
    (st0 : St) : Res St :=
  let st := st0.emit (.conf_handle_option opt val)
  match findCode B opt with
  | .oQueryTld =>
    (conf_str opt st.gconf.query_tld val).map
      (fun d => st.set_gconf { st.gconf with query_tld := d })
  | .oPidFile =>
    (conf_str opt st.gconf.pidfile val).map
      (fun d => st.set_gconf { st.gconf with pidfile := d })
  | .oPeerFile =>
    (conf_str opt st.gconf.peerfile val).map
      (fun d => st.set_gconf { st.gconf with peerfile := d })
  | .oPeer =>
    match val with
    | none => .exit 1 (some (.ArgumentExpected opt)) st
    | some v => .ok (st.emit (.peerfile_add_peer v))
  | .oVerbosity =>
    match val with
    | none => .exit 1 (some (.ArgumentExpected opt)) st
    | some v =>
      if «match» v "quiet" then
        .ok (st.set_gconf { st.gconf with verbosity := .VERBOSITY_QUIET })
      else if «match» v "verbose" then
        .ok (st.set_gconf { st.gconf with verbosity := .VERBOSITY_VERBOSE })
      else if «match» v "debug" then
        .ok (st.set_gconf { st.gconf with verbosity := .VERBOSITY_DEBUG })
      else .exit 1 (some (.InvalidArgument opt)) st
  | .oCmdDisableStdin =>
    if B.CMD then
      match val with
      | some _ => .exit 1 (some (.NoArgumentExpected opt)) st
      | none => .ok (st.set_gconf { st.gconf with cmd_disable_stdin := 1 })
    else unknown_option opt st
  | .oCmdPort =>
    if B.CMD then
      (conf_str opt st.gconf.cmd_port val).map
        (fun d => st.set_gconf { st.gconf with cmd_port := d })
    else unknown_option opt st
  | .oDnsPort =>
    if B.DNS then
      (conf_str opt st.gconf.dns_port val).map
        (fun d => st.set_gconf { st.gconf with dns_port := d })
    else unknown_option opt st
  | .oDnsServer =>
    if B.DNS then
      (conf_str opt st.gconf.dns_server val).map
        (fun d => st.set_gconf { st.gconf with dns_server := d })
    else unknown_option opt st
  | .oNssPort =>
    if B.NSS then
      (conf_str opt st.gconf.nss_port val).map
        (fun d => st.set_gconf { st.gconf with nss_port := d })
    else unknown_option opt st
  | .oTlsClientEntry =>
    if B.TLS then
      let rc := E.tls_add_ca_entry st.trace val
      let st1 := st.emit (.tls_add_ca_entry val)
      if rc ≠ 0 then .exit 1 none st1 else .ok st1
    else unknown_option opt st
  | .oTlsServerEntry =>
    if B.TLS then
      match val with
      | none => .undefined st
      | some v =>
        match sscanf3 v with
        | [name, crt_file, key_file] =>
          .ok (st.emit (.tls_add_sni_entry name crt_file key_file))
        | _ => .exit 1 (some (.InvalidFormat v)) st
    else unknown_option opt st
  | .oWebPort =>
    if B.WEB then
      (conf_str opt st.gconf.web_port val).map
        (fun d => st.set_gconf { st.gconf with web_port := d })
    else unknown_option opt st
  | .oConfig =>
    match val with
    | none => .exit 1 (some (.ArgumentExpected opt)) st
    | some v =>
      (conf_load_file E v st).andThen fun st1 =>
        (conf_str opt st1.gconf.configfile (some v)).map
          (fun d => st1.set_gconf { st1.gconf with configfile := d })
  | .oMode =>
    match val with
    | none => .exit 1 (some (.ArgumentExpected opt)) st
    | some v =>
      if st.gconf.af ≠ 0 then .exit 1 (some (.DuplicateOption opt)) st
      else if «match» v "ipv4" then
        .ok (st.set_gconf { st.gconf with af := AF_INET })
      else if «match» v "ipv6" then
        .ok (st.set_gconf { st.gconf with af := AF_INET6 })
      else .exit 1 (some (.InvalidArgument opt)) st
  | .oPort =>
    (conf_str opt st.gconf.dht_port val).map
      (fun d => st.set_gconf { st.gconf with dht_port := d })
  | .oAddr =>
    (conf_str opt st.gconf.dht_addr val).map
      (fun d => st.set_gconf { st.gconf with dht_addr := d })
  | .oLpdAddr =>
    if B.LPD then
      (conf_str opt st.gconf.lpd_addr val).map
        (fun d => st.set_gconf { st.gconf with lpd_addr := d })
    else unknown_option opt st
  | .oLpdDisable =>
    if B.LPD then
      match val with
      | some _ => .exit 1 (some (.NoArgumentExpected opt)) st
      | none => .ok (st.set_gconf { st.gconf with lpd_disable := 1 })
    else unknown_option opt st
  | .oFwdDisable =>
    if B.FWD then
      match val with
      | some _ => .exit 1 (some (.NoArgumentExpected opt)) st
      | none => .ok (st.set_gconf { st.gconf with fwd_disable := 1 })
    else unknown_option opt st
  | .oServiceInstall =>
    if B.CYGWIN then
      match val with
      | some _ => .exit 1 (some (.NoArgumentExpected opt)) st
      | none => .exit 0 none (st.emit .windows_service_install)
    else unknown_option opt st
  | .oServiceRemove =>
    if B.CYGWIN then
      match val with
      | some _ => .exit 1 (some (.NoArgumentExpected opt)) st
      | none => .exit 0 none (st.emit .windows_service_remove)
    else unknown_option opt st
  | .oServiceStart =>
    if B.CYGWIN then
      match val with
      | some _ => .exit 1 (some (.NoArgumentExpected opt)) st
      | none => .ok (st.set_gconf { st.gconf with service_start := 1 })
    else unknown_option opt st
  | .oIfname =>
    (conf_str opt st.gconf.dht_ifname val).map
      (fun d => st.set_gconf { st.gconf with dht_ifname := d })
  | .oUser =>
    (conf_str opt st.gconf.user val).map
      (fun d => st.set_gconf { st.gconf with user := d })
  | .oDaemon =>
    match val with
    | some _ => .exit 1 (some (.NoArgumentExpected opt)) st
    | none => .ok (st.set_gconf { st.gconf with is_daemon := 1 })
  | .oHelp => .exit 0 (some .Usage) st
  | .oVersion => .exit 0 (some .Version) st
  | .oBobGenKeys =>
    if B.BOB then
      .exit (E.bob_generate_key_pair st.trace) none (st.emit .bob_generate_key_pair)
    else unknown_option opt st
  | .oBobAddSkey =>
    if B.BOB then
      match val with
      | none => .exit 1 (some (.ArgumentExpected opt)) st
      | some v =>
        if E.bob_add_skey st.trace v < 0 then
          .exit 1 (some (.InvalidSecretKey v)) (st.emit (.bob_add_skey v))
        else .ok (st.emit (.bob_add_skey v))
    else unknown_option opt st
  | .oValueId =>
    match val with
    | none => .exit 1 (some (.ArgumentExpected opt)) st
    | some v => conf_apply_value B E v st
  | .oUnknown => unknown_option opt st

/-! ## Validator and defaulter -/

/-- The local discovery block of `conf_check` (`#ifdef LPD`). -/
def conf_check_lpd (B : Build) (E : Env) (g0 : gconf_t) : Res gconf_t :=
  let g : gconf_t :=
    if g0.lpd_addr = none then
      if g0.af = AF_INET then { g0 with lpd_addr := some B.LPD_ADDR4 }
      else { g0 with lpd_addr := some B.LPD_ADDR6 }
    else g0
  match E.addr_parse g.lpd_addr B.LPD_PORT g.af with
  | none => .exit 1 (some (.LpdAddrParse g.lpd_addr)) g
  | some lpd_addr =>
    let octet := lpd_addr.addr.headD 0
    if g.af = AF_INET then
      if octet ≠ 224 ∧ octet ≠ 239 then .exit 1 (some (.MulticastExpected lpd_addr)) g
      else .ok g
    else
      if octet ≠ 255 then .exit 1 (some (.MulticastExpected lpd_addr)) g
      else .ok g

/-- The DNS server block of `conf_check` (`#ifdef DNS`). -/
def conf_check_dns (E : Env) (g : gconf_t) : Res gconf_t :=
  match g.dns_server with
  | none => .ok g
  | some server =>
    match E.addr_parse (some server) "53" AF_UNSPEC with
    | none => .exit 1 (some (.DnsServerParse server)) g
    | some ip => .ok { g with dns_server_addr := some ip }

/-- The function `conf_check` on the record: set the default of every setting
that was not set, and validate the settings. -/
def conf_check (B : Build) (E : Env) (g0 : gconf_t) : Res gconf_t :=
  let g1 := if g0.af = 0 then { g0 with af := AF_INET } else g0
  let g2 := if g1.query_tld = none then { g1 with query_tld := some B.QUERY_TLD_DEFAULT } else g1
  let g3 := if g2.node_id_str = none then { g2 with node_id_str := some E.random_node_id } else g2
  let g4 := if g3.dht_port = none then { g3 with dht_port := some B.DHT_PORT } else g3
  let g5 :=
    if g4.dht_addr = none then
      { g4 with dht_addr := some (if g4.af = AF_INET then B.DHT_ADDR4 else B.DHT_ADDR6) }
    else g4
  let g6 := if B.CMD ∧ g5.cmd_port = none then { g5 with cmd_port := some B.CMD_PORT } else g5
  let g7 := if B.DNS ∧ g6.dns_port = none then { g6 with dns_port := some B.DNS_PORT } else g6
  (if B.DNS then conf_check_dns E g7 else .ok g7).andThen fun g8 =>
  let g9 := if B.NSS ∧ g8.nss_port = none then { g8 with nss_port := some B.NSS_PORT } else g8
  let g := if B.WEB ∧ g9.web_port = none then { g9 with web_port := some B.WEB_PORT } else g9
  if port_parse g.dht_port (-1) < 1 then .exit 1 (some (.InvalidPort "DHT" g.dht_port)) g
  else if B.CMD ∧ port_parse g.cmd_port (-1) < 0 then
    .exit 1 (some (.InvalidPort "CMD" g.cmd_port)) g
  else if B.DNS ∧ port_parse g.dns_port (-1) < 0 then
    .exit 1 (some (.InvalidPort "DNS" g.dns_port)) g
  else if B.NSS ∧ port_parse g.nss_port (-1) < 0 then
    .exit 1 (some (.InvalidPort "NSS" g.nss_port)) g
  else if B.WEB ∧ port_parse g.web_port (-1) < 0 then
    .exit 1 (some (.InvalidPort "WEB" g.web_port)) g
  else
    (if B.LPD then conf_check_lpd B E g else .ok g).andThen fun g =>
      .ok { g with time_now := E.time_now_sec, startup_time := E.time_now_sec }

/-! ## Command line -/

/-- The test `val && val[0] != '-'` of `conf_load_args`. -/
def is_value (val : Option String) : Bool :=
  match val with
  | none => false
  | some v =>
    match v.data with
    | c :: _ => c ≠ '-'
    | [] => true

/-- The read of the cell `g_argv[j]`: a cell of the vector, the NULL after it
when the array has that cell, and `none` when `j` lies outside the array. -/
def St.read (st : St) (j : Nat) : Option (Option String) :=
  match st.g_argv[j]? with
  | some cell => some cell
  | none => if j = st.g_argv.length ∧ st.terminated = true then some none else none

/-- How one turn of the loop of `conf_load_args` ends: the loop goes on at the
index `i` in the state `st`, or the loop is over with the result `r`. -/
inductive Turn where
  | next (i : Nat) (st : St)
  | stop (r : Res St)

/-- The end of a turn that called `conf_handle_option`: the loop goes on at
the index `i1` when the call returned, and it is over when the call ended the
process. -/
def Turn.of_call (r : Res St) (i1 : Nat) : Turn :=
  match r with
  | .ok st1 => .next i1 st1
  | r => .stop r

/-- One turn of the `for( i = 1; i < g_argc; i++ )` loop of `conf_load_args`
at the index `i`: both `opt = g_argv[i]` and `val = g_argv[i+1]` are read,
then `opt` is handled, with `val` when `val && val[0] != '-'`, and `val` is
stepped over when it was used. -/
def conf_load_args_turn (B : Build) (E : Env) (i : Nat) (st : St) : Turn :=
  if i < st.g_argc then
    match st.read i, st.read (i + 1) with
    | some (some opt), some val =>
      if is_value val then Turn.of_call (conf_handle_option B E opt val st) (i + 2)
      else Turn.of_call (conf_handle_option B E opt none st) (i + 1)
    | some none, some _ => .next (i + 1) st
    | _, _ => .stop (.undefined st)
  else .stop (.ok st)

/-- The loop of `conf_load_args` from the index `i` on.  The vector can grow
while the loop runs, so the model counts the turns down from `fuel`; `none`
says that `fuel` turns were not enough. -/
def conf_load_args_loop (B : Build) (E : Env) : Nat → Nat → St → Option (Res St)
  | 0, _, _ => none
  | fuel + 1, i, st =>
    match conf_load_args_turn B E i st with
    | .next i1 st1 => conf_load_args_loop B E fuel i1 st1
    | .stop r => some r

/-- The state in which the loop of `conf_load_args` starts.  `memdup` (utils.c)
is not among the sources at hand; as called, `memdup(argv, argc * sizeof(char*))`,
it hands back a copy of the `argc` cells `argv[0 .. argc-1]`, without the NULL
that follows them in `argv`, so the array `g_argv` ends with the cell
`g_argv[argc-1]`. -/
def initial_state (g : gconf_t) (argv : List String) : St :=
  { gconf := g, g_argv := argv.map some, terminated := false, trace := [] }

/-- The function `conf_load_args`, started with the record `g`: the loop over
the argument vector, then `conf_check`. -/
def conf_load_args (B : Build) (E : Env) (fuel : Nat) (g : gconf_t)
    (argv : List String) : Option (Res St) :=
  match conf_load_args_loop B E fuel 1 (initial_state g argv) with
  | none => none
  | some r =>
    some (r.andThen fun st =>
      (conf_check B E st.gconf).map (fun g1 => st.set_gconf g1))

/-- The calls of `conf_handle_option` in a trace, in order. -/
def dispatches : List Event → List (String × Option String)
  | [] => []
  | .conf_handle_option opt val :: es => (opt, val) :: dispatches es
  | _ :: es => dispatches es

/-! ## Vocabulary for statements about a run -/

/-- The field of the record that a string option sets through `conf_str`, for
the options the handler passes straight to `conf_str` (`--config` loads its
file first and is not among them). -/
def str_field : OpCode → Option (gconf_t → Option String)
  | .oQueryTld => some gconf_t.query_tld
  | .oPidFile => some gconf_t.pidfile
  | .oPeerFile => some gconf_t.peerfile
  | .oCmdPort => some gconf_t.cmd_port
  | .oDnsPort => some gconf_t.dns_port
  | .oDnsServer => some gconf_t.dns_server
  | .oNssPort => some gconf_t.nss_port
  | .oWebPort => some gconf_t.web_port
  | .oPort => some gconf_t.dht_port
  | .oAddr => some gconf_t.dht_addr
  | .oLpdAddr => some gconf_t.lpd_addr
  | .oIfname => some gconf_t.dht_ifname
  | .oUser => some gconf_t.user
  | _ => none

/-- The tokens handed to `conf_handle_option` by a list of calls, in order:
the option of each call, then its value when it has one. -/
def dispatched_tokens : List (String × Option String) → List String
  | [] => []
  | (opt, none) :: rest => opt :: dispatched_tokens rest
  | (opt, some val) :: rest => opt :: val :: dispatched_tokens rest

/-- The cells `conf_load_file` appends for one line buffer of a file that it
accepts. -/
def line_entries (buf : List Char) : List (Option String) :=
  match line_tokens buf with
  | [option] => [some option, none]
  | [option, value] => [some option, some value]
  | _ => []

/-- The cells `conf_load_file` appends for a file that it accepts, in the
order of the file. -/
def file_entries (content : List Char) : List (Option String) :=
  ((fgets_all 512 content).map line_entries).flatten

/-- A file `conf_load_file` accepts: no line buffer has more than two tokens,
none has `--config` as its first token. -/
def well_formed (content : List Char) : Prop :=
  ∀ buf ∈ fgets_all 512 content,
    (line_tokens buf).length ≤ 2 ∧ (line_tokens buf).head? ≠ some "--config"

/-! ## The configuration file as the specification words it

These definitions follow the words of the specification, not the code; the
theorems on `conf_load_file` compare the two. -/

/-- The pieces of a text between newline characters, without a final empty
piece: a newline ends a line, it does not start another one. -/
def drop_final_empty : List (List Char) → List (List Char)
  | [] => []
  | [l] => if l = [] then [] else [l]
  | l :: ls => l :: drop_final_empty ls

/-- The lines of a file, delimited by newline characters (the newline is not
part of the line). -/
def spec_lines (content : List Char) : List (List Char) :=
  drop_final_empty (content.splitOn '\n')

/-- Whitespace of the specification: space, tab, CR, LF. -/
def spec_whitespace (c : Char) : Bool :=
  c ∈ [' ', '\t', '\r', '\n']

/-- The tokens of a line in the words of the specification: every single and
double quote becomes a space, the text is cut at its first number sign, and
the tokens are the whitespace-separated words of what is left. -/
def spec_tokens (line : List Char) : List String :=
  ((((line.map (fun c => if c = Char.ofNat 39 ∨ c = Char.ofNat 34 then ' ' else c)).takeWhile
    (fun c => c ≠ '#')).splitOnP spec_whitespace).filter (fun w => w ≠ [])).map String.mk

/-- What a line of the file asks for. -/
inductive LineAction where
  | nothing
  | append (option : String) (value : Option String)
  | too_many
  | nested
  deriving DecidableEq, Repr

/-- The rule for one line: no token appends nothing, one or two tokens append
the pair unless the first token is `--config`, which is refused, and three or
more tokens are an error. -/
def spec_line_action (line : List Char) : LineAction :=
  match spec_tokens line with
  | [] => .nothing
  | [option] => if option = "--config" then .nested else .append option none
  | [option, value] => if option = "--config" then .nested else .append option (some value)
  | _ => .too_many

/-- The lines taken one after the other, `k` the number of the first: the
entries are appended in order, and the first refused line ends the process
with its number. -/
def spec_load : List (List Char) → Nat → St → Res St
  | [], _, st => .ok st
  | line :: rest, k, st =>
    match spec_line_action line with
    | .nothing => spec_load rest (k + 1) st
    | .append option value =>
      spec_load rest (k + 1)
        { st with g_argv := st.g_argv ++ [some option, value], terminated := true }
    | .too_many => .exit 1 (some (.TooManyArguments k)) st
    | .nested => .exit 1 (some (.NestedConfig k)) st

/-! ## The command line as the specification words it -/

/-- A token that looks like an option: it begins with `-`. -/
def begins_with_dash (token : String) : Bool :=
  match token.data with
  | c :: _ => c = '-'
  | [] => false

/-- The pairs the specification makes of the tokens after the program name:
an option takes the following token as its value exactly when there is one
and it does not begin with `-`; otherwise the option has no value and the
following token is the next option. -/
def spec_pairs : List String → List (String × Option String)
  | [] => []
  | [opt] => [(opt, none)]
  | opt :: next :: rest =>
    if begins_with_dash next then (opt, none) :: spec_pairs (next :: rest)
    else (opt, some next) :: spec_pairs rest

/-- The state between two calls: no string option was handed over twice with
a value, and a string option handed over with a value has that value in its
field. -/
def once_each (B : Build) (st : St) : Prop :=
  ∀ (opt : String) (f : gconf_t → Option String), str_field (findCode B opt) = some f →
    (∀ pre v1 mid v2 post,
      dispatches st.trace ≠ pre ++ (opt, some v1) :: (mid ++ (opt, some v2) :: post)) ∧
    (∀ v, (opt, some v) ∈ dispatches st.trace → f st.gconf = some v)

/-- What holds of a result whose calls hand a string option over twice with
a value. -/
def second_is_duplicate (B : Build) (r : Res St) : Prop :=
  ∀ (opt : String) (f : gconf_t → Option String) (v1 v2 : String)
    (pre mid post : List (String × Option String)),
    str_field (findCode B opt) = some f →
    dispatches r.state.trace = pre ++ (opt, some v1) :: (mid ++ (opt, some v2) :: post) →
    r = .exit 1 (some (.DuplicateOption opt)) r.state ∧ post = [] ∧ f r.state.gconf = some v1

/-- A buffer that `fgets` filled holds a line, with or without its newline. -/
def holds_line (buf line : List Char) : Prop :=
  buf = line ∨ buf = line ++ ['\n']

/-- The file used to show the rules at work: a comment, a quoted pair, a
single option and an empty line. -/
def sample_file : List Char :=
  "# peers\n--port '6881'\n--daemon\n\n".data

/-- A file whose third line names `--config`. -/
def nested_file : List Char :=
  "--port 6881\n\n--config other.conf\n--daemon\n".data

/-- A file whose first line has 511 bytes before its newline and whose second
line has three tokens. -/
def long_line_file : List Char :=
  List.replicate 511 'a' ++ "\na b c\n".data

/-! ## Vocabulary for statements about `conf_check` -/

/-- The record with the defaults of `conf_check` in place of the settings that
were not set, and with the address of the DNS server resolved: what the steps
of `conf_check` before the port checks make of `g0` when the DNS server, if
one is given, resolves.  (The default of the local discovery address and the
times are set after the port checks.) -/
def with_defaults (B : Build) (E : Env) (g0 : gconf_t) : gconf_t :=
  { g0 with
    af := if g0.af = 0 then AF_INET else g0.af
    query_tld := some (g0.query_tld.getD B.QUERY_TLD_DEFAULT)
    node_id_str := some (g0.node_id_str.getD E.random_node_id)
    dht_port := some (g0.dht_port.getD B.DHT_PORT)
    dht_addr := some (g0.dht_addr.getD
      (if (if g0.af = 0 then AF_INET else g0.af) = AF_INET then B.DHT_ADDR4 else B.DHT_ADDR6))
    cmd_port := if B.CMD = true then some (g0.cmd_port.getD B.CMD_PORT) else g0.cmd_port
    dns_port := if B.DNS = true then some (g0.dns_port.getD B.DNS_PORT) else g0.dns_port
    dns_server_addr :=
      if B.DNS = true ∧ g0.dns_server ≠ none then E.addr_parse g0.dns_server "53" AF_UNSPEC
      else g0.dns_server_addr
    nss_port := if B.NSS = true then some (g0.nss_port.getD B.NSS_PORT) else g0.nss_port
    web_port := if B.WEB = true then some (g0.web_port.getD B.WEB_PORT) else g0.web_port }

/-- The port fields in the order `conf_check` validates them, those of a
feature only when the feature is compiled in: the name in the message, the
string that is validated (the field, or the default of the build when the
field is not set) and the least port the check lets pass (`< 1` is refused
for the DHT port, `< 0` for the others). -/
def port_fields (B : Build) (g : gconf_t) : List (String × Option String × Nat) :=
  [("DHT", some (g.dht_port.getD B.DHT_PORT), 1)]
  ++ (if B.CMD then [("CMD", some (g.cmd_port.getD B.CMD_PORT), 0)] else [])
  ++ (if B.DNS then [("DNS", some (g.dns_port.getD B.DNS_PORT), 0)] else [])
  ++ (if B.NSS then [("NSS", some (g.nss_port.getD B.NSS_PORT), 0)] else [])
  ++ (if B.WEB then [("WEB", some (g.web_port.getD B.WEB_PORT), 0)] else [])

/-- A port string that denotes a number in `[lo, 65535]`: it is not empty, all
its characters are decimal digits, and its value lies in the range. -/
def denotes_port (s : Option String) (lo : Nat) : Bool :=
  match s with
  | none => false
  | some str =>
    str.data ≠ [] ∧ str.data.all Char.isDigit ∧ lo ≤ decimal str.data ∧ decimal str.data ≤ 65535

/-- The multicast class of the specification: the first octet is 224 or 239
for the IPv4 family, and 0xFF for the IPv6 family. -/
def is_multicast (af : Nat) (ip : IP) : Bool :=
  (af = AF_INET ∧ (ip.addr.headD 0 = 224 ∨ ip.addr.headD 0 = 239)) ∨
  (af = AF_INET6 ∧ ip.addr.headD 0 = 255)

/-! ## Vocabulary for statements about the handlers -/

/-- The calls of `conf_load_file` in a trace: the file names, in order. -/
def loads : List Event → List String
  | [] => []
  | .conf_load_file filename :: es => filename :: loads es
  | _ :: es => loads es

/-- The state between two calls as far as `--config` goes: at most one file
was loaded, `configfile` is set once a file was loaded or `--config` was
handed over with a value, and `--config` was not handed over twice with a
value. -/
def config_once (st : St) : Prop :=
  (loads st.trace).length ≤ 1 ∧
  (loads st.trace ≠ [] → st.gconf.configfile ≠ none) ∧
  (∀ v, ("--config", some v) ∈ dispatches st.trace → st.gconf.configfile ≠ none) ∧
  (∀ pre v1 mid v2 post, dispatches st.trace ≠
    pre ++ ("--config", some v1) :: (mid ++ ("--config", some v2) :: post))

/-- What holds of a result as far as `--config` goes: a result that returns
has loaded at most one file, and a result whose calls hand `--config` over
twice with a value ended in the second of them, with "Option was already set"
once the second file was read and with the message of `conf_load_file` when
that file is refused. -/
def config_twice_ends (E : Env) (r : Res St) : Prop :=
  ((∃ s, r = .ok s) → (loads r.state.trace).length ≤ 1) ∧
  ∀ (v1 v2 : String) (pre mid post : List (String × Option String)),
    dispatches r.state.trace =
      pre ++ ("--config", some v1) :: (mid ++ ("--config", some v2) :: post) →
    post = [] ∧
    (∃ m, r = .exit 1 (some m) r.state ∧
      (m = .DuplicateOption "--config" ∨ m = .FileExpected v2 ∨ m = .CannotOpen v2 ∨
        (∃ k, m = .TooManyArguments k) ∨ (∃ k, m = .NestedConfig k))) ∧
    (∀ content, not_regular (E.fs v2) = false → (E.fs v2).content = some content →
      well_formed content → r = .exit 1 (some (.DuplicateOption "--config")) r.state)

/-- The pairs the loop of `conf_load_args` makes of the cells of a vector that
ends with NULL: a NULL cell is stepped over, and an option takes the next
cell as its value exactly when `val && val[0] != '-'`. -/
def cell_pairs : List (Option String) → List (String × Option String)
  | [] => []
  | none :: rest => cell_pairs rest
  | [some opt] => [(opt, none)]
  | some opt :: val :: rest =>
    if is_value val then (opt, val) :: cell_pairs rest
    else (opt, none) :: cell_pairs (val :: rest)

/-- The call a line buffer of an accepted file asks for: the first token with
the second token as its value, or with no value. -/
def line_pair (buf : List Char) : Option (String × Option String) :=
  match line_tokens buf with
  | [option] => some (option, none)
  | [option, value] => some (option, some value)
  | _ => none

/-- The calls the lines of an accepted file ask for, one for each line that
is not empty, in the order of the file. -/
def file_pairs (content : List Char) : List (String × Option String) :=
  (fgets_all 512 content).filterMap line_pair

/-- A line that starts with an option: its first token begins with `-`, and
its second token, when there is one, does not. -/
def leads_with_option (buf : List Char) : Bool :=
  match line_pair buf with
  | none => true
  | some (option, none) => begins_with_dash option
  | some (option, some value) => begins_with_dash option && !begins_with_dash value

/-- A file whose lines all start with an option. -/
def options_lead (content : List Char) : Prop :=
  ∀ buf ∈ fgets_all 512 content, leads_with_option buf = true

/-- A file with `--config` as the second token of a line, and the name of a
file on the line after it. -/
def second_token_file : List Char :=
  "--daemon --config\nf\n".data

/-! ## Vocabulary for the order of the calls -/

/-- The call a line of the file asks for, in the words of the specification:
the first token with the second token as its value, or with no value. -/
def spec_line_pair (line : List Char) : Option (String × Option String) :=
  match spec_tokens line with
  | [option] => some (option, none)
  | [option, value] => some (option, some value)
  | _ => none

/-- The calls the lines of a file ask for, one for each line that is not
empty, in the order of the file. -/
def spec_file_pairs (content : List Char) : List (String × Option String) :=
  (spec_lines content).filterMap spec_line_pair

/-- A well-formed file in the words of the specification: every line has at
most two tokens, and no line has `--config` as its first token. -/
def spec_well_formed (content : List Char) : Prop :=
  ∀ line ∈ spec_lines content,
    (spec_tokens line).length ≤ 2 ∧ (spec_tokens line).head? ≠ some "--config"

/-- A line that starts with an option, in the words of the specification: its
first token begins with `-`, and its second token, when there is one, does
not. -/
def spec_leads_with_option (line : List Char) : Bool :=
  match spec_line_pair line with
  | none => true
  | some (option, none) => begins_with_dash option
  | some (option, some value) => begins_with_dash option && !begins_with_dash value

/-- A file whose lines all start with an option. -/
def spec_options_lead (content : List Char) : Prop :=
  ∀ line ∈ spec_lines content, spec_leads_with_option line = true

/-! ## Vocabulary for the frame of `conf_check` -/

/-- What a step of `conf_check` leaves of the record `g0` in the record `g`:
a setting with a default that is set in `g0` (or whose feature is not
compiled in) has its value in `g`, the resolved address of the DNS server is
the one of `g0` unless the feature is compiled in and a server is given, and
every field but these and the two times has its value in `g`. -/
def keeps_settings (B : Build) (g0 g : gconf_t) : Prop :=
  (g0.af ≠ 0 → g.af = g0.af) ∧
  (g0.query_tld ≠ none → g.query_tld = g0.query_tld) ∧
  (g0.node_id_str ≠ none → g.node_id_str = g0.node_id_str) ∧
  (g0.dht_port ≠ none → g.dht_port = g0.dht_port) ∧
  (g0.dht_addr ≠ none → g.dht_addr = g0.dht_addr) ∧
  (g0.cmd_port ≠ none ∨ B.CMD = false → g.cmd_port = g0.cmd_port) ∧
  (g0.dns_port ≠ none ∨ B.DNS = false → g.dns_port = g0.dns_port) ∧
  (g0.nss_port ≠ none ∨ B.NSS = false → g.nss_port = g0.nss_port) ∧
  (g0.web_port ≠ none ∨ B.WEB = false → g.web_port = g0.web_port) ∧
  (g0.lpd_addr ≠ none ∨ B.LPD = false → g.lpd_addr = g0.lpd_addr) ∧
  (g0.dns_server = none ∨ B.DNS = false → g.dns_server_addr = g0.dns_server_addr) ∧
  g.is_running = g0.is_running ∧ g.verbosity = g0.verbosity ∧
  g.is_daemon = g0.is_daemon ∧ g.user = g0.user ∧ g.pidfile = g0.pidfile ∧
  g.peerfile = g0.peerfile ∧ g.dht_ifname = g0.dht_ifname ∧
  g.configfile = g0.configfile ∧ g.lpd_disable = g0.lpd_disable ∧
  g.cmd_disable_stdin = g0.cmd_disable_stdin ∧ g.dns_server = g0.dns_server ∧
  g.fwd_disable = g0.fwd_disable ∧ g.service_start = g0.service_start

/-! ## Sample builds and collaborators for closed statements -/

/-- A build with every feature compiled in except the Windows service, with
the usual defaults of KadNode. -/
def sample_build : Build :=
  { LPD := true, BOB := true, CMD := true, DNS := true, NSS := true, TLS := true
    WEB := true, FWD := true, CYGWIN := false, DEBUG := false
    QUERY_TLD_DEFAULT := ".p2p", DHT_PORT := "6881"
    DHT_ADDR4 := "0.0.0.0", DHT_ADDR6 := "::"
    CMD_PORT := "1700", DNS_PORT := "3535", NSS_PORT := "4053", WEB_PORT := "8053"
    LPD_ADDR4 := "239.192.152.143", LPD_ADDR6 := "ff15::efc0:988f", LPD_PORT := "6771" }

/-- A file system that holds the regular files `files` (name, bytes) and
nothing else. -/
def fs_of (files : List (String × List Char)) (filename : String) : FileInfo :=
  match files.lookup filename with
  | some content => { st_mode := some 33188, content := some content }
  | none => { st_mode := none, content := none }

/-- Collaborators that answer every call with `rc`, on the files `files`. -/
def env_answering (rc : Int) (files : List (String × List Char)) : Env :=
  { kad_announce := fun _ _ _ _ => rc
    tls_add_ca_entry := fun _ _ => rc
    bob_add_skey := fun _ _ => rc
    bob_generate_key_pair := fun _ => rc
    fs := fs_of files
    random_node_id := "0000000000000000000000000000000000000000"
    addr_parse := fun _ _ af => some { family := af, addr := [if af = AF_INET then 239 else 255] }
    time_now_sec := 0 }

/-- A state with the record of `conf_init`, the vector `argv` as copied
and an empty trace. -/
def start_state (argv : List String) : St :=
  initial_state (conf_init sample_build) argv

/-! ## Basic facts -/

@[simp]
theorem Res.state_map {σ τ : Type} (f : σ → τ) (r : Res σ) :
    (r.map f).state = f r.state := by
  cases r <;> rfl

@[simp]
theorem Res.state_ok {σ : Type} (s : σ) : (Res.ok s).state = s := rfl

@[simp]
theorem Res.state_exit {σ : Type} (c : Int) (m : Option Diag) (s : σ) :
    (Res.exit c m s).state = s := rfl

@[simp]
theorem Res.state_undefined {σ : Type} (s : σ) : (Res.undefined s).state = s := rfl

@[simp]
theorem St.emit_gconf (st : St) (e : Event) : (st.emit e).gconf = st.gconf := rfl

@[simp]
theorem St.emit_g_argv (st : St) (e : Event) : (st.emit e).g_argv = st.g_argv := rfl

@[simp]
theorem St.emit_terminated (st : St) (e : Event) :
    (st.emit e).terminated = st.terminated := rfl

@[simp]
theorem St.emit_trace (st : St) (e : Event) : (st.emit e).trace = st.trace ++ [e] := rfl

@[simp]
theorem St.set_gconf_gconf (st : St) (g : gconf_t) : (st.set_gconf g).gconf = g := rfl

@[simp]
theorem St.set_gconf_g_argv (st : St) (g : gconf_t) :
    (st.set_gconf g).g_argv = st.g_argv := rfl

@[simp]
theorem St.set_gconf_terminated (st : St) (g : gconf_t) :
    (st.set_gconf g).terminated = st.terminated := rfl

@[simp]
theorem St.set_gconf_trace (st : St) (g : gconf_t) :
    (st.set_gconf g).trace = st.trace := rfl

/-! ## The setter `conf_str` -/

/-- Claim C2: for every option name, every content of the destination field
and every value, `conf_str` ends the process with ArgumentExpected when no
value is given (whether or not the field is set), ends it with DuplicateOption
when a value is given and the field is set, and otherwise returns with the
value stored in the field; in both failure cases the field is as it was. -/
theorem conf_str_sets_once (opt : String) (dst : Option String) (d v : String) :
    conf_str opt dst none = .exit 1 (some (.ArgumentExpected opt)) dst ∧
    conf_str opt (some d) (some v) = .exit 1 (some (.DuplicateOption opt)) (some d) ∧
    conf_str opt none (some v) = .ok (some v) := by
  refine ⟨?_, ?_, ?_⟩ <;> simp [conf_str]

/-! ## The value announcement `conf_apply_value` -/

theorem strchr_append (before after : List Char) (c : Char) (h : c ∉ before) :
    strchr (before ++ c :: after) c = some (before, after) := by
  induction before with
  | nil => simp [strchr]
  | cons x xs ih =>
    have hx : x ≠ c := fun e => h (by simp [e])
    have hxs : c ∉ xs := fun e => h (by simp [e])
    simp [strchr, hx, ih hxs]

theorem strchr_none (s : List Char) (c : Char) (h : c ∉ s) : strchr s c = none := by
  induction s with
  | nil => simp [strchr]
  | cons x xs ih =>
    have hx : x ≠ c := fun e => h (by simp [e])
    have hxs : c ∉ xs := fun e => h (by simp [e])
    simp [strchr, hx, ih hxs]

/-- Claim C8 fails as stated for the value `a:b:80`: `conf_apply_value` cuts it
at the first colon, announces the identifier `a` with the port `-1` that
`port_parse` gives for `b:80`, and makes no call with the identifier `a:b` and
the port 80. -/
theorem conf_apply_value_last_colon_counterexample :
    (conf_apply_value sample_build (env_answering 0 []) "a:b:80" (start_state [])).state.trace
        = [.kad_announce "a" (-1) LONG_MAX, .fwd_add (-1) LONG_MAX] ∧
    Event.kad_announce "a:b" 80 LONG_MAX ∉
      (conf_apply_value sample_build (env_answering 0 []) "a:b:80"
        (start_state [])).state.trace := by
  decide

/-- Claim C8, amended: for every value with at least one colon,
`conf_apply_value` splits it at the FIRST colon: the identifier passed to
`kad_announce` is the text before the first colon and the port is what
`port_parse` makes of all the text after it (for `a:b:80` the identifier `a`
and the port `-1`); the only other call is the `fwd_add` of that port, made
when `kad_announce` accepts and port forwarding is compiled in. -/
theorem conf_apply_value_first_colon (B : Build) (E : Env) (val : String) (st : St)
    (before after : List Char) (hval : val.data = before ++ ':' :: after)
    (hfirst : ':' ∉ before) :
    (conf_apply_value B E val st).state.trace =
      st.trace ++ [.kad_announce (String.mk before)
          (port_parse (some (String.mk after)) (-1)) LONG_MAX] ++
        (if 0 ≤ E.kad_announce st.trace (String.mk before)
            (port_parse (some (String.mk after)) (-1)) LONG_MAX ∧ B.FWD = true
         then [.fwd_add (port_parse (some (String.mk after)) (-1)) LONG_MAX] else []) := by
  simp only [conf_apply_value, hval, strchr_append before after ':' hfirst]
  by_cases hrc : E.kad_announce st.trace (String.mk before)
      (port_parse (some (String.mk after)) (-1)) LONG_MAX < 0
  · have : ¬ (0 ≤ E.kad_announce st.trace (String.mk before)
      (port_parse (some (String.mk after)) (-1)) LONG_MAX) := by omega
    simp [hrc, this, Res.state, St.emit]
  · have : (0 ≤ E.kad_announce st.trace (String.mk before)
      (port_parse (some (String.mk after)) (-1)) LONG_MAX) := by omega
    cases hF : B.FWD <;> simp [hrc, this, Res.state, St.emit, hF]

theorem conf_apply_value_first_colon_witness :
    "a:b:80".data = ['a'] ++ ':' :: ['b', ':', '8', '0'] ∧ ':' ∉ ['a'] ∧
    (conf_apply_value sample_build (env_answering 0 []) "a:b:80" (start_state [])).state.trace =
      (start_state []).trace ++ [.kad_announce (String.mk ['a'])
          (port_parse (some (String.mk ['b', ':', '8', '0'])) (-1)) LONG_MAX] ++
        (if 0 ≤ (env_answering 0 []).kad_announce (start_state []).trace (String.mk ['a'])
            (port_parse (some (String.mk ['b', ':', '8', '0'])) (-1)) LONG_MAX ∧
            sample_build.FWD = true
         then [.fwd_add (port_parse (some (String.mk ['b', ':', '8', '0'])) (-1)) LONG_MAX]
         else []) :=
  ⟨by decide, by decide,
    conf_apply_value_first_colon sample_build (env_answering 0 []) "a:b:80" (start_state [])
      ['a'] ['b', ':', '8', '0'] (by decide) (by decide)⟩

/-- Claim C9 fails as stated for the values `foo` and `foo:1234` with port
forwarding compiled in: for `foo` the only call is `kad_announce` with port 0,
no forwarding is asked for, and for `foo:1234` the announcement on port 1234
is followed by `fwd_add` for port 1234. -/
theorem conf_apply_value_forwarding_counterexample :
    sample_build.FWD = true ∧
    conf_apply_value sample_build (env_answering 0 []) "foo" (start_state []) =
      .ok ((start_state []).emit (.kad_announce "foo" 0 LONG_MAX)) ∧
    conf_apply_value sample_build (env_answering 0 []) "foo:1234" (start_state []) =
      .ok (((start_state []).emit (.kad_announce "foo" 1234 LONG_MAX)).emit
        (.fwd_add 1234 LONG_MAX)) := by
  refine ⟨rfl, ?_, ?_⟩ <;> rfl

/-- Claim C9, amended: with port forwarding compiled in, `conf_apply_value`
announces a value `<id>` without colon through `kad_announce` with port 0 and
expiry `LONG_MAX` and asks for no forwarding; for `<id>:<port>` it announces
`<id>` on the port `port_parse` gives with expiry `LONG_MAX` and, when
`kad_announce` accepts, asks for the forwarding of that port with `fwd_add`:
forwarding is asked for exactly in the case with an explicit port.  In both
cases a negative answer of `kad_announce` ends the process. -/
theorem conf_apply_value_forwarding (B : Build) (E : Env) (st : St) (id p : String)
    (hFWD : B.FWD = true) (hid : ':' ∉ id.data) :
    conf_apply_value B E id st =
      (if E.kad_announce st.trace id 0 LONG_MAX < 0
       then .exit 1 (some (.InvalidAnnouncePort 0)) (st.emit (.kad_announce id 0 LONG_MAX))
       else .ok (st.emit (.kad_announce id 0 LONG_MAX))) ∧
    conf_apply_value B E (id ++ ":" ++ p) st =
      (if E.kad_announce st.trace id (port_parse (some p) (-1)) LONG_MAX < 0
       then .exit 1 (some (.InvalidAnnouncePort (port_parse (some p) (-1))))
          (st.emit (.kad_announce id (port_parse (some p) (-1)) LONG_MAX))
       else .ok ((st.emit (.kad_announce id (port_parse (some p) (-1)) LONG_MAX)).emit
          (.fwd_add (port_parse (some p) (-1)) LONG_MAX))) := by
  have hdata : (id ++ ":" ++ p).data = id.data ++ ':' :: p.data := by
    simp [String.data_append]
  constructor
  · simp [conf_apply_value, strchr_none id.data ':' hid]
  · simp only [conf_apply_value, hdata, strchr_append id.data p.data ':' hid]
    simp [hFWD]

theorem conf_apply_value_forwarding_witness :
    sample_build.FWD = true ∧ ':' ∉ "foo".data ∧
    (conf_apply_value sample_build (env_answering 0 []) "foo" (start_state []) =
      (if (env_answering 0 []).kad_announce (start_state []).trace "foo" 0 LONG_MAX < 0
       then .exit 1 (some (.InvalidAnnouncePort 0))
          ((start_state []).emit (.kad_announce "foo" 0 LONG_MAX))
       else .ok ((start_state []).emit (.kad_announce "foo" 0 LONG_MAX))) ∧
    conf_apply_value sample_build (env_answering 0 []) ("foo" ++ ":" ++ "1234") (start_state []) =
      (if (env_answering 0 []).kad_announce (start_state []).trace "foo"
          (port_parse (some "1234") (-1)) LONG_MAX < 0
       then .exit 1 (some (.InvalidAnnouncePort (port_parse (some "1234") (-1))))
          ((start_state []).emit (.kad_announce "foo" (port_parse (some "1234") (-1)) LONG_MAX))
       else .ok (((start_state []).emit
          (.kad_announce "foo" (port_parse (some "1234") (-1)) LONG_MAX)).emit
          (.fwd_add (port_parse (some "1234") (-1)) LONG_MAX)))) :=
  ⟨by decide, by decide,
    conf_apply_value_forwarding sample_build (env_answering 0 []) (start_state []) "foo" "1234"
      (by decide) (by decide)⟩

/-- Claim C10 fails as stated for the value `foo:abc` and a `kad_announce` that
answers 0: the suffix is no port number, `port_parse` gives `-1`, and
`conf_apply_value` returns, after asking for the forwarding of port `-1`. -/
theorem conf_apply_value_invalid_port_counterexample :
    port_parse (some "abc") (-1) = -1 ∧
    conf_apply_value sample_build (env_answering 0 []) "foo:abc" (start_state []) =
      .ok (((start_state []).emit (.kad_announce "foo" (-1) LONG_MAX)).emit
        (.fwd_add (-1) LONG_MAX)) := by
  constructor <;> rfl

/-- Claim C10, amended: for every value `<id>:<suffix>` whose suffix is no valid
port number, `conf_apply_value` calls `kad_announce` with the identifier and
the port `-1`, and it ends the process (exit status 1, "Invalid port for value
annoucement") exactly when `kad_announce` answers that call with a negative
number; when the answer is not negative it returns. -/
theorem conf_apply_value_invalid_port (B : Build) (E : Env) (st : St) (id suffix : String)
    (hid : ':' ∉ id.data) (hport : port_parse (some suffix) (-1) = -1) :
    (conf_apply_value B E (id ++ ":" ++ suffix) st).state.trace.take (st.trace.length + 1) =
      st.trace ++ [.kad_announce id (-1) LONG_MAX] ∧
    (conf_apply_value B E (id ++ ":" ++ suffix) st =
        .exit 1 (some (.InvalidAnnouncePort (-1))) (st.emit (.kad_announce id (-1) LONG_MAX))
      ↔ E.kad_announce st.trace id (-1) LONG_MAX < 0) ∧
    ((∃ s, conf_apply_value B E (id ++ ":" ++ suffix) st = .ok s)
      ↔ 0 ≤ E.kad_announce st.trace id (-1) LONG_MAX) := by
  have hdata : (id ++ ":" ++ suffix).data = id.data ++ ':' :: suffix.data := by
    simp [String.data_append]
  simp only [conf_apply_value, hdata, strchr_append id.data suffix.data ':' hid, hport]
  by_cases hrc : E.kad_announce st.trace id (-1) LONG_MAX < 0
  · have : ¬ (0 ≤ E.kad_announce st.trace id (-1) LONG_MAX) := by omega
    simp [hrc, this, Res.state, St.emit]
  · have : (0 ≤ E.kad_announce st.trace id (-1) LONG_MAX) := by omega
    cases hF : B.FWD <;>
      simp [hrc, this, Res.state, St.emit, hF, List.take_append_eq_append_take]

theorem conf_apply_value_invalid_port_witness :
    ':' ∉ "foo".data ∧ port_parse (some "abc") (-1) = -1 ∧
    ((conf_apply_value sample_build (env_answering (-1) []) ("foo" ++ ":" ++ "abc")
        (start_state [])).state.trace.take ((start_state []).trace.length + 1) =
      (start_state []).trace ++ [.kad_announce "foo" (-1) LONG_MAX] ∧
    (conf_apply_value sample_build (env_answering (-1) []) ("foo" ++ ":" ++ "abc")
        (start_state []) =
        .exit 1 (some (.InvalidAnnouncePort (-1)))
          ((start_state []).emit (.kad_announce "foo" (-1) LONG_MAX))
      ↔ (env_answering (-1) []).kad_announce (start_state []).trace "foo" (-1) LONG_MAX < 0) ∧
    ((∃ s, conf_apply_value sample_build (env_answering (-1) []) ("foo" ++ ":" ++ "abc")
        (start_state []) = .ok s)
      ↔ 0 ≤ (env_answering (-1) []).kad_announce (start_state []).trace "foo" (-1) LONG_MAX)) :=
  ⟨by decide, by decide,
    conf_apply_value_invalid_port sample_build (env_answering (-1) []) (start_state [])
      "foo" "abc" (by decide) (by decide)⟩

/-! ### Tokens -/

theorem strtok_all_delim (c : Char) (cs : List Char) (h : is_delim c = true) :
    strtok_all (c :: cs) = strtok_all cs := by
  simp [strtok_all, h]

theorem strtok_all_single (c : Char) (h : ¬ is_delim c = true) :
    strtok_all [c] = [[c]] := by
  simp [strtok_all, h]

theorem strtok_all_cons_delim (c d : Char) (ds : List Char) (hc : ¬ is_delim c = true)
    (hd : is_delim d = true) :
    strtok_all (c :: d :: ds) = [c] :: strtok_all (d :: ds) := by
  rw [strtok_all]; simp [hc, hd]

theorem strtok_all_cons_cons (c d : Char) (ds : List Char) (hc : ¬ is_delim c = true)
    (hd : ¬ is_delim d = true) :
    strtok_all (c :: d :: ds) = push_front c (strtok_all (d :: ds)) := by
  rw [strtok_all]; simp [hc, hd]

theorem strtok_all_eq_filter (l : List Char) :
    strtok_all l = (l.splitOnP is_delim).filter (fun w => w ≠ []) := by
  induction l with
  | nil => simp [strtok_all, List.splitOnP_nil]
  | cons c cs ih =>
    by_cases hc : is_delim c = true
    · rw [strtok_all_delim c cs hc, List.splitOnP_cons, ih]; simp [hc]
    · cases cs with
      | nil => rw [strtok_all_single c hc]; simp [List.splitOnP_cons, hc, List.splitOnP_nil]
      | cons d ds =>
        by_cases hd : is_delim d = true
        · rw [strtok_all_cons_delim c d ds hc hd, ih, List.splitOnP_cons _ c, List.splitOnP_cons _ d]
          simp [hc, hd]
        · rw [strtok_all_cons_cons c d ds hc hd, ih, List.splitOnP_cons _ c, List.splitOnP_cons _ d]
          have hne := List.splitOnP_ne_nil is_delim ds
          cases hsp : List.splitOnP is_delim ds with
          | nil => exact absurd hsp hne
          | cons h t => simp [hc, hd, List.modifyHead, push_front]

theorem is_delim_eq_spec_whitespace : is_delim = spec_whitespace := by
  funext c
  simp only [is_delim, spec_whitespace]
  by_cases h1 : c = ' ' <;> by_cases h2 : c = '\t' <;> by_cases h3 : c = '\n' <;>
    by_cases h4 : c = '\r' <;> simp [h1, h2, h3, h4]

theorem strtok_all_append_delim (l : List Char) (d : Char) (hd : is_delim d = true) :
    strtok_all (l ++ [d]) = strtok_all l := by
  induction l with
  | nil => rw [List.nil_append, strtok_all_delim d [] hd]
  | cons c cs ih =>
    by_cases hc : is_delim c = true
    · rw [List.cons_append, strtok_all_delim c _ hc, strtok_all_delim c _ hc, ih]
    · cases cs with
      | nil =>
        rw [List.cons_append, List.nil_append, strtok_all_cons_delim c d [] hc hd,
          strtok_all_delim d [] hd, strtok_all_single c hc]
        simp [strtok_all]
      | cons e es =>
        simp only [List.cons_append] at ih ⊢
        by_cases he : is_delim e = true
        · rw [strtok_all_cons_delim c e _ hc he, strtok_all_cons_delim c e _ hc he, ih]
        · rw [strtok_all_cons_cons c e _ hc he, strtok_all_cons_cons c e _ hc he, ih]

/-! ### One line -/

theorem cut_comment_map_quotes (l : List Char) :
    (l.map (fun c => if c = Char.ofNat 39 ∨ c = Char.ofNat 34 then ' ' else c)).takeWhile
        (fun c => c ≠ '#') = replace_quotes (cut_comment l) := by
  rw [List.takeWhile_map]
  unfold replace_quotes cut_comment
  have hf : ((fun c => decide (c ≠ '#')) ∘
      fun c => if c = Char.ofNat 39 ∨ c = Char.ofNat 34 then ' ' else c) =
      fun c => decide (c ≠ '#') := by
    funext c
    simp only [Function.comp]
    by_cases h1 : c = Char.ofNat 39
    · subst h1; decide
    · by_cases h2 : c = Char.ofNat 34
      · subst h2; decide
      · simp [h1, h2]
  rw [hf]

theorem c_str_of_no_nul (l : List Char) (h : Char.ofNat 0 ∉ l) : c_str l = l := by
  unfold c_str
  rw [List.takeWhile_eq_self_iff]
  intro x hx
  have : x ≠ Char.ofNat 0 := fun e => h (e ▸ hx)
  simpa using this

theorem line_tokens_eq_spec_tokens (line : List Char) (h : Char.ofNat 0 ∉ line) :
    line_tokens line = spec_tokens line := by
  unfold line_tokens spec_tokens
  rw [c_str_of_no_nul line h, strtok_all_eq_filter, cut_comment_map_quotes,
    is_delim_eq_spec_whitespace]

theorem strtok_all_cut_newline (line : List Char) :
    strtok_all (replace_quotes (cut_comment (line ++ ['\n']))) =
      strtok_all (replace_quotes (cut_comment line)) := by
  unfold cut_comment
  rw [List.takeWhile_append]
  split
  · have : List.takeWhile (fun c => decide (c ≠ '#')) ['\n'] = ['\n'] := by decide
    rw [this]
    have h2 : List.takeWhile (fun c => decide (c ≠ '#')) line = line := by
      have := List.takeWhile_append_dropWhile (fun c => decide (c ≠ '#')) line
      have hl : (List.dropWhile (fun c => decide (c ≠ '#')) line).length = 0 := by
        have := congrArg List.length this
        simp only [List.length_append] at this
        omega
      rw [List.length_eq_zero] at hl
      rw [hl, List.append_nil] at this
      exact this
    rw [h2]
    unfold replace_quotes
    rw [List.map_append]
    have : List.map (fun c => if c = Char.ofNat 39 ∨ c = Char.ofNat 34 then ' ' else c) ['\n']
        = ['\n'] := by decide
    rw [this]
    exact strtok_all_append_delim _ '\n' (by decide)
  · rfl

theorem line_tokens_of_holds_line (buf line : List Char) (hb : holds_line buf line)
    (h : Char.ofNat 0 ∉ line) : line_tokens buf = spec_tokens line := by
  rcases hb with rfl | rfl
  · exact line_tokens_eq_spec_tokens _ h
  · rw [← line_tokens_eq_spec_tokens line h]
    unfold line_tokens
    have hn : Char.ofNat 0 ∉ line ++ ['\n'] := by
      intro hm
      rw [List.mem_append] at hm
      rcases hm with hm | hm
      · exact h hm
      · revert hm; decide
    rw [c_str_of_no_nul _ hn, c_str_of_no_nul _ h, strtok_all_cut_newline]

theorem conf_load_file_line_eq (n : Nat) (buf line : List Char) (st : St)
    (hb : holds_line buf line) (h : Char.ofNat 0 ∉ line) :
    conf_load_file_line n buf st =
      match spec_line_action line with
      | .nothing => .ok st
      | .append option value =>
        .ok { st with g_argv := st.g_argv ++ [some option, value], terminated := true }
      | .too_many => .exit 1 (some (.TooManyArguments n)) st
      | .nested => .exit 1 (some (.NestedConfig n)) st := by
  unfold conf_load_file_line spec_line_action
  rw [line_tokens_of_holds_line buf line hb h]
  rcases spec_tokens line with _ | ⟨a, _ | ⟨b, _ | ⟨c, r⟩⟩⟩
  · simp [parse_tokens]
  · by_cases ha : a = "--config" <;> simp [parse_tokens, ha, conf_append]
  · by_cases ha : a = "--config" <;> simp [parse_tokens, ha, conf_append]
  · simp [parse_tokens]

theorem conf_load_file_loop_eq_spec_load (bufs lines : List (List Char))
    (hb : List.Forall₂ holds_line bufs lines) (h : ∀ l ∈ lines, Char.ofNat 0 ∉ l) :
    ∀ (n : Nat) (st : St), conf_load_file_loop bufs n st = spec_load lines (n + 1) st := by
  induction hb with
  | nil => intro n st; rfl
  | @cons buf line bufs lines hd _ ih =>
    intro n st
    have hline := h line (by simp)
    have hrest : ∀ l ∈ lines, Char.ofNat 0 ∉ l := fun l hl => h l (by simp [hl])
    rw [conf_load_file_loop, spec_load, conf_load_file_line_eq (n + 1) buf line st hd hline]
    cases spec_line_action line <;> simp [ih hrest]


/-! ### Buffers and lines -/

theorem drop_final_empty_cons_cons (a b : List Char) (r : List (List Char)) :
    drop_final_empty (a :: b :: r) = a :: drop_final_empty (b :: r) := by
  simp [drop_final_empty]

theorem drop_final_empty_cons_of_ne_nil (a : List Char) (r : List (List Char)) (hr : r ≠ []) :
    drop_final_empty (a :: r) = a :: drop_final_empty r := by
  cases r with
  | nil => exact absurd rfl hr
  | cons b r => exact drop_final_empty_cons_cons a b r

theorem mem_of_mem_drop_final_empty (ls : List (List Char)) :
    ∀ l ∈ drop_final_empty ls, l ∈ ls := by
  induction ls with
  | nil => intro l hl; simp [drop_final_empty] at hl
  | cons a r ih =>
    intro l hl
    cases r with
    | nil =>
      by_cases ha : a = []
      · simp [drop_final_empty, ha] at hl
      · simpa [drop_final_empty, ha] using hl
    | cons b r =>
      rw [drop_final_empty_cons_cons] at hl
      rcases List.mem_cons.mp hl with h | h
      · simp [h]
      · exact List.mem_cons_of_mem _ (ih l h)

theorem mem_drop_final_empty_of_ne_nil (ls : List (List Char)) :
    ∀ l ∈ ls, l ≠ [] → l ∈ drop_final_empty ls := by
  induction ls with
  | nil => intro l hl; simp at hl
  | cons a r ih =>
    intro l hl hne
    cases r with
    | nil =>
      have : l = a := by simpa using hl
      subst this
      simp [drop_final_empty, hne]
    | cons b r =>
      rw [drop_final_empty_cons_cons]
      rcases List.mem_cons.mp hl with h | h
      · simp [h]
      · exact List.mem_cons_of_mem _ (ih l h hne)

theorem fgets_from_holds_lines (content : List Char) :
    ∀ room : Nat,
      (∀ h t, content.splitOnP (fun c => c == '\n') = h :: t →
        h.length < room ∧ ∀ l ∈ t, l.length < 511) →
      List.Forall₂ holds_line (fgets_from 512 room content)
        (drop_final_empty (content.splitOnP (fun c => c == '\n'))) := by
  induction content with
  | nil =>
    intro room _
    simp [fgets_from, List.splitOnP_nil, drop_final_empty]
  | cons c cs ih =>
    intro room hfit
    have hne := List.splitOnP_ne_nil (fun c => c == '\n') cs
    rw [List.splitOnP_cons] at hfit ⊢
    by_cases hc : c = '\n'
    · subst hc
      simp only [beq_self_eq_true, if_true] at hfit ⊢
      have hf := hfit [] _ rfl
      rw [drop_final_empty_cons_of_ne_nil _ _ hne]
      have hstep : fgets_from 512 room ('\n' :: cs) = ['\n'] :: fgets_from 512 511 cs := by
        simp [fgets_from]
      rw [hstep]
      refine List.Forall₂.cons (Or.inr rfl) (ih 511 ?_)
      intro h t hsp
      rw [hsp] at hf
      exact ⟨hf.2 h (by simp), fun l hl => hf.2 l (by simp [hl])⟩
    · have hb : (c == '\n') = false := by simpa using hc
      simp only [hb, Bool.false_eq_true, if_false] at hfit ⊢
      cases hsp : List.splitOnP (fun c => c == '\n') cs with
      | nil => exact absurd hsp hne
      | cons h t =>
        rw [hsp] at hfit
        simp only [List.modifyHead] at hfit ⊢
        have hf := hfit (c :: h) t (by simp)
        have hroom : ¬ room ≤ 1 := by
          have := hf.1
          simp only [List.length_cons] at this
          omega
        have hstep : fgets_from 512 room (c :: cs) =
            push_front c (fgets_from 512 (room - 1) cs) := by
          simp [fgets_from, hc, hroom]
        rw [hstep]
        have hrec := ih (room - 1) (by
          intro h1 t1 e
          rw [hsp] at e
          injection e with e1 e2
          subst e1; subst e2
          refine ⟨?_, hf.2⟩
          have := hf.1
          simp only [List.length_cons] at this
          omega)
        rw [hsp] at hrec
        cases t with
        | nil =>
          by_cases hh : h = []
          · subst hh
            simp only [drop_final_empty, if_true] at hrec
            cases hX : fgets_from 512 (room - 1) cs with
            | nil =>
              simp only [push_front, drop_final_empty]
              simp
              exact Or.inl rfl
            | cons x xs => rw [hX] at hrec; cases hrec
          · simp only [drop_final_empty, hh, if_false] at hrec
            cases hX : fgets_from 512 (room - 1) cs with
            | nil => rw [hX] at hrec; cases hrec
            | cons x xs =>
              rw [hX] at hrec
              cases hrec with
              | cons hx hxs =>
                cases hxs
                simp only [push_front, drop_final_empty]
                simp
                rcases hx with rfl | rfl
                · exact Or.inl rfl
                · exact Or.inr rfl
        | cons u us =>
          rw [drop_final_empty_cons_cons] at hrec ⊢
          cases hX : fgets_from 512 (room - 1) cs with
          | nil => rw [hX] at hrec; cases hrec
          | cons x xs =>
            rw [hX] at hrec
            cases hrec with
            | cons hx hxs =>
              simp only [push_front]
              refine List.Forall₂.cons ?_ hxs
              rcases hx with rfl | rfl
              · exact Or.inl rfl
              · exact Or.inr rfl


/-! ### The whole file -/

theorem conf_load_file_eq_spec_load (E : Env) (filename : String) (content : List Char) (st : St)
    (hmode : not_regular (E.fs filename) = false)
    (hopen : (E.fs filename).content = some content)
    (hfit : ∀ l ∈ spec_lines content, l.length ≤ 510 ∧ Char.ofNat 0 ∉ l) :
    conf_load_file E filename st =
      spec_load (spec_lines content) 1 (st.emit (.conf_load_file filename)) := by
  unfold conf_load_file
  simp only [hmode, hopen, Bool.false_eq_true, if_false]
  unfold fgets_all
  have hpieces : ∀ l ∈ content.splitOnP (fun c => c == '\n'), l.length < 511 := by
    intro l hl
    by_cases hne : l = []
    · subst hne; simp
    · have := (hfit l (mem_drop_final_empty_of_ne_nil _ l hl hne)).1
      omega
  have hforall := fgets_from_holds_lines content (512 - 1) (by
    intro h t e
    rw [e] at hpieces
    exact ⟨hpieces h (by simp), fun l hl => hpieces l (by simp [hl])⟩)
  exact conf_load_file_loop_eq_spec_load _ _ hforall (fun l hl => (hfit l hl).2) 0 _

theorem spec_load_nested (pre post : List (List Char)) (line : List Char)
    (hpre : ∀ l ∈ pre, (spec_tokens l).length ≤ 2 ∧ (spec_tokens l).head? ≠ some "--config")
    (hline : (spec_tokens line).head? = some "--config") (hlen : (spec_tokens line).length ≤ 2) :
    ∀ (k : Nat) (st : St),
      ∃ st1, spec_load (pre ++ line :: post) k st =
        .exit 1 (some (.NestedConfig (k + pre.length))) st1 := by
  induction pre with
  | nil =>
    intro k st
    refine ⟨st, ?_⟩
    simp only [List.nil_append, spec_load, spec_line_action, List.length_nil, Nat.add_zero]
    rcases hs : spec_tokens line with _ | ⟨a, _ | ⟨b, _ | ⟨c, r⟩⟩⟩
    · rw [hs] at hline; simp at hline
    · rw [hs] at hline; simp at hline; simp [hline]
    · rw [hs] at hline; simp at hline; simp [hline]
    · rw [hs] at hlen; simp at hlen
  | cons l pre ih =>
    intro k st
    have hl := hpre l (by simp)
    have hrest : ∀ l ∈ pre, (spec_tokens l).length ≤ 2 ∧
        (spec_tokens l).head? ≠ some "--config" := fun x hx => hpre x (by simp [hx])
    simp only [List.cons_append, spec_load, spec_line_action, List.length_cons]
    have hk : k + (pre.length + 1) = (k + 1) + pre.length := by omega
    rw [hk]
    rcases hs : spec_tokens l with _ | ⟨a, _ | ⟨b, _ | ⟨c, r⟩⟩⟩
    · exact ih hrest (k + 1) st
    · rw [hs] at hl
      have ha : a ≠ "--config" := by simpa using hl.2
      simp only [ha, if_false]
      exact ih hrest (k + 1) _
    · rw [hs] at hl
      have ha : a ≠ "--config" := by simpa using hl.2
      simp only [ha, if_false]
      exact ih hrest (k + 1) _
    · rw [hs] at hl; simp at hl

/-- Claim C4 fails as stated for the line `--config x`: the line has the two
tokens `--config` and `x`, and `conf_load_file` does not append the pair, it
ends the process with the nested-config error for line 1. -/
theorem conf_load_file_config_line_counterexample :
    spec_tokens "--config x".data = ["--config", "x"] ∧
    conf_load_file (env_answering 0 [("f", "--config x\n".data)]) "f" (start_state []) =
      .exit 1 (some (.NestedConfig 1)) ((start_state []).emit (.conf_load_file "f")) := by
  constructor
  · decide
  · rfl

/-- Claim C4, amended: for a file that is read, whose lines all have at most
510 bytes before the newline and no NUL byte, `conf_load_file` treats the
lines one after the other as `spec_load` says.  The tokens of a line are the
whitespace-separated (space, tab, CR, LF) words of the line cut at its first
number sign, every single and double quote replaced by a space; a line with
no token appends nothing, a line with one token appends (token, no value), a
line with two tokens appends (first, second), both unless the first token is
`--config`, which is the fatal nested-config error, and a line with three or
more tokens is the fatal too-many-arguments error. -/
theorem conf_load_file_line_by_line (E : Env) (filename : String) (content : List Char) (st : St)
    (hmode : not_regular (E.fs filename) = false)
    (hopen : (E.fs filename).content = some content)
    (hfit : ∀ l ∈ spec_lines content, l.length ≤ 510 ∧ Char.ofNat 0 ∉ l) :
    conf_load_file E filename st =
      spec_load (spec_lines content) 1 (st.emit (.conf_load_file filename)) :=
  conf_load_file_eq_spec_load E filename content st hmode hopen hfit

theorem conf_load_file_line_by_line_witness :
    not_regular ((env_answering 0 [("f", sample_file)]).fs "f") = false ∧
    ((env_answering 0 [("f", sample_file)]).fs "f").content = some sample_file ∧
    (∀ l ∈ spec_lines sample_file, l.length ≤ 510 ∧ Char.ofNat 0 ∉ l) ∧
    conf_load_file (env_answering 0 [("f", sample_file)]) "f" (start_state []) =
      spec_load (spec_lines sample_file) 1 ((start_state []).emit (.conf_load_file "f")) :=
  ⟨by decide, by decide, by decide,
    conf_load_file_line_by_line (env_answering 0 [("f", sample_file)]) "f" sample_file
      (start_state []) (by decide) (by decide) (by decide)⟩

/-- Claim C6 fails as stated for the file `--config a b`: the first token of
its line is `--config`, and `conf_load_file` ends with the too-many-arguments
error for line 1, not with the nested-config error. -/
theorem conf_load_file_nested_counterexample :
    (spec_tokens "--config a b".data).head? = some "--config" ∧
    conf_load_file (env_answering 0 [("f", "--config a b\n".data)]) "f" (start_state []) =
      .exit 1 (some (.TooManyArguments 1)) ((start_state []).emit (.conf_load_file "f")) := by
  constructor
  · decide
  · rfl

/-- Claim C6, amended: in a file that is read, whose lines all have at most
510 bytes before the newline and no NUL byte, let a line have `--config` as
its first token and at most two tokens, and let no line before it have three
or more tokens or `--config` as its first token.  Then `conf_load_file` ends
the process with the nested-config error and reports the 1-based number of
that line. -/
theorem conf_load_file_nested (E : Env) (filename : String) (content : List Char) (st : St)
    (pre post : List (List Char)) (line : List Char)
    (hmode : not_regular (E.fs filename) = false)
    (hopen : (E.fs filename).content = some content)
    (hfit : ∀ l ∈ spec_lines content, l.length ≤ 510 ∧ Char.ofNat 0 ∉ l)
    (hlines : spec_lines content = pre ++ line :: post)
    (hpre : ∀ l ∈ pre, (spec_tokens l).length ≤ 2 ∧ (spec_tokens l).head? ≠ some "--config")
    (hline : (spec_tokens line).head? = some "--config")
    (hlen : (spec_tokens line).length ≤ 2) :
    ∃ st1, conf_load_file E filename st =
      .exit 1 (some (.NestedConfig (pre.length + 1))) st1 := by
  rw [conf_load_file_eq_spec_load E filename content st hmode hopen hfit, hlines]
  obtain ⟨st1, h1⟩ := spec_load_nested pre post line hpre hline hlen 1 (st.emit (.conf_load_file filename))
  exact ⟨st1, by rw [h1, Nat.add_comm]⟩

theorem conf_load_file_nested_witness :
    not_regular ((env_answering 0 [("f", nested_file)]).fs "f") = false ∧
    ((env_answering 0 [("f", nested_file)]).fs "f").content = some nested_file ∧
    (∀ l ∈ spec_lines nested_file, l.length ≤ 510 ∧ Char.ofNat 0 ∉ l) ∧
    spec_lines nested_file =
      ["--port 6881".data, []] ++ "--config other.conf".data :: ["--daemon".data] ∧
    (∀ l ∈ ["--port 6881".data, []],
      (spec_tokens l).length ≤ 2 ∧ (spec_tokens l).head? ≠ some "--config") ∧
    (spec_tokens "--config other.conf".data).head? = some "--config" ∧
    (spec_tokens "--config other.conf".data).length ≤ 2 ∧
    ∃ st1, conf_load_file (env_answering 0 [("f", nested_file)]) "f" (start_state []) =
      .exit 1 (some (.NestedConfig (["--port 6881".data, []].length + 1))) st1 :=
  ⟨by decide, by decide, by decide, by decide, by decide, by decide, by decide,
    conf_load_file_nested (env_answering 0 [("f", nested_file)]) "f" nested_file
      (start_state []) ["--port 6881".data, []] ["--daemon".data] "--config other.conf".data
      (by decide) (by decide) (by decide) (by decide) (by decide) (by decide) (by decide)⟩

set_option maxRecDepth 100000 in
/-- Claim C5 fails on the code: in the file whose first line has 511 bytes
before its newline and whose second line is `a b c`, the first line with three
tokens is line 2, and `conf_load_file` reports line 3 in its too-many-arguments
error, because `n` counts the calls of `fgets` and the first line takes two. -/
theorem conf_load_file_long_line_number :
    (spec_lines long_line_file).length = 2 ∧
    ((spec_lines long_line_file).map (fun l => (spec_tokens l).length)) = [1, 3] ∧
    ∃ st1, conf_load_file (env_answering 0 [("f", long_line_file)]) "f" (start_state []) =
      .exit 1 (some (.TooManyArguments 3)) st1 := by
  refine ⟨by decide, by decide, ⟨_, rfl⟩⟩

/-! ## The option catalog -/

theorem findCodeIn_mem (name : String) (tbl : List (String × OpCode)) (c : OpCode)
    (h : findCodeIn name tbl = c) (hc : c ≠ .oUnknown) : (name, c) ∈ tbl := by
  induction tbl with
  | nil => exact absurd h.symm hc
  | cons e es ih =>
    unfold findCodeIn at h
    by_cases he : name = e.1
    · simp only [he, if_true] at h
      subst h
      simp [he]
    · simp only [he, if_false] at h
      exact List.mem_cons_of_mem _ (ih h)

theorem findCode_config (B : Build) (opt : String) (h : findCode B opt = .oConfig) :
    opt = "--config" := by
  have hm := findCodeIn_mem opt (options B) .oConfig h (by decide)
  simp [options] at hm
  exact hm

theorem findCode_str_name (B : Build) (o opt : String) (f : gconf_t → Option String)
    (hf : str_field (findCode B opt) = some f) (h : findCode B o = findCode B opt) :
    o = opt := by
  have hne : findCode B opt ≠ .oUnknown := by
    intro e; rw [e] at hf; simp [str_field] at hf
  have h1 := findCodeIn_mem opt (options B) _ rfl hne
  have h2 := findCodeIn_mem o (options B) _ h hne
  change (opt, findCode B opt) ∈ options B at h1
  generalize findCode B opt = c at hf h1 h2
  simp only [options] at h1 h2
  cases c <;> simp [str_field] at hf <;> simp at h1 h2 <;> simp [h1, h2]

theorem findCode_str_enabled (B : Build) (opt : String) (f : gconf_t → Option String)
    (hf : str_field (findCode B opt) = some f) :
    (findCode B opt = .oCmdPort → B.CMD = true) ∧
    (findCode B opt = .oDnsPort → B.DNS = true) ∧
    (findCode B opt = .oDnsServer → B.DNS = true) ∧
    (findCode B opt = .oNssPort → B.NSS = true) ∧
    (findCode B opt = .oWebPort → B.WEB = true) ∧
    (findCode B opt = .oLpdAddr → B.LPD = true) := by
  have hne : findCode B opt ≠ .oUnknown := by
    intro e; rw [e] at hf; simp [str_field] at hf
  have h1 := findCodeIn_mem opt (options B) _ rfl hne
  change (opt, findCode B opt) ∈ options B at h1
  generalize findCode B opt = c at hf h1
  simp only [options] at h1
  cases c <;> simp [str_field] at hf <;> simp at h1 <;> simp [h1]

/-! ## What `conf_load_file` does to the state -/

theorem dispatches_append (a b : List Event) :
    dispatches (a ++ b) = dispatches a ++ dispatches b := by
  induction a with
  | nil => rfl
  | cons e es ih => cases e <;> simp [dispatches, ih]

theorem parse_tokens_eq (toks : List String) :
    parse_tokens toks none none =
      match toks with
      | [] => some (none, none)
      | [a] => some (some a, none)
      | [a, b] => some (some a, some b)
      | _ => none := by
  rcases toks with _ | ⟨a, _ | ⟨b, _ | ⟨c, r⟩⟩⟩ <;> simp [parse_tokens]

theorem conf_load_file_line_frame (n : Nat) (buf : List Char) (st : St) :
    (conf_load_file_line n buf st).state.gconf = st.gconf ∧
    (conf_load_file_line n buf st).state.trace = st.trace ∧
    ∃ app, (conf_load_file_line n buf st).state.g_argv = st.g_argv ++ app ∧
      (st.terminated = true → (conf_load_file_line n buf st).state.terminated = true) := by
  unfold conf_load_file_line
  split
  · exact ⟨rfl, rfl, [], by simp, fun h => h⟩
  · exact ⟨rfl, rfl, [], by simp, fun h => h⟩
  · split
    · exact ⟨rfl, rfl, [], by simp, fun h => h⟩
    · exact ⟨rfl, rfl, _, rfl, fun _ => rfl⟩

theorem conf_load_file_loop_frame (bufs : List (List Char)) :
    ∀ (n : Nat) (st : St),
      (conf_load_file_loop bufs n st).state.gconf = st.gconf ∧
      (conf_load_file_loop bufs n st).state.trace = st.trace ∧
      ∃ app, (conf_load_file_loop bufs n st).state.g_argv = st.g_argv ++ app ∧
        (st.terminated = true → (conf_load_file_loop bufs n st).state.terminated = true) := by
  induction bufs with
  | nil => intro n st; exact ⟨rfl, rfl, [], by simp [conf_load_file_loop], fun h => h⟩
  | cons buf rest ih =>
    intro n st
    obtain ⟨h1, h2, app, h3, h4⟩ := conf_load_file_line_frame (n + 1) buf st
    rw [conf_load_file_loop]
    cases hl : conf_load_file_line (n + 1) buf st with
    | ok st1 =>
      rw [hl] at h1 h2 h3 h4
      simp only [Res.state_ok] at h1 h2 h3 h4
      obtain ⟨k1, k2, app2, k3, k4⟩ := ih (n + 1) st1
      simp only []
      refine ⟨by rw [k1, h1], by rw [k2, h2], app ++ app2, by rw [k3, h3, List.append_assoc],
        fun ht => k4 (h4 ht)⟩
    | exit c m s =>
      rw [hl] at h1 h2 h3 h4
      exact ⟨h1, h2, app, h3, h4⟩
    | undefined s =>
      rw [hl] at h1 h2 h3 h4
      exact ⟨h1, h2, app, h3, h4⟩

theorem conf_load_file_frame (E : Env) (filename : String) (st : St) :
    (conf_load_file E filename st).state.gconf = st.gconf ∧
    (conf_load_file E filename st).state.trace = st.trace ++ [.conf_load_file filename] ∧
    ∃ app, (conf_load_file E filename st).state.g_argv = st.g_argv ++ app ∧
      (st.terminated = true → (conf_load_file E filename st).state.terminated = true) := by
  unfold conf_load_file
  simp only []
  split
  · exact ⟨rfl, rfl, [], by simp, fun h => h⟩
  · split
    · exact ⟨rfl, rfl, [], by simp, fun h => h⟩
    · exact conf_load_file_loop_frame _ 0 (st.emit (.conf_load_file filename))

theorem conf_load_file_line_well_formed (n : Nat) (buf : List Char) (st : St)
    (hw : (line_tokens buf).length ≤ 2 ∧ (line_tokens buf).head? ≠ some "--config") :
    ∃ st1, conf_load_file_line n buf st = .ok st1 ∧
      st1.g_argv = st.g_argv ++ line_entries buf ∧ st1.gconf = st.gconf ∧
      st1.trace = st.trace := by
  unfold conf_load_file_line line_entries
  rw [parse_tokens_eq]
  rcases hs : line_tokens buf with _ | ⟨a, _ | ⟨b, _ | ⟨c, r⟩⟩⟩
  · exact ⟨st, by simp⟩
  · rw [hs] at hw
    have ha : a ≠ "--config" := by simpa using hw.2
    exact ⟨conf_append (some a) none st, by simp [ha], by simp [conf_append], rfl, rfl⟩
  · rw [hs] at hw
    have ha : a ≠ "--config" := by simpa using hw.2
    exact ⟨conf_append (some a) (some b) st, by simp [ha], by simp [conf_append], rfl, rfl⟩
  · rw [hs] at hw; simp at hw

theorem conf_load_file_loop_well_formed (bufs : List (List Char))
    (hw : ∀ buf ∈ bufs,
      (line_tokens buf).length ≤ 2 ∧ (line_tokens buf).head? ≠ some "--config") :
    ∀ (n : Nat) (st : St), ∃ st1, conf_load_file_loop bufs n st = .ok st1 ∧
      st1.g_argv = st.g_argv ++ (bufs.map line_entries).flatten ∧ st1.gconf = st.gconf ∧
      st1.trace = st.trace := by
  induction bufs with
  | nil => intro n st; exact ⟨st, by simp [conf_load_file_loop]⟩
  | cons buf rest ih =>
    intro n st
    obtain ⟨st1, h1, h2, h3, h4⟩ :=
      conf_load_file_line_well_formed (n + 1) buf st (hw buf (by simp))
    obtain ⟨st2, k1, k2, k3, k4⟩ := ih (fun b hb => hw b (by simp [hb])) (n + 1) st1
    refine ⟨st2, ?_, ?_, by rw [k3, h3], by rw [k4, h4]⟩
    · rw [conf_load_file_loop, h1]; exact k1
    · rw [k2, h2]; simp

theorem conf_load_file_well_formed (E : Env) (filename : String) (content : List Char)
    (st : St) (hmode : not_regular (E.fs filename) = false)
    (hopen : (E.fs filename).content = some content) (hw : well_formed content) :
    ∃ st1, conf_load_file E filename st = .ok st1 ∧
      st1.g_argv = st.g_argv ++ file_entries content ∧ st1.gconf = st.gconf := by
  unfold conf_load_file
  simp only [hmode, hopen, Bool.false_eq_true, if_false]
  obtain ⟨st1, h1, h2, h3, _⟩ :=
    conf_load_file_loop_well_formed (fgets_all 512 content) hw 0
      (st.emit (.conf_load_file filename))
  exact ⟨st1, h1, h2, h3⟩

/-! ## What `conf_handle_option` does to the state -/

theorem conf_apply_value_frame (B : Build) (E : Env) (val : String) (st : St) :
    (conf_apply_value B E val st).state.g_argv = st.g_argv ∧
    (conf_apply_value B E val st).state.terminated = st.terminated ∧
    (conf_apply_value B E val st).state.gconf = st.gconf ∧
    dispatches (conf_apply_value B E val st).state.trace = dispatches st.trace := by
  unfold conf_apply_value
  simp only []
  split <;> [skip; split] <;> simp [dispatches_append, dispatches]

theorem conf_handle_option_stream (B : Build) (E : Env) (opt : String) (val : Option String)
    (st : St) (h : findCode B opt ≠ .oConfig) :
    (conf_handle_option B E opt val st).state.g_argv = st.g_argv ∧
    (conf_handle_option B E opt val st).state.terminated = st.terminated ∧
    (conf_handle_option B E opt val st).state.gconf.configfile = st.gconf.configfile := by
  unfold conf_handle_option
  simp only []
  split
  all_goals first
    | (exfalso; apply h; assumption)
    | (simp [unknown_option, conf_apply_value_frame]; done)
    | ((repeat' split) <;> simp [unknown_option, conf_apply_value_frame])

theorem conf_handle_option_config_none (B : Build) (E : Env) (opt : String) (st : St)
    (h : findCode B opt = .oConfig) :
    conf_handle_option B E opt none st =
      .exit 1 (some (.ArgumentExpected opt)) (st.emit (.conf_handle_option opt none)) := by
  unfold conf_handle_option
  simp only [h]

theorem conf_handle_option_config_some (B : Build) (E : Env) (opt v : String) (st : St)
    (h : findCode B opt = .oConfig) :
    conf_handle_option B E opt (some v) st =
      (conf_load_file E v (st.emit (.conf_handle_option opt (some v)))).andThen fun st1 =>
        (conf_str opt st1.gconf.configfile (some v)).map
          (fun d => st1.set_gconf { st1.gconf with configfile := d }) := by
  unfold conf_handle_option
  simp only [h]

theorem conf_handle_option_config_frame (B : Build) (E : Env) (opt : String)
    (val : Option String) (st : St) (h : findCode B opt = .oConfig) :
    (∃ app, (conf_handle_option B E opt val st).state.g_argv = st.g_argv ++ app ∧
      (st.terminated = true → (conf_handle_option B E opt val st).state.terminated = true)) ∧
    dispatches (conf_handle_option B E opt val st).state.trace =
      dispatches st.trace ++ [(opt, val)] ∧
    (∀ st1, conf_handle_option B E opt val st = .ok st1 →
      st.gconf.configfile = none ∧ st1.gconf.configfile = val ∧ val ≠ none) ∧
    (∀ (f : gconf_t → Option String) (c : OpCode), str_field c = some f →
      f (conf_handle_option B E opt val st).state.gconf = f st.gconf) := by
  cases val with
  | none =>
    rw [conf_handle_option_config_none B E opt st h]
    refine ⟨⟨[], by simp, fun h => h⟩, by simp [dispatches_append, dispatches], ?_, ?_⟩
    · intro st1 h1; cases h1
    · intro f c _; rfl
  | some v =>
    rw [conf_handle_option_config_some B E opt v st h]
    obtain ⟨h1, h2, app, h3, h4⟩ :=
      conf_load_file_frame E v (st.emit (.conf_handle_option opt (some v)))
    cases hl : conf_load_file E v (st.emit (.conf_handle_option opt (some v))) with
    | ok s =>
      rw [hl] at h1 h2 h3 h4
      simp only [Res.state_ok, St.emit_gconf, St.emit_trace, St.emit_g_argv,
        St.emit_terminated] at h1 h2 h3 h4
      simp only [Res.andThen]
      refine ⟨⟨app, by simp [h3], fun ht => by simp [h4 ht]⟩,
        by simp [h2, dispatches_append, dispatches], ?_, ?_⟩
      · intro st1 hst1
        cases hc : s.gconf.configfile with
        | none =>
          rw [hc] at hst1
          simp only [conf_str, Res.map] at hst1
          injection hst1 with hst1
          subst hst1
          rw [← h1, hc]
          simp
        | some d =>
          rw [hc] at hst1
          simp [conf_str, Res.map] at hst1
      · intro f c hf
        rw [Res.state_map, St.set_gconf_gconf, ← h1]
        cases c <;> simp [str_field] at hf <;> subst hf <;> rfl
    | exit c m s =>
      rw [hl] at h1 h2 h3 h4
      simp only [Res.state_exit, St.emit_gconf, St.emit_trace, St.emit_g_argv,
        St.emit_terminated] at h1 h2 h3 h4
      simp only [Res.andThen]
      refine ⟨⟨app, by simp [h3], fun ht => by simp [h4 ht]⟩,
        by simp [h2, dispatches_append, dispatches], ?_, ?_⟩
      · intro st1 hst1; cases hst1
      · intro f c _; simp [h1]
    | undefined s =>
      rw [hl] at h1 h2 h3 h4
      simp only [Res.state_undefined, St.emit_gconf, St.emit_trace, St.emit_g_argv,
        St.emit_terminated] at h1 h2 h3 h4
      simp only [Res.andThen]
      refine ⟨⟨app, by simp [h3], fun ht => by simp [h4 ht]⟩,
        by simp [h2, dispatches_append, dispatches], ?_, ?_⟩
      · intro st1 hst1; cases hst1
      · intro f c _; simp [h1]

theorem conf_handle_option_dispatches (B : Build) (E : Env) (opt : String)
    (val : Option String) (st : St) :
    dispatches (conf_handle_option B E opt val st).state.trace =
      dispatches st.trace ++ [(opt, val)] := by
  by_cases hcfg : findCode B opt = .oConfig
  · exact (conf_handle_option_config_frame B E opt val st hcfg).2.1
  · unfold conf_handle_option
    simp only []
    split
    all_goals first
      | (exfalso; apply hcfg; assumption)
      | (simp [unknown_option, conf_apply_value_frame, dispatches_append, dispatches]; done)
      | ((repeat' split) <;>
          simp [unknown_option, conf_apply_value_frame, dispatches_append, dispatches])

theorem conf_handle_option_grows (B : Build) (E : Env) (opt : String)
    (val : Option String) (st : St) :
    ∃ app, (conf_handle_option B E opt val st).state.g_argv = st.g_argv ++ app ∧
      (st.terminated = true → (conf_handle_option B E opt val st).state.terminated = true) := by
  by_cases hcfg : findCode B opt = .oConfig
  · exact (conf_handle_option_config_frame B E opt val st hcfg).1
  · obtain ⟨h1, h2, _⟩ := conf_handle_option_stream B E opt val st hcfg
    exact ⟨[], by simp [h1], fun h => by rw [h2]; exact h⟩

theorem conf_handle_option_fields (B : Build) (E : Env) (o : String) (val : Option String)
    (st : St) (hcfg : findCode B o ≠ .oConfig) :
    (findCode B o ≠ .oQueryTld →
      (conf_handle_option B E o val st).state.gconf.query_tld = st.gconf.query_tld) ∧
    (findCode B o ≠ .oPidFile →
      (conf_handle_option B E o val st).state.gconf.pidfile = st.gconf.pidfile) ∧
    (findCode B o ≠ .oPeerFile →
      (conf_handle_option B E o val st).state.gconf.peerfile = st.gconf.peerfile) ∧
    (findCode B o ≠ .oCmdPort →
      (conf_handle_option B E o val st).state.gconf.cmd_port = st.gconf.cmd_port) ∧
    (findCode B o ≠ .oDnsPort →
      (conf_handle_option B E o val st).state.gconf.dns_port = st.gconf.dns_port) ∧
    (findCode B o ≠ .oDnsServer →
      (conf_handle_option B E o val st).state.gconf.dns_server = st.gconf.dns_server) ∧
    (findCode B o ≠ .oNssPort →
      (conf_handle_option B E o val st).state.gconf.nss_port = st.gconf.nss_port) ∧
    (findCode B o ≠ .oWebPort →
      (conf_handle_option B E o val st).state.gconf.web_port = st.gconf.web_port) ∧
    (findCode B o ≠ .oPort →
      (conf_handle_option B E o val st).state.gconf.dht_port = st.gconf.dht_port) ∧
    (findCode B o ≠ .oAddr →
      (conf_handle_option B E o val st).state.gconf.dht_addr = st.gconf.dht_addr) ∧
    (findCode B o ≠ .oLpdAddr →
      (conf_handle_option B E o val st).state.gconf.lpd_addr = st.gconf.lpd_addr) ∧
    (findCode B o ≠ .oIfname →
      (conf_handle_option B E o val st).state.gconf.dht_ifname = st.gconf.dht_ifname) ∧
    (findCode B o ≠ .oUser →
      (conf_handle_option B E o val st).state.gconf.user = st.gconf.user) := by
  unfold conf_handle_option
  simp only []
  split
  all_goals first
    | (exfalso; apply hcfg; assumption)
    | (simp [unknown_option, conf_apply_value_frame, *]; done)
    | ((repeat' split) <;> simp [unknown_option, conf_apply_value_frame, *])

theorem conf_handle_option_str_frame (B : Build) (E : Env) (o : String) (val : Option String)
    (st : St) (c : OpCode) (f : gconf_t → Option String) (hf : str_field c = some f)
    (hne : findCode B o ≠ c) :
    f (conf_handle_option B E o val st).state.gconf = f st.gconf := by
  by_cases hcfg : findCode B o = .oConfig
  · exact (conf_handle_option_config_frame B E o val st hcfg).2.2.2 f c hf
  · obtain ⟨h1, h2, h3, h4, h5, h6, h7, h8, h9, h10, h11, h12, h13⟩ :=
      conf_handle_option_fields B E o val st hcfg
    cases c <;> simp [str_field] at hf <;> subst hf
    · exact h1 hne
    · exact h2 hne
    · exact h3 hne
    · exact h4 hne
    · exact h5 hne
    · exact h6 hne
    · exact h7 hne
    · exact h8 hne
    · exact h9 hne
    · exact h10 hne
    · exact h11 hne
    · exact h12 hne
    · exact h13 hne

theorem conf_handle_option_str_duplicate (B : Build) (E : Env) (opt v d : String) (st : St)
    (f : gconf_t → Option String) (hf : str_field (findCode B opt) = some f)
    (hset : f st.gconf = some d) :
    conf_handle_option B E opt (some v) st =
      .exit 1 (some (.DuplicateOption opt)) (st.emit (.conf_handle_option opt (some v))) := by
  obtain ⟨e1, e2, e3, e4, e5, e6⟩ := findCode_str_enabled B opt f hf
  generalize hc : findCode B opt = c at hf e1 e2 e3 e4 e5 e6
  obtain ⟨g, a, t, tr⟩ := st
  cases g
  cases c <;> simp [str_field] at hf <;> subst hf <;>
    (unfold conf_handle_option; simp only [hc]) <;>
    simp_all [conf_str, Res.map, St.set_gconf, St.emit]

theorem conf_handle_option_str_ok (B : Build) (E : Env) (opt : String) (val : Option String)
    (st st1 : St) (f : gconf_t → Option String) (hf : str_field (findCode B opt) = some f)
    (hok : conf_handle_option B E opt val st = .ok st1) :
    f st.gconf = none ∧ f st1.gconf = val ∧ val ≠ none := by
  obtain ⟨e1, e2, e3, e4, e5, e6⟩ := findCode_str_enabled B opt f hf
  generalize hc : findCode B opt = c at hf e1 e2 e3 e4 e5 e6
  cases val with
  | none =>
    exfalso
    cases c <;> simp [str_field] at hf <;>
      (unfold conf_handle_option at hok; simp only [hc] at hok) <;>
      simp_all [conf_str, Res.map]
  | some v =>
    cases hd : f st.gconf with
    | some d =>
      exfalso
      rw [conf_handle_option_str_duplicate B E opt v d st f (by rw [hc]; exact hf) hd] at hok
      cases hok
    | none =>
      refine ⟨rfl, ?_, by simp⟩
      cases c <;> simp [str_field] at hf <;> subst hf <;>
        (unfold conf_handle_option at hok; simp only [hc] at hok) <;>
        simp_all [conf_str, Res.map] <;> (subst hok; rfl)

/-! ## The loop of `conf_load_args` -/

theorem St.read_of_lt (st : St) (j : Nat) (h : j < st.g_argv.length) :
    st.read j = st.g_argv[j]? := by
  unfold St.read
  rw [List.getElem?_eq_getElem h]

theorem St.read_some_some (st : St) (j : Nat) (s : String) (h : st.read j = some (some s)) :
    st.g_argv[j]? = some (some s) := by
  unfold St.read at h
  cases hc : st.g_argv[j]? with
  | some cell => rw [hc] at h; simpa using h
  | none =>
    rw [hc] at h
    simp only [] at h
    split at h <;> simp at h

theorem is_value_some (val : Option String) (h : is_value val = true) : ∃ v, val = some v := by
  cases val with
  | none => simp [is_value] at h
  | some v => exact ⟨v, rfl⟩

/-- The cases of one turn of the loop. -/
theorem conf_load_args_turn_cases (B : Build) (E : Env) (i : Nat) (st : St) :
    (¬ i < st.g_argv.length ∧ conf_load_args_turn B E i st = .stop (.ok st)) ∨
    (i < st.g_argv.length ∧ st.read (i + 1) = none ∧
      conf_load_args_turn B E i st = .stop (.undefined st)) ∨
    (i < st.g_argv.length ∧ st.g_argv[i]? = some none ∧
      conf_load_args_turn B E i st = .next (i + 1) st) ∨
    (∃ opt v, i < st.g_argv.length ∧ st.g_argv[i]? = some (some opt) ∧
      st.g_argv[i + 1]? = some (some v) ∧ is_value (some v) = true ∧
      conf_load_args_turn B E i st =
        Turn.of_call (conf_handle_option B E opt (some v) st) (i + 2)) ∨
    (∃ opt val, i < st.g_argv.length ∧ st.g_argv[i]? = some (some opt) ∧
      st.read (i + 1) = some val ∧ is_value val = false ∧
      conf_load_args_turn B E i st =
        Turn.of_call (conf_handle_option B E opt none st) (i + 1)) := by
  by_cases hi : i < st.g_argv.length
  · have hget : st.g_argv[i]? = some st.g_argv[i] := List.getElem?_eq_getElem hi
    cases hopt : st.g_argv[i] with
    | none =>
      rw [hopt] at hget
      cases hval : st.read (i + 1) with
      | none =>
        right; left
        refine ⟨hi, rfl, ?_⟩
        unfold conf_load_args_turn St.g_argc
        rw [if_pos hi, St.read_of_lt st i hi, hget, hval]
      | some val =>
        right; right; left
        refine ⟨hi, hget, ?_⟩
        unfold conf_load_args_turn St.g_argc
        rw [if_pos hi, St.read_of_lt st i hi, hget, hval]
    | some opt =>
      rw [hopt] at hget
      cases hval : st.read (i + 1) with
      | none =>
        right; left
        refine ⟨hi, rfl, ?_⟩
        unfold conf_load_args_turn St.g_argc
        rw [if_pos hi, St.read_of_lt st i hi, hget, hval]
      | some val =>
        by_cases hv : is_value val = true
        · obtain ⟨v, rfl⟩ := is_value_some val hv
          right; right; right; left
          refine ⟨opt, v, hi, hget, St.read_some_some st (i + 1) v hval, hv, ?_⟩
          unfold conf_load_args_turn St.g_argc
          rw [if_pos hi, St.read_of_lt st i hi, hget, hval]
          simp only [hv, if_true]
        · right; right; right; right
          refine ⟨opt, val, hi, hget, rfl, by simpa using hv, ?_⟩
          unfold conf_load_args_turn St.g_argc
          rw [if_pos hi, St.read_of_lt st i hi, hget, hval]
          simp only [hv, Bool.false_eq_true, if_false]
  · left
    refine ⟨hi, ?_⟩
    unfold conf_load_args_turn St.g_argc
    rw [if_neg hi]

/-- A way to show that every result of the loop has the property `Q`: a
property `P` of the index and the state that holds at the start, is kept by
every turn that goes on, and gives `Q` for every result a turn stops with. -/
theorem conf_load_args_loop_rule (B : Build) (E : Env) (P : Nat → St → Prop)
    (Q : Res St → Prop)
    (hstop : ∀ i st r, P i st → conf_load_args_turn B E i st = .stop r → Q r)
    (hnext : ∀ i st i1 st1, P i st → conf_load_args_turn B E i st = .next i1 st1 → P i1 st1) :
    ∀ (fuel i : Nat) (st : St) (r : Res St),
      P i st → conf_load_args_loop B E fuel i st = some r → Q r := by
  intro fuel
  induction fuel with
  | zero => intro i st r _ h; simp [conf_load_args_loop] at h
  | succ fuel ih =>
    intro i st r hP h
    rw [conf_load_args_loop] at h
    cases ht : conf_load_args_turn B E i st with
    | next i1 st1 =>
      rw [ht] at h
      exact ih i1 st1 r (hnext i st i1 st1 hP ht) h
    | stop r1 =>
      rw [ht] at h
      simp only [Option.some.injEq] at h
      subst h
      exact hstop i st r1 hP ht

theorem conf_load_args_loop_mono (B : Build) (E : Env) :
    ∀ (fuel i : Nat) (st : St) (r : Res St),
      conf_load_args_loop B E fuel i st = some r →
      ∀ k, conf_load_args_loop B E (fuel + k) i st = some r := by
  intro fuel
  induction fuel with
  | zero => intro i st r h; simp [conf_load_args_loop] at h
  | succ fuel ih =>
    intro i st r h k
    have hk : fuel + 1 + k = (fuel + k) + 1 := by omega
    rw [hk, conf_load_args_loop]
    rw [conf_load_args_loop] at h
    cases ht : conf_load_args_turn B E i st with
    | next i1 st1 =>
      rw [ht] at h
      exact ih i1 st1 r h k
    | stop r1 =>
      rw [ht] at h
      exact h

/-- What a turn that goes on does to the index, the vector and `configfile`. -/
theorem conf_load_args_turn_next (B : Build) (E : Env) (i : Nat) (st : St) (i1 : Nat)
    (st1 : St) (h : conf_load_args_turn B E i st = .next i1 st1) :
    i < st.g_argv.length ∧ i < i1 ∧
    ((st1.g_argv = st.g_argv ∧ st1.gconf.configfile = st.gconf.configfile) ∨
      (st.gconf.configfile = none ∧ st1.gconf.configfile ≠ none)) := by
  have key : ∀ (opt : String) (val : Option String) (s : St),
      conf_handle_option B E opt val st = .ok s →
      ((s.g_argv = st.g_argv ∧ s.gconf.configfile = st.gconf.configfile) ∨
        (st.gconf.configfile = none ∧ s.gconf.configfile ≠ none)) := by
    intro opt val s hs
    by_cases hcfg : findCode B opt = .oConfig
    · right
      obtain ⟨k1, k2, k3⟩ := (conf_handle_option_config_frame B E opt val st hcfg).2.2.1 s hs
      exact ⟨k1, by rw [k2]; exact k3⟩
    · left
      obtain ⟨k1, _, k3⟩ := conf_handle_option_stream B E opt val st hcfg
      rw [hs] at k1 k3
      exact ⟨k1, k3⟩
  rcases conf_load_args_turn_cases B E i st with ⟨_, e⟩ | ⟨_, _, e⟩ | ⟨hi, _, e⟩ |
    ⟨opt, v, hi, _, _, _, e⟩ | ⟨opt, _, hi, _, _, _, e⟩
  · rw [e] at h; cases h
  · rw [e] at h; cases h
  · rw [e] at h
    injection h with h1 h2
    subst h1; subst h2
    exact ⟨hi, by omega, Or.inl ⟨rfl, rfl⟩⟩
  · rw [e] at h
    cases hr : conf_handle_option B E opt (some v) st with
    | ok s =>
      rw [hr] at h
      injection h with h1 h2
      subst h1; subst h2
      exact ⟨hi, by omega, key opt (some v) s hr⟩
    | exit c m s => rw [hr] at h; cases h
    | undefined s => rw [hr] at h; cases h
  · rw [e] at h
    cases hr : conf_handle_option B E opt none st with
    | ok s =>
      rw [hr] at h
      injection h with h1 h2
      subst h1; subst h2
      exact ⟨hi, by omega, key opt none s hr⟩
    | exit c m s => rw [hr] at h; cases h
    | undefined s => rw [hr] at h; cases h

theorem conf_load_args_loop_ends_loaded (B : Build) (E : Env) :
    ∀ (n i : Nat) (st : St), st.gconf.configfile ≠ none → st.g_argv.length - i ≤ n →
      ∃ r, conf_load_args_loop B E (n + 1) i st = some r := by
  intro n
  induction n with
  | zero =>
    intro i st _ hn
    rcases conf_load_args_turn_cases B E i st with ⟨_, e⟩ | ⟨hi, _⟩ | ⟨hi, _⟩ |
      ⟨_, _, hi, _⟩ | ⟨_, _, hi, _⟩
    · exact ⟨_, by rw [conf_load_args_loop, e]⟩
    all_goals omega
  | succ n ih =>
    intro i st hc hn
    rw [conf_load_args_loop]
    cases ht : conf_load_args_turn B E i st with
    | stop r => exact ⟨r, rfl⟩
    | next i1 st1 =>
      obtain ⟨hi, hlt, h3⟩ := conf_load_args_turn_next B E i st i1 st1 ht
      rcases h3 with ⟨hg, hcf⟩ | ⟨hnone, _⟩
      · exact ih i1 st1 (by rw [hcf]; exact hc) (by rw [hg]; omega)
      · exact absurd hnone hc

theorem conf_load_args_loop_ends (B : Build) (E : Env) :
    ∀ (n i : Nat) (st : St), st.g_argv.length - i ≤ n →
      ∃ fuel r, conf_load_args_loop B E fuel i st = some r := by
  intro n
  induction n with
  | zero =>
    intro i st hn
    rcases conf_load_args_turn_cases B E i st with ⟨_, e⟩ | ⟨hi, _⟩ | ⟨hi, _⟩ |
      ⟨_, _, hi, _⟩ | ⟨_, _, hi, _⟩
    · exact ⟨1, _, by rw [conf_load_args_loop, e]⟩
    all_goals omega
  | succ n ih =>
    intro i st hn
    cases ht : conf_load_args_turn B E i st with
    | stop r => exact ⟨1, r, by rw [conf_load_args_loop, ht]⟩
    | next i1 st1 =>
      obtain ⟨hi, hlt, h3⟩ := conf_load_args_turn_next B E i st i1 st1 ht
      rcases h3 with ⟨hg, _⟩ | ⟨_, hsome⟩
      · obtain ⟨fuel, r, hr⟩ := ih i1 st1 (by rw [hg]; omega)
        exact ⟨fuel + 1, r, by rw [conf_load_args_loop, ht]; exact hr⟩
      · obtain ⟨r, hr⟩ :=
          conf_load_args_loop_ends_loaded B E (st1.g_argv.length - i1) i1 st1 hsome (le_refl _)
        exact ⟨st1.g_argv.length - i1 + 1 + 1, r, by rw [conf_load_args_loop, ht]; exact hr⟩

/-- The loop comes to an end: from some number of turns on, the result is the
same for every `fuel`. -/
theorem conf_load_args_loop_total (B : Build) (E : Env) (i : Nat) (st : St) :
    ∃ fuel r, ∀ fuel1, fuel ≤ fuel1 → conf_load_args_loop B E fuel1 i st = some r := by
  obtain ⟨fuel, r, h⟩ := conf_load_args_loop_ends B E (st.g_argv.length - i) i st (le_refl _)
  refine ⟨fuel, r, fun fuel1 hle => ?_⟩
  have := conf_load_args_loop_mono B E fuel i st r h (fuel1 - fuel)
  have e : fuel + (fuel1 - fuel) = fuel1 := by omega
  rw [e] at this
  exact this

/-! ## The calls of `conf_handle_option` in the loop -/

theorem dispatched_tokens_append (a : List (String × Option String)) (opt : String)
    (val : Option String) :
    dispatched_tokens (a ++ [(opt, val)]) = dispatched_tokens a ++ opt :: val.toList := by
  induction a with
  | nil => cases val <;> rfl
  | cons p ps ih =>
    obtain ⟨o, v⟩ := p
    cases v <;> simp [dispatched_tokens, ih]

/-- A second way to show that every result of the loop has the property `Q`,
for a property `P` of the state alone. -/
theorem conf_load_args_loop_rule_calls (B : Build) (E : Env) (P : St → Prop)
    (Q : Res St → Prop)
    (hidle : ∀ st, P st → Q (.ok st) ∧ Q (.undefined st))
    (hok : ∀ opt val st st1, P st → conf_handle_option B E opt val st = .ok st1 → P st1)
    (hexit : ∀ opt val st c m s, P st →
      conf_handle_option B E opt val st = .exit c m s → Q (.exit c m s))
    (hundef : ∀ opt val st s, P st →
      conf_handle_option B E opt val st = .undefined s → Q (.undefined s)) :
    ∀ (fuel i : Nat) (st : St) (r : Res St),
      P st → conf_load_args_loop B E fuel i st = some r → Q r := by
  apply conf_load_args_loop_rule B E (fun _ st => P st) Q
  · intro i st r hP ht
    rcases conf_load_args_turn_cases B E i st with ⟨_, e⟩ | ⟨_, _, e⟩ | ⟨_, _, e⟩ |
      ⟨opt, v, _, _, _, _, e⟩ | ⟨opt, _, _, _, _, _, e⟩
    · rw [e] at ht; injection ht with ht; subst ht; exact (hidle st hP).1
    · rw [e] at ht; injection ht with ht; subst ht; exact (hidle st hP).2
    · rw [e] at ht; cases ht
    · rw [e] at ht
      cases hr : conf_handle_option B E opt (some v) st with
      | ok s => rw [hr] at ht; cases ht
      | exit c m s =>
        rw [hr] at ht; injection ht with ht; subst ht
        exact hexit opt (some v) st c m s hP hr
      | undefined s =>
        rw [hr] at ht; injection ht with ht; subst ht
        exact hundef opt (some v) st s hP hr
    · rw [e] at ht
      cases hr : conf_handle_option B E opt none st with
      | ok s => rw [hr] at ht; cases ht
      | exit c m s =>
        rw [hr] at ht; injection ht with ht; subst ht
        exact hexit opt none st c m s hP hr
      | undefined s =>
        rw [hr] at ht; injection ht with ht; subst ht
        exact hundef opt none st s hP hr
  · intro i st i1 st1 hP ht
    rcases conf_load_args_turn_cases B E i st with ⟨_, e⟩ | ⟨_, _, e⟩ | ⟨_, _, e⟩ |
      ⟨opt, v, _, _, _, _, e⟩ | ⟨opt, _, _, _, _, _, e⟩
    · rw [e] at ht; cases ht
    · rw [e] at ht; cases ht
    · rw [e] at ht; injection ht with h1 h2; subst h1; subst h2; exact hP
    · rw [e] at ht
      cases hr : conf_handle_option B E opt (some v) st with
      | ok s =>
        rw [hr] at ht; injection ht with h1 h2; subst h1; subst h2
        exact hok opt (some v) st s hP hr
      | exit c m s => rw [hr] at ht; cases ht
      | undefined s => rw [hr] at ht; cases ht
    · rw [e] at ht
      cases hr : conf_handle_option B E opt none st with
      | ok s =>
        rw [hr] at ht; injection ht with h1 h2; subst h1; subst h2
        exact hok opt none st s hP hr
      | exit c m s => rw [hr] at ht; cases ht
      | undefined s => rw [hr] at ht; cases ht

/-! ## The call of `--config` and the end of the run -/

theorem findCode_of_config (B : Build) : findCode B "--config" = .oConfig := by
  unfold findCode options
  cases B.CMD <;> cases B.DNS <;> cases B.NSS <;> cases B.TLS <;> cases B.WEB <;>
    simp [findCodeIn]

theorem conf_handle_option_config_loaded (B : Build) (E : Env) (f : String)
    (content : List Char) (st : St) (hmode : not_regular (E.fs f) = false)
    (hopen : (E.fs f).content = some content) (hwf : well_formed content) :
    (conf_handle_option B E "--config" (some f) st).state.g_argv =
      st.g_argv ++ file_entries content := by
  rw [conf_handle_option_config_some B E "--config" f st (findCode_of_config B)]
  obtain ⟨st1, h1, h2, _⟩ := conf_load_file_well_formed E f content
    (st.emit (.conf_handle_option "--config" (some f))) hmode hopen hwf
  rw [h1]
  simp only [Res.andThen, Res.state_map, St.set_gconf_g_argv]
  rw [h2]; rfl

/-- The run of `conf_check` after the loop changes the record only. -/
theorem conf_load_args_eq (B : Build) (E : Env) (fuel : Nat) (g : gconf_t)
    (argv : List String) (r : Res St) (h : conf_load_args B E fuel g argv = some r) :
    ∃ r0, conf_load_args_loop B E fuel 1 (initial_state g argv) = some r0 ∧
      r.state.trace = r0.state.trace ∧ r.state.g_argv = r0.state.g_argv ∧
      ((∀ s, r0 ≠ .ok s) → r = r0) := by
  unfold conf_load_args at h
  cases h0 : conf_load_args_loop B E fuel 1 (initial_state g argv) with
  | none => rw [h0] at h; cases h
  | some r0 =>
    rw [h0] at h
    simp only [Option.some.injEq] at h
    subst h
    refine ⟨r0, rfl, ?_⟩
    cases r0 with
    | ok s => exact ⟨by simp [Res.andThen], by simp [Res.andThen], fun hn => absurd rfl (hn s)⟩
    | exit c m s => exact ⟨rfl, rfl, fun _ => rfl⟩
    | undefined s => exact ⟨rfl, rfl, fun _ => rfl⟩

theorem conf_load_args_total (B : Build) (E : Env) (g : gconf_t) (argv : List String) :
    ∃ fuel r, ∀ fuel1, fuel ≤ fuel1 → conf_load_args B E fuel1 g argv = some r := by
  obtain ⟨fuel, r0, h⟩ := conf_load_args_loop_total B E 1 (initial_state g argv)
  refine ⟨fuel, r0.andThen fun st =>
    (conf_check B E st.gconf).map (fun g1 => st.set_gconf g1), fun fuel1 hle => ?_⟩
  unfold conf_load_args
  rw [h fuel1 hle]

/-! ## A string option given twice -/

theorem append_singleton_eq_two (D pre mid post : List (String × Option String))
    (x a b : String × Option String)
    (h : D ++ [x] = pre ++ a :: (mid ++ b :: post)) :
    (post = [] ∧ D = pre ++ a :: mid ∧ x = b) ∨
    (∃ post1, post = post1 ++ [x] ∧ D = pre ++ a :: (mid ++ b :: post1)) := by
  rcases List.eq_nil_or_concat post with rfl | ⟨post1, y, hp⟩
  rotate_left
  · rw [List.concat_eq_append] at hp
    subst hp
    right
    have e : pre ++ a :: (mid ++ b :: (post1 ++ [y])) =
        (pre ++ a :: (mid ++ b :: post1)) ++ [y] := by simp
    rw [e] at h
    obtain ⟨h1, h2⟩ := List.append_inj' h rfl
    have hxy : x = y := by simpa using h2
    exact ⟨post1, by rw [hxy], h1⟩
  · left
    have e : pre ++ a :: (mid ++ [b]) = (pre ++ a :: mid) ++ [b] := by simp
    rw [e] at h
    obtain ⟨h1, h2⟩ := List.append_inj' h rfl
    exact ⟨rfl, h1, by simpa using h2⟩

theorem once_each_ok (B : Build) (E : Env) (o : String) (val : Option String) (st st1 : St)
    (hP : once_each B st) (hr : conf_handle_option B E o val st = .ok st1) :
    once_each B st1 := by
  intro opt f hf
  obtain ⟨hno, hval⟩ := hP opt f hf
  have hd := conf_handle_option_dispatches B E o val st
  rw [hr] at hd
  simp only [Res.state_ok] at hd
  constructor
  · intro pre v1 mid v2 post hdec
    rw [hd] at hdec
    rcases append_singleton_eq_two _ _ _ _ _ _ _ hdec with ⟨_, hD, hx⟩ | ⟨post1, _, hD⟩
    · injection hx with ho hv
      subst ho; subst hv
      have hset : f st.gconf = some v1 := hval v1 (by rw [hD]; simp)
      rw [conf_handle_option_str_duplicate B E o v2 v1 st f hf hset] at hr
      cases hr
    · exact hno pre v1 mid v2 post1 hD
  · intro v hmem
    rw [hd, List.mem_append] at hmem
    rcases hmem with hmem | hmem
    · have hset := hval v hmem
      by_cases hcode : findCode B o = findCode B opt
      · have hname := findCode_str_name B o opt f hf hcode
        subst hname
        have := (conf_handle_option_str_ok B E o val st st1 f hf hr).1
        rw [hset] at this
        cases this
      · have := conf_handle_option_str_frame B E o val st (findCode B opt) f hf hcode
        rw [hr] at this
        simp only [Res.state_ok] at this
        rw [this]; exact hset
    · simp only [List.mem_singleton, Prod.mk.injEq] at hmem
      obtain ⟨ho, hv⟩ := hmem
      subst ho; subst hv
      exact (conf_handle_option_str_ok B E opt (some v) st st1 f hf hr).2.1

theorem second_is_duplicate_of_call (B : Build) (E : Env) (o : String) (val : Option String)
    (st : St) (hP : once_each B st) (hr : ∀ s, conf_handle_option B E o val st ≠ .ok s) :
    second_is_duplicate B (conf_handle_option B E o val st) := by
  intro opt f v1 v2 pre mid post hf hdec
  obtain ⟨hno, hval⟩ := hP opt f hf
  rw [conf_handle_option_dispatches] at hdec
  rcases append_singleton_eq_two _ _ _ _ _ _ _ hdec with ⟨hpost, hD, hx⟩ | ⟨post1, _, hD⟩
  · injection hx with ho hv
    subst ho; subst hv
    have hset : f st.gconf = some v1 := hval v1 (by rw [hD]; simp)
    rw [conf_handle_option_str_duplicate B E o v2 v1 st f hf hset]
    exact ⟨rfl, hpost, by simpa using hset⟩
  · exact absurd hD (hno pre v1 mid v2 post1)

theorem second_is_duplicate_idle (B : Build) (st : St) (hP : once_each B st) :
    second_is_duplicate B (.ok st) ∧ second_is_duplicate B (.undefined st) := by
  constructor <;>
  · intro opt f v1 v2 pre mid post hf hdec
    exact absurd hdec ((hP opt f hf).1 pre v1 mid v2 post)

theorem conf_load_args_loop_second_is_duplicate (B : Build) (E : Env) :
    ∀ (fuel i : Nat) (st : St) (r : Res St),
      once_each B st → conf_load_args_loop B E fuel i st = some r →
      second_is_duplicate B r := by
  apply conf_load_args_loop_rule_calls B E (once_each B) (second_is_duplicate B)
  · exact second_is_duplicate_idle B
  · exact once_each_ok B E
  · intro opt val st c m s hP hr
    have := second_is_duplicate_of_call B E opt val st hP (by rw [hr]; intro s1 h; cases h)
    rw [hr] at this; exact this
  · intro opt val st s hP hr
    have := second_is_duplicate_of_call B E opt val st hP (by rw [hr]; intro s1 h; cases h)
    rw [hr] at this; exact this

/-- Claim C3: every run of `conf_load_args` comes to an end, and when its
calls of `conf_handle_option` hand the same string option over twice with a
value, whether the two come from the command line, from the file or one from
each, the run ended in the second of them (`post = []`) with DuplicateOption
for that option, and the field holds the value of the first. -/
theorem conf_load_args_second_is_duplicate (B : Build) (E : Env) (g : gconf_t)
    (argv : List String) :
    (∃ fuel r, ∀ fuel1, fuel ≤ fuel1 → conf_load_args B E fuel1 g argv = some r) ∧
    ∀ fuel r, conf_load_args B E fuel g argv = some r →
      ∀ (opt : String) (f : gconf_t → Option String) (v1 v2 : String)
        (pre mid post : List (String × Option String)),
        str_field (findCode B opt) = some f →
        dispatches r.state.trace = pre ++ (opt, some v1) :: (mid ++ (opt, some v2) :: post) →
        r = .exit 1 (some (.DuplicateOption opt)) r.state ∧ post = [] ∧
          f r.state.gconf = some v1 := by
  refine ⟨conf_load_args_total B E g argv, ?_⟩
  intro fuel r hr opt f v1 v2 pre mid post hf hdec
  obtain ⟨r0, h0, ht, _, hsame⟩ := conf_load_args_eq B E fuel g argv r hr
  have hstart : once_each B (initial_state g argv) := by
    intro opt f _
    constructor
    · intro pre v1 mid v2 post h
      simp [initial_state, dispatches] at h
    · intro v h
      simp [initial_state, dispatches] at h
  have key := conf_load_args_loop_second_is_duplicate B E fuel 1 (initial_state g argv) r0
    hstart h0
  rw [ht] at hdec
  obtain ⟨k1, k2, k3⟩ := key opt f v1 v2 pre mid post hf hdec
  have hne : ∀ s, r0 ≠ .ok s := by
    intro s h
    rw [h] at k1
    cases k1
  have := hsame hne
  subst this
  exact ⟨k1, k2, k3⟩

/-! ## A command line without `--config` -/

theorem is_value_some_eq (v : String) : is_value (some v) = !begins_with_dash v := by
  obtain ⟨d⟩ := v
  cases d <;> simp [is_value, begins_with_dash]

theorem spec_pairs_drop_value (argv : List String) (i : Nat) (opt v : String)
    (ho : argv[i]? = some opt) (hv : argv[i + 1]? = some v)
    (hval : begins_with_dash v = false) :
    spec_pairs (argv.drop i) = (opt, some v) :: spec_pairs (argv.drop (i + 2)) := by
  have h1 : argv.drop i = opt :: argv.drop (i + 1) := by
    rw [List.drop_eq_getElem?_toList_append, ho]; rfl
  have h2 : argv.drop (i + 1) = v :: argv.drop (i + 2) := by
    rw [List.drop_eq_getElem?_toList_append, hv]; rfl
  rw [h1, h2, spec_pairs]
  simp [hval]

theorem spec_pairs_drop_dash (argv : List String) (i : Nat) (opt v : String)
    (ho : argv[i]? = some opt) (hv : argv[i + 1]? = some v)
    (hval : begins_with_dash v = true) :
    spec_pairs (argv.drop i) = (opt, none) :: spec_pairs (argv.drop (i + 1)) := by
  have h1 : argv.drop i = opt :: argv.drop (i + 1) := by
    rw [List.drop_eq_getElem?_toList_append, ho]; rfl
  have h2 : argv.drop (i + 1) = v :: argv.drop (i + 2) := by
    rw [List.drop_eq_getElem?_toList_append, hv]; rfl
  rw [h1, h2, spec_pairs]
  simp [hval]

/-- Without `--config` on the command line, the calls of `conf_handle_option`
are the pairs of the specification, in order: all of them when the loop runs
to its end, and a first part of them when a call ends the process or when the
last token stands where an option is read, so that `g_argv[argc]` is read. -/
theorem conf_load_args_loop_pairs (B : Build) (E : Env) (g : gconf_t) (argv : List String)
    (hno : "--config" ∉ argv) :
    ∀ (fuel : Nat) (r : Res St),
      conf_load_args_loop B E fuel 1 (initial_state g argv) = some r →
      dispatches r.state.trace <+: spec_pairs (argv.drop 1) ∧
      ((∃ s, r = .ok s) → dispatches r.state.trace = spec_pairs (argv.drop 1)) := by
  intro fuel r
  have hcall : ∀ (opt : String) (val : Option String) (st : St), opt ∈ argv →
      st.g_argv = argv.map some → st.terminated = false →
      (conf_handle_option B E opt val st).state.g_argv = argv.map some ∧
      (conf_handle_option B E opt val st).state.terminated = false ∧
      dispatches (conf_handle_option B E opt val st).state.trace =
        dispatches st.trace ++ [(opt, val)] := by
    intro opt val st hmem hg ht
    have hcfg : findCode B opt ≠ .oConfig := by
      intro h
      have := findCode_config B opt h
      subst this
      exact hno hmem
    obtain ⟨k1, k2, _⟩ := conf_handle_option_stream B E opt val st hcfg
    exact ⟨by rw [k1, hg], by rw [k2, ht], conf_handle_option_dispatches B E opt val st⟩
  have hcell : ∀ (j : Nat) (s : String), (argv.map some)[j]? = some (some s) →
      argv[j]? = some s := by
    intro j s h
    rw [List.getElem?_map] at h
    cases hj : argv[j]? with
    | none => rw [hj] at h; simp at h
    | some t => rw [hj] at h; simp at h; rw [h]
  have hstep : ∀ (opt : String) (val : Option String) (st : St) (i k : Nat),
      opt ∈ argv → st.g_argv = argv.map some → st.terminated = false →
      dispatches st.trace ++ spec_pairs (argv.drop i) = spec_pairs (argv.drop 1) →
      spec_pairs (argv.drop i) = (opt, val) :: spec_pairs (argv.drop k) →
      (conf_handle_option B E opt val st).state.g_argv = argv.map some ∧
      (conf_handle_option B E opt val st).state.terminated = false ∧
      dispatches (conf_handle_option B E opt val st).state.trace ++ spec_pairs (argv.drop k) =
        spec_pairs (argv.drop 1) := by
    intro opt val st i k hmem hg hterm hP hsp
    obtain ⟨k1, k2, k3⟩ := hcall opt val st hmem hg hterm
    refine ⟨k1, k2, ?_⟩
    rw [k3, ← hP, hsp]
    simp
  have hpair : ∀ (i : Nat) (st : St) (opt : String) (val : Option String),
      st.g_argv = argv.map some → st.terminated = false →
      st.g_argv[i]? = some (some opt) → st.read (i + 1) = some val →
      opt ∈ argv ∧
      ((∃ v, val = some v ∧ is_value val = true ∧
          spec_pairs (argv.drop i) = (opt, some v) :: spec_pairs (argv.drop (i + 2))) ∨
        (is_value val = false ∧
          spec_pairs (argv.drop i) = (opt, none) :: spec_pairs (argv.drop (i + 1)))) := by
    intro i st opt val hg hterm ho hv
    rw [hg] at ho
    have ho1 := hcell i opt ho
    refine ⟨List.getElem?_mem ho1, ?_⟩
    have hin : st.g_argv[i + 1]? = some val := by
      unfold St.read at hv
      cases hc : st.g_argv[i + 1]? with
      | some cell => rw [hc] at hv; exact hv
      | none => rw [hc] at hv; simp [hterm] at hv
    rw [hg, List.getElem?_map] at hin
    cases hj : argv[i + 1]? with
    | none => rw [hj] at hin; simp at hin
    | some t =>
      rw [hj] at hin
      simp only [Option.map_some', Option.some.injEq] at hin
      subst hin
      by_cases hd : begins_with_dash t = true
      · right
        exact ⟨by rw [is_value_some_eq, hd]; rfl, spec_pairs_drop_dash argv i opt t ho1 hj hd⟩
      · left
        have hd1 : begins_with_dash t = false := by simpa using hd
        exact ⟨t, rfl, by rw [is_value_some_eq, hd1]; rfl,
          spec_pairs_drop_value argv i opt t ho1 hj hd1⟩
  refine conf_load_args_loop_rule B E
    (fun i st => st.g_argv = argv.map some ∧ st.terminated = false ∧
      dispatches st.trace ++ spec_pairs (argv.drop i) = spec_pairs (argv.drop 1))
    (fun r => dispatches r.state.trace <+: spec_pairs (argv.drop 1) ∧
      ((∃ s, r = .ok s) → dispatches r.state.trace = spec_pairs (argv.drop 1)))
    ?_ ?_ fuel 1 (initial_state g argv) r ⟨rfl, rfl, by simp [initial_state, dispatches]⟩
  · intro i st r ⟨hg, hterm, hP⟩ ht
    rcases conf_load_args_turn_cases B E i st with ⟨hi, e⟩ | ⟨_, _, e⟩ | ⟨_, _, e⟩ |
      ⟨opt, v, hlt, ho, hv, hval, e⟩ | ⟨opt, val, hlt, ho, hv, hnv, e⟩
    · rw [e] at ht; injection ht with ht; subst ht
      have hd : argv.drop i = [] := by
        apply List.drop_eq_nil_of_le
        rw [hg, List.length_map] at hi
        omega
      rw [hd] at hP
      simp only [spec_pairs, List.append_nil] at hP
      simp only [Res.state_ok]
      exact ⟨by rw [hP], fun _ => hP⟩
    · rw [e] at ht; injection ht with ht; subst ht
      simp only [Res.state_undefined]
      exact ⟨⟨_, hP⟩, fun ⟨s, hs⟩ => by cases hs⟩
    · rw [e] at ht; cases ht
    · have hrd : st.read (i + 1) = some (some v) := by
        unfold St.read; rw [hv]
      obtain ⟨hmem, hcase⟩ := hpair i st opt (some v) hg hterm ho hrd
      rcases hcase with ⟨v1, hv1, _, hsp⟩ | ⟨hfalse, _⟩
      · injection hv1 with hv1; subst hv1
        obtain ⟨_, _, k3⟩ := hstep opt (some v) st i (i + 2) hmem hg hterm hP hsp
        rw [e] at ht
        cases hr : conf_handle_option B E opt (some v) st with
        | ok s => rw [hr] at ht; cases ht
        | exit c m s =>
          rw [hr] at ht k3; injection ht with ht; subst ht
          exact ⟨⟨_, k3⟩, fun ⟨s1, hs⟩ => by cases hs⟩
        | undefined s =>
          rw [hr] at ht k3; injection ht with ht; subst ht
          exact ⟨⟨_, k3⟩, fun ⟨s1, hs⟩ => by cases hs⟩
      · rw [hval] at hfalse; cases hfalse
    · obtain ⟨hmem, hcase⟩ := hpair i st opt val hg hterm ho hv
      rcases hcase with ⟨_, _, htrue, _⟩ | ⟨_, hsp⟩
      · rw [htrue] at hnv; cases hnv
      · obtain ⟨_, _, k3⟩ := hstep opt none st i (i + 1) hmem hg hterm hP hsp
        rw [e] at ht
        cases hr : conf_handle_option B E opt none st with
        | ok s => rw [hr] at ht; cases ht
        | exit c m s =>
          rw [hr] at ht k3; injection ht with ht; subst ht
          exact ⟨⟨_, k3⟩, fun ⟨s1, hs⟩ => by cases hs⟩
        | undefined s =>
          rw [hr] at ht k3; injection ht with ht; subst ht
          exact ⟨⟨_, k3⟩, fun ⟨s1, hs⟩ => by cases hs⟩
  · intro i st i1 st1 ⟨hg, hterm, hP⟩ ht
    rcases conf_load_args_turn_cases B E i st with ⟨hi, e⟩ | ⟨_, _, e⟩ | ⟨_, hn, e⟩ |
      ⟨opt, v, hlt, ho, hv, hval, e⟩ | ⟨opt, val, hlt, ho, hv, hnv, e⟩
    · rw [e] at ht; cases ht
    · rw [e] at ht; cases ht
    · exfalso
      rw [hg, List.getElem?_map] at hn
      cases hj : argv[i]? with
      | none => rw [hj] at hn; simp at hn
      | some t => rw [hj] at hn; simp at hn
    · have hrd : st.read (i + 1) = some (some v) := by
        unfold St.read; rw [hv]
      obtain ⟨hmem, hcase⟩ := hpair i st opt (some v) hg hterm ho hrd
      rcases hcase with ⟨v1, hv1, _, hsp⟩ | ⟨hfalse, _⟩
      · injection hv1 with hv1; subst hv1
        have k := hstep opt (some v) st i (i + 2) hmem hg hterm hP hsp
        rw [e] at ht
        cases hr : conf_handle_option B E opt (some v) st with
        | ok s =>
          rw [hr] at ht k; injection ht with h1 h2; subst h1; subst h2
          exact k
        | exit c m s => rw [hr] at ht; cases ht
        | undefined s => rw [hr] at ht; cases ht
      · rw [hval] at hfalse; cases hfalse
    · obtain ⟨hmem, hcase⟩ := hpair i st opt val hg hterm ho hv
      rcases hcase with ⟨_, _, htrue, _⟩ | ⟨_, hsp⟩
      · rw [htrue] at hnv; cases hnv
      · have k := hstep opt none st i (i + 1) hmem hg hterm hP hsp
        rw [e] at ht
        cases hr : conf_handle_option B E opt none st with
        | ok s =>
          rw [hr] at ht k; injection ht with h1 h2; subst h1; subst h2
          exact k
        | exit c m s => rw [hr] at ht; cases ht
        | undefined s => rw [hr] at ht; cases ht

/-! ## Runs on concrete command lines -/

/-- The run of `kadnode --config f --user kad` on the sample file: the calls, and
the vector at the end. -/
theorem conf_load_args_sample_run :
    (conf_load_args sample_build (env_answering 0 [("f", sample_file)]) 8
        (conf_init sample_build) ["kadnode", "--config", "f", "--user", "kad"]).map
      (fun r => (dispatches r.state.trace, r.state.g_argv)) =
    some ([("--config", some "f"), ("--user", some "kad"), ("--port", some "6881"),
        ("--daemon", none)],
      [some "kadnode", some "--config", some "f", some "--user", some "kad",
        some "--port", some "6881", some "--daemon", none]) := by
  decide

/-- The run of `kadnode --port 1 --config f` on a file that sets the port again:
the second `--port` ends the run. -/
theorem conf_load_args_duplicate_run :
    (conf_load_args sample_build (env_answering 0 [("f", sample_file)]) 8
        (conf_init sample_build) ["kadnode", "--port", "1", "--config", "f"]).map
      (fun r => (dispatches r.state.trace, r.map (fun s => s.gconf.dht_port))) =
    some ([("--port", some "1"), ("--config", some "f"), ("--port", some "6881")],
      .exit 1 (some (.DuplicateOption "--port")) (some "1")) := by
  decide

theorem conf_load_args_second_is_duplicate_witness :
    ∃ r, conf_load_args sample_build (env_answering 0 [("f", sample_file)]) 8
        (conf_init sample_build) ["kadnode", "--port", "1", "--config", "f"] = some r ∧
      dispatches r.state.trace =
        [] ++ ("--port", some "1") :: ([("--config", some "f")] ++ ("--port", some "6881") :: []) ∧
      r = .exit 1 (some (.DuplicateOption "--port")) r.state ∧
      ([] : List (String × Option String)) = [] ∧ r.state.gconf.dht_port = some "1" := by
  cases hrun : conf_load_args sample_build (env_answering 0 [("f", sample_file)]) 8
      (conf_init sample_build) ["kadnode", "--port", "1", "--config", "f"] with
  | none => revert hrun; decide
  | some r =>
    have hdec : dispatches r.state.trace =
        [] ++ ("--port", some "1") ::
          ([("--config", some "f")] ++ ("--port", some "6881") :: []) := by
      have h := conf_load_args_duplicate_run
      rw [hrun] at h
      simp only [Option.map_some', Option.some.injEq, Prod.mk.injEq] at h
      rw [h.1]; rfl
    exact ⟨r, rfl, hdec,
      (conf_load_args_second_is_duplicate sample_build (env_answering 0 [("f", sample_file)])
        (conf_init sample_build) ["kadnode", "--port", "1", "--config", "f"]).2 8 r hrun
        "--port" gconf_t.dht_port "1" "6881" [] [("--config", some "f")] [] rfl hdec⟩

/-- Claim C1 fails on the code for the command line `kadnode --daemon`: the
last token stands where an option is read, so `val = g_argv[i+1]` reads the
cell `g_argv[argc]`, which lies outside the array that `memdup` made of the
`argc` cells of `argv`.  The run has no defined behaviour from there on and no
call of `conf_handle_option` was made; the claim has the token handed over
with no value. -/
theorem conf_load_args_last_option_outside_array (B : Build) (E : Env) (g : gconf_t)
    (fuel : Nat) :
    conf_load_args B E (fuel + 1) g ["kadnode", "--daemon"] =
      some (.undefined (initial_state g ["kadnode", "--daemon"])) ∧
    dispatches (initial_state g ["kadnode", "--daemon"]).trace = [] := by
  constructor
  · simp [conf_load_args, conf_load_args_loop, conf_load_args_turn, St.read, St.g_argc,
      initial_state, Res.andThen]
  · rfl

/-! ## The validator `conf_check` -/

theorem default_af (x : gconf_t) :
    (if x.af = 0 then { x with af := AF_INET } else x) =
      { x with af := if x.af = 0 then AF_INET else x.af } := by
  by_cases h : x.af = 0 <;> cases x <;> simp_all

theorem default_query_tld (x : gconf_t) (d : String) :
    (if x.query_tld = none then { x with query_tld := some d } else x) =
      { x with query_tld := some (x.query_tld.getD d) } := by
  cases h : x.query_tld <;> cases x <;> simp_all

theorem default_node_id_str (x : gconf_t) (d : String) :
    (if x.node_id_str = none then { x with node_id_str := some d } else x) =
      { x with node_id_str := some (x.node_id_str.getD d) } := by
  cases h : x.node_id_str <;> cases x <;> simp_all

theorem default_dht_port (x : gconf_t) (d : String) :
    (if x.dht_port = none then { x with dht_port := some d } else x) =
      { x with dht_port := some (x.dht_port.getD d) } := by
  cases h : x.dht_port <;> cases x <;> simp_all

theorem default_dht_addr (x : gconf_t) (d : String) :
    (if x.dht_addr = none then { x with dht_addr := some d } else x) =
      { x with dht_addr := some (x.dht_addr.getD d) } := by
  cases h : x.dht_addr <;> cases x <;> simp_all

theorem default_cmd_port (x : gconf_t) (c : Bool) (d : String) :
    (if c = true ∧ x.cmd_port = none then { x with cmd_port := some d } else x) =
      { x with cmd_port := if c = true then some (x.cmd_port.getD d) else x.cmd_port } := by
  cases h : x.cmd_port <;> cases c <;> cases x <;> simp_all

theorem default_dns_port (x : gconf_t) (c : Bool) (d : String) :
    (if c = true ∧ x.dns_port = none then { x with dns_port := some d } else x) =
      { x with dns_port := if c = true then some (x.dns_port.getD d) else x.dns_port } := by
  cases h : x.dns_port <;> cases c <;> cases x <;> simp_all

theorem default_nss_port (x : gconf_t) (c : Bool) (d : String) :
    (if c = true ∧ x.nss_port = none then { x with nss_port := some d } else x) =
      { x with nss_port := if c = true then some (x.nss_port.getD d) else x.nss_port } := by
  cases h : x.nss_port <;> cases c <;> cases x <;> simp_all

theorem default_web_port (x : gconf_t) (c : Bool) (d : String) :
    (if c = true ∧ x.web_port = none then { x with web_port := some d } else x) =
      { x with web_port := if c = true then some (x.web_port.getD d) else x.web_port } := by
  cases h : x.web_port <;> cases c <;> cases x <;> simp_all

/-- The run of `conf_check` in closed form, for a record whose DNS server, if
one is given, resolves: the port checks on the record with the defaults, then
the local discovery block and the times. -/
theorem conf_check_eq (B : Build) (E : Env) (g0 : gconf_t)
    (hdns : B.DNS = true → g0.dns_server ≠ none →
      E.addr_parse g0.dns_server "53" AF_UNSPEC ≠ none) :
    conf_check B E g0 =
      if port_parse (with_defaults B E g0).dht_port (-1) < 1 then
        .exit 1 (some (.InvalidPort "DHT" (with_defaults B E g0).dht_port)) (with_defaults B E g0)
      else if B.CMD ∧ port_parse (with_defaults B E g0).cmd_port (-1) < 0 then
        .exit 1 (some (.InvalidPort "CMD" (with_defaults B E g0).cmd_port)) (with_defaults B E g0)
      else if B.DNS ∧ port_parse (with_defaults B E g0).dns_port (-1) < 0 then
        .exit 1 (some (.InvalidPort "DNS" (with_defaults B E g0).dns_port)) (with_defaults B E g0)
      else if B.NSS ∧ port_parse (with_defaults B E g0).nss_port (-1) < 0 then
        .exit 1 (some (.InvalidPort "NSS" (with_defaults B E g0).nss_port)) (with_defaults B E g0)
      else if B.WEB ∧ port_parse (with_defaults B E g0).web_port (-1) < 0 then
        .exit 1 (some (.InvalidPort "WEB" (with_defaults B E g0).web_port)) (with_defaults B E g0)
      else
        (if B.LPD then conf_check_lpd B E (with_defaults B E g0)
          else .ok (with_defaults B E g0)).andThen fun g =>
          .ok { g with time_now := E.time_now_sec, startup_time := E.time_now_sec } := by
  unfold conf_check
  lift_lets
  extract_lets g1 g2 g3 g4 g5 g6 g7
  have e7 : g7 = { with_defaults B E g0 with
      dns_server_addr := g0.dns_server_addr, nss_port := g0.nss_port,
      web_port := g0.web_port } := by
    simp only [g7, g6, g5, g4, g3, g2, g1, default_af, default_query_tld, default_node_id_str,
      default_dht_port, default_dht_addr, default_cmd_port, default_dns_port, with_defaults]
  have h7 : ∃ g8, (if B.DNS = true then conf_check_dns E g7 else Res.ok g7) = .ok g8 ∧
      (if B.WEB ∧ (if B.NSS ∧ g8.nss_port = none then { g8 with nss_port := some B.NSS_PORT }
          else g8).web_port = none
        then { (if B.NSS ∧ g8.nss_port = none then { g8 with nss_port := some B.NSS_PORT }
          else g8) with web_port := some B.WEB_PORT }
        else (if B.NSS ∧ g8.nss_port = none then { g8 with nss_port := some B.NSS_PORT }
          else g8)) = with_defaults B E g0 := by
    rw [e7]
    cases hD : B.DNS
    · refine ⟨_, by simp only [Bool.false_eq_true, if_false]; rfl, ?_⟩
      rw [default_nss_port, default_web_port]
      simp [with_defaults, hD]
    · cases hs : g0.dns_server with
      | none =>
        refine ⟨_, by simp only [conf_check_dns, with_defaults, hs, if_true]; rfl, ?_⟩
        rw [default_nss_port, default_web_port]
        simp [with_defaults, hD, hs]
      | some s =>
        cases ha : E.addr_parse (some s) "53" AF_UNSPEC with
        | none => exact absurd (by rw [hs]; exact ha) (hdns hD (by simp [hs]))
        | some ip =>
          refine ⟨_, by simp only [conf_check_dns, with_defaults, hs, ha, if_true]; rfl, ?_⟩
          rw [default_nss_port, default_web_port]
          simp [with_defaults, hD, hs, ha]
  obtain ⟨g8, h8, hw⟩ := h7
  rw [h8]
  simp only [Res.andThen]
  rw [hw]

/-- A DNS server that does not resolve ends `conf_check` before the port
checks. -/
theorem conf_check_dns_fails (B : Build) (E : Env) (g0 : gconf_t) (s : String)
    (hD : B.DNS = true) (hs : g0.dns_server = some s)
    (ha : E.addr_parse (some s) "53" AF_UNSPEC = none) :
    ∃ g, conf_check B E g0 = .exit 1 (some (.DnsServerParse s)) g := by
  unfold conf_check
  lift_lets
  extract_lets g1 g2 g3 g4 g5 g6 g7
  have e7 : g7.dns_server = some s := by
    simp only [g7, g6, g5, g4, g3, g2, g1, default_af, default_query_tld, default_node_id_str,
      default_dht_port, default_dht_addr, default_cmd_port, default_dns_port, hs]
  refine ⟨g7, ?_⟩
  simp only [hD, if_true, conf_check_dns, e7, ha, Res.andThen]

theorem port_parse_lt (s : Option String) (lo : Nat) :
    port_parse s (-1) < (lo : Int) ↔ denotes_port s lo = false := by
  cases s with
  | none => simp [port_parse, denotes_port]; omega
  | some str =>
    simp only [port_parse, denotes_port]
    split
    · rename_i h
      simp [h]
    · rename_i h
      simp only [not_and, not_le] at h
      simp
      constructor
      · intro _ h1 h2 h3
        have := h h1 (by simpa using h2)
        omega
      · intro _; omega


theorem conf_check_with_defaults_ports (B : Build) (E : Env) (g0 : gconf_t) :
    (with_defaults B E g0).dht_port = some (g0.dht_port.getD B.DHT_PORT) ∧
    (B.CMD = true → (with_defaults B E g0).cmd_port = some (g0.cmd_port.getD B.CMD_PORT)) ∧
    (B.DNS = true → (with_defaults B E g0).dns_port = some (g0.dns_port.getD B.DNS_PORT)) ∧
    (B.NSS = true → (with_defaults B E g0).nss_port = some (g0.nss_port.getD B.NSS_PORT)) ∧
    (B.WEB = true → (with_defaults B E g0).web_port = some (g0.web_port.getD B.WEB_PORT)) := by
  refine ⟨rfl, ?_, ?_, ?_, ?_⟩ <;> intro h <;> simp [with_defaults, h]

theorem find_optional (c : Bool) (x : String × Option String × Nat)
    (p : String × Option String × Nat → Bool) :
    (if c = true then [x] else []).find? p = if c = true ∧ p x = true then some x else none := by
  cases c <;> cases h : p x <;> simp [List.find?_cons, h]

theorem port_fields_find (B : Build) (g : gconf_t)
    (p : String × Option String × Nat → Bool) :
    (port_fields B g).find? p =
      if p ("DHT", some (g.dht_port.getD B.DHT_PORT), 1) = true then
        some ("DHT", some (g.dht_port.getD B.DHT_PORT), 1)
      else if B.CMD = true ∧ p ("CMD", some (g.cmd_port.getD B.CMD_PORT), 0) = true then
        some ("CMD", some (g.cmd_port.getD B.CMD_PORT), 0)
      else if B.DNS = true ∧ p ("DNS", some (g.dns_port.getD B.DNS_PORT), 0) = true then
        some ("DNS", some (g.dns_port.getD B.DNS_PORT), 0)
      else if B.NSS = true ∧ p ("NSS", some (g.nss_port.getD B.NSS_PORT), 0) = true then
        some ("NSS", some (g.nss_port.getD B.NSS_PORT), 0)
      else if B.WEB = true ∧ p ("WEB", some (g.web_port.getD B.WEB_PORT), 0) = true then
        some ("WEB", some (g.web_port.getD B.WEB_PORT), 0)
      else none := by
  unfold port_fields
  simp only [List.find?_append, find_optional]
  cases h : p ("DHT", some (g.dht_port.getD B.DHT_PORT), 1)
  · simp only [List.find?_cons, h, List.find?_nil, Option.none_or, Bool.false_eq_true, if_false]
    split_ifs <;> simp
  · simp [List.find?_cons, h]

/-- With the DNS server resolved, `conf_check` ends at the first port field
that does not denote a port it lets pass, and goes on to the local discovery
block when there is none. -/
theorem conf_check_first_refused (B : Build) (E : Env) (g0 : gconf_t)
    (hdns : B.DNS = true → g0.dns_server ≠ none →
      E.addr_parse g0.dns_server "53" AF_UNSPEC ≠ none) :
    (∀ name v lo, (port_fields B g0).find? (fun e => !denotes_port e.2.1 e.2.2) =
        some (name, v, lo) →
      conf_check B E g0 = .exit 1 (some (.InvalidPort name v)) (with_defaults B E g0)) ∧
    ((port_fields B g0).find? (fun e => !denotes_port e.2.1 e.2.2) = none →
      conf_check B E g0 =
        (if B.LPD then conf_check_lpd B E (with_defaults B E g0)
          else .ok (with_defaults B E g0)).andThen fun g =>
          .ok { g with time_now := E.time_now_sec, startup_time := E.time_now_sec }) := by
  obtain ⟨p1, p2, p3, p4, p5⟩ := conf_check_with_defaults_ports B E g0
  have q1 := port_parse_lt (with_defaults B E g0).dht_port 1
  have q2 := port_parse_lt (with_defaults B E g0).cmd_port 0
  have q3 := port_parse_lt (with_defaults B E g0).dns_port 0
  have q4 := port_parse_lt (with_defaults B E g0).nss_port 0
  have q5 := port_parse_lt (with_defaults B E g0).web_port 0
  simp only [Nat.cast_one, Nat.cast_zero] at q1 q2 q3 q4 q5
  rw [conf_check_eq B E g0 hdns, port_fields_find]
  simp only [q1, q2, q3, q4, q5, Bool.not_eq_true']
  rw [p1]
  by_cases h1 : denotes_port (some (g0.dht_port.getD B.DHT_PORT)) 1 = false
  · simp [h1]
  simp only [h1, if_false]
  by_cases h2 : B.CMD = true ∧ denotes_port (some (g0.cmd_port.getD B.CMD_PORT)) 0 = false
  · rw [p2 h2.1]; simp [h2]
  have h2a : ¬ (B.CMD = true ∧ denotes_port (with_defaults B E g0).cmd_port 0 = false) :=
    fun h => h2 ⟨h.1, by rw [← p2 h.1]; exact h.2⟩
  simp only [h2, h2a, if_false]
  by_cases h3 : B.DNS = true ∧ denotes_port (some (g0.dns_port.getD B.DNS_PORT)) 0 = false
  · rw [p3 h3.1]; simp [h3]
  have h3a : ¬ (B.DNS = true ∧ denotes_port (with_defaults B E g0).dns_port 0 = false) :=
    fun h => h3 ⟨h.1, by rw [← p3 h.1]; exact h.2⟩
  simp only [h3, h3a, if_false]
  by_cases h4 : B.NSS = true ∧ denotes_port (some (g0.nss_port.getD B.NSS_PORT)) 0 = false
  · rw [p4 h4.1]; simp [h4]
  have h4a : ¬ (B.NSS = true ∧ denotes_port (with_defaults B E g0).nss_port 0 = false) :=
    fun h => h4 ⟨h.1, by rw [← p4 h.1]; exact h.2⟩
  simp only [h4, h4a, if_false]
  by_cases h5 : B.WEB = true ∧ denotes_port (some (g0.web_port.getD B.WEB_PORT)) 0 = false
  · rw [p5 h5.1]; simp [h5]
  have h5a : ¬ (B.WEB = true ∧ denotes_port (with_defaults B E g0).web_port 0 = false) :=
    fun h => h5 ⟨h.1, by rw [← p5 h.1]; exact h.2⟩
  simp only [h5, h5a, if_false]
  simp


theorem conf_check_lpd_not_port (B : Build) (E : Env) (g : gconf_t) (name : String)
    (v : Option String) (s : gconf_t) :
    conf_check_lpd B E g ≠ .exit 1 (some (.InvalidPort name v)) s := by
  unfold conf_check_lpd
  simp only []
  (repeat' split) <;> simp

theorem find_none_of_all {α : Type} (p : α → Bool) (l : List α)
    (h : ∀ e ∈ l, p e = false) : l.find? p = none := by
  simpa using h

theorem find_first_of_split {α : Type} (p : α → Bool) (pre post : List α) (x : α)
    (hpre : ∀ e ∈ pre, p e = false) (hx : p x = true) :
    (pre ++ x :: post).find? p = some x := by
  rw [List.find?_append, find_none_of_all p pre hpre]
  simp [List.find?_cons, hx]

/-- Claim C11 fails on the code for the CMD port (and alike for the DNS, NSS
and WEB ports, whose checks are `port_parse(...) < 0` too): the string "0"
denotes no number in [1,65535], and `conf_check` returns with it as the CMD
port. -/
theorem conf_check_zero_port_counterexample :
    denotes_port (some "0") 1 = false ∧
    (conf_check sample_build (env_answering 0 [])
        { conf_init sample_build with cmd_port := some "0" }).map (fun g => g.cmd_port) =
      .ok (some "0") := by
  decide

/-- Claim C11, amended: in `conf_check`, with `port_parse` returning the
decimal value of a number in 0..65535 and -1 otherwise, and with the DNS
server (if one is given) resolved: when the DHT port denotes a number in
[1,65535] and each of the CMD, DNS, NSS and WEB ports that is compiled in
denotes a number in [0,65535], no port field is refused; and the first field,
in the order DHT, CMD, DNS, NSS, WEB, whose string does not denote a number in
its range (it is outside the range or not numeric) ends the process with the
"Invalid port" error that names this field and its string. -/
theorem conf_check_port_fields (B : Build) (E : Env) (g0 : gconf_t)
    (hdns : B.DNS = true → g0.dns_server ≠ none →
      E.addr_parse g0.dns_server "53" AF_UNSPEC ≠ none) :
    ((∀ e ∈ port_fields B g0, denotes_port e.2.1 e.2.2 = true) →
      ∀ name v g, conf_check B E g0 ≠ .exit 1 (some (.InvalidPort name v)) g) ∧
    (∀ pre name v lo post, port_fields B g0 = pre ++ (name, v, lo) :: post →
      (∀ e ∈ pre, denotes_port e.2.1 e.2.2 = true) → denotes_port v lo = false →
      ∃ g, conf_check B E g0 = .exit 1 (some (.InvalidPort name v)) g) := by
  obtain ⟨k1, k2⟩ := conf_check_first_refused B E g0 hdns
  constructor
  · intro hall name v g
    rw [k2 (find_none_of_all _ _ (fun e he => by simp [hall e he]))]
    cases B.LPD
    · simp [Res.andThen]
    · simp only [if_true]
      have := conf_check_lpd_not_port B E (with_defaults B E g0) name v
      cases hl : conf_check_lpd B E (with_defaults B E g0) with
      | ok s => simp [Res.andThen]
      | exit c m s =>
        simp only [Res.andThen]
        intro h
        injection h with h1 h2 h3
        subst h1 h2 h3
        exact this s hl
      | undefined s => simp [Res.andThen]
  · intro pre name v lo post hsplit hpre hv
    refine ⟨_, k1 name v lo ?_⟩
    rw [hsplit]
    exact find_first_of_split _ pre post _ (fun e he => by simp [hpre e he]) (by simp [hv])

/-- The theorem at work: the CMD port "70000" is refused by name. -/
theorem conf_check_port_fields_witness :
    (sample_build.DNS = true →
      ({ conf_init sample_build with cmd_port := some "70000" } : gconf_t).dns_server ≠ none →
      (env_answering 0 []).addr_parse
        ({ conf_init sample_build with cmd_port := some "70000" } : gconf_t).dns_server
        "53" AF_UNSPEC ≠ none) ∧
    ∃ g, conf_check sample_build (env_answering 0 [])
        { conf_init sample_build with cmd_port := some "70000" } =
      .exit 1 (some (.InvalidPort "CMD" (some "70000"))) g :=
  ⟨by decide,
    (conf_check_port_fields sample_build (env_answering 0 [])
      { conf_init sample_build with cmd_port := some "70000" } (by decide)).2
      [("DHT", some "6881", 1)] "CMD" (some "70000") 0
      [("DNS", some "3535", 0), ("NSS", some "4053", 0), ("WEB", some "8053", 0)]
      (by decide) (by decide) (by decide)⟩


theorem default_lpd_addr (B : Build) (x : gconf_t) :
    (if x.lpd_addr = none then
      if x.af = AF_INET then { x with lpd_addr := some B.LPD_ADDR4 }
      else { x with lpd_addr := some B.LPD_ADDR6 }
    else x) =
      { x with
        lpd_addr := some (x.lpd_addr.getD (if x.af = AF_INET then B.LPD_ADDR4 else B.LPD_ADDR6)) } := by
  cases h : x.lpd_addr <;> by_cases ha : x.af = AF_INET <;> cases x <;> simp_all

/-- Claim C12: with local discovery compiled in, the family `af` of the record
(AF_INET when it was unset) being AF_INET or AF_INET6, and every earlier check
of `conf_check` passed, the address `ip` that the local discovery address (the
default of the family when it was unset) resolves to is accepted if and only
if its first octet is 224 or 239 for AF_INET, or 0xFF for AF_INET6: then
`conf_check` returns, and for every other resolved address it ends the
process with "Multicast address expected" for `ip`. -/
theorem conf_check_multicast (B : Build) (E : Env) (g0 : gconf_t) (af : Nat) (addr : String)
    (ip : IP) (hLPD : B.LPD = true)
    (haf : af = if g0.af = 0 then AF_INET else g0.af)
    (hfam : af = AF_INET ∨ af = AF_INET6)
    (haddr : addr = g0.lpd_addr.getD (if af = AF_INET then B.LPD_ADDR4 else B.LPD_ADDR6))
    (hdns : B.DNS = true → g0.dns_server ≠ none →
      E.addr_parse g0.dns_server "53" AF_UNSPEC ≠ none)
    (hports : ∀ e ∈ port_fields B g0, denotes_port e.2.1 e.2.2 = true)
    (hres : E.addr_parse (some addr) B.LPD_PORT af = some ip) :
    (is_multicast af ip = true → ∃ g, conf_check B E g0 = .ok g) ∧
    (is_multicast af ip = false →
      ∃ g, conf_check B E g0 = .exit 1 (some (.MulticastExpected ip)) g) := by
  have k := (conf_check_first_refused B E g0 hdns).2
    (find_none_of_all _ _ (fun e he => by simp [hports e he]))
  have w1 : (with_defaults B E g0).af = af := by rw [haf]; rfl
  have w2 : (with_defaults B E g0).lpd_addr = g0.lpd_addr := rfl
  rw [k]
  simp only [hLPD, if_true]
  unfold conf_check_lpd
  lift_lets
  intro g
  have hg : g = { with_defaults B E g0 with lpd_addr := some addr } := by
    simp only [g]
    rw [default_lpd_addr, w1, w2, haddr]
  rw [hg]
  simp only [w1, hres]
  unfold is_multicast
  have h46 : AF_INET6 ≠ AF_INET := by decide
  rcases hfam with h4 | h6
  · rw [h4]
    simp only [h46.symm, if_true, true_and, false_and, or_false, Bool.decide_or,
      Bool.or_eq_true, decide_eq_true_eq, Bool.or_eq_false_iff, decide_eq_false_iff_not]
    constructor
    · intro hm
      have hn : ¬ (ip.addr.headD 0 ≠ 224 ∧ ip.addr.headD 0 ≠ 239) := by
        intro hc; rcases hm with h | h
        · exact hc.1 h
        · exact hc.2 h
      simp only [hn, if_false, Res.andThen]
      exact ⟨_, rfl⟩
    · intro hm
      have hn : ip.addr.headD 0 ≠ 224 ∧ ip.addr.headD 0 ≠ 239 := hm
      simp only [hn, and_self, if_true, Res.andThen, ne_eq, not_false_eq_true]
      exact ⟨_, rfl⟩
  · rw [h6]
    simp only [h46, if_false, true_and, false_and, false_or, decide_eq_true_eq,
      decide_eq_false_iff_not]
    constructor
    · intro hm
      simp only [hm, ne_eq, not_true_eq_false, if_false, Res.andThen]
      exact ⟨_, rfl⟩
    · intro hm
      simp only [ne_eq, hm, not_false_eq_true, if_true, Res.andThen]
      exact ⟨_, rfl⟩

/-- The theorem at work: the address 10.0.0.1 under IPv4 is refused. -/
theorem conf_check_multicast_witness :
    sample_build.LPD = true ∧
    AF_INET = (if (conf_init sample_build).af = 0 then AF_INET else (conf_init sample_build).af) ∧
    (AF_INET = AF_INET ∨ AF_INET = AF_INET6) ∧
    "10.0.0.1" = ({ conf_init sample_build with lpd_addr := some "10.0.0.1" } : gconf_t).lpd_addr.getD
      (if AF_INET = AF_INET then sample_build.LPD_ADDR4 else sample_build.LPD_ADDR6) ∧
    is_multicast AF_INET { family := AF_INET, addr := [10, 0, 0, 1] } = false ∧
    ∃ g, conf_check sample_build
        { env_answering 0 [] with
          addr_parse := fun _ _ af => some { family := af, addr := [10, 0, 0, 1] } }
        { conf_init sample_build with lpd_addr := some "10.0.0.1" } =
      .exit 1 (some (.MulticastExpected { family := AF_INET, addr := [10, 0, 0, 1] })) g :=
  ⟨rfl, by decide, by decide, by decide, by decide,
    (conf_check_multicast sample_build
      { env_answering 0 [] with
        addr_parse := fun _ _ af => some { family := af, addr := [10, 0, 0, 1] } }
      { conf_init sample_build with lpd_addr := some "10.0.0.1" } AF_INET "10.0.0.1"
      { family := AF_INET, addr := [10, 0, 0, 1] } rfl (by decide) (by decide) (by decide)
      (by decide) (by decide) rfl).2 (by decide)⟩


/-- The record of a run of `conf_check` that returns: the defaults are in
place, the local discovery address too when the feature is compiled in, and
the times are set. -/
theorem conf_check_ok (B : Build) (E : Env) (g0 g : gconf_t)
    (h : conf_check B E g0 = .ok g) :
    g = { (if B.LPD = true then
          { with_defaults B E g0 with
            lpd_addr := some (g0.lpd_addr.getD
              (if (with_defaults B E g0).af = AF_INET then B.LPD_ADDR4 else B.LPD_ADDR6)) }
        else with_defaults B E g0) with
      time_now := E.time_now_sec, startup_time := E.time_now_sec } := by
  by_cases hdns : B.DNS = true → g0.dns_server ≠ none →
      E.addr_parse g0.dns_server "53" AF_UNSPEC ≠ none
  · obtain ⟨k1, k2⟩ := conf_check_first_refused B E g0 hdns
    cases hf : (port_fields B g0).find? (fun e => !denotes_port e.2.1 e.2.2) with
    | some e =>
      obtain ⟨name, v, lo⟩ := e
      rw [k1 name v lo hf] at h
      cases h
    | none =>
      rw [k2 hf] at h
      cases hL : B.LPD
      · simp only [hL, Bool.false_eq_true, if_false, Res.andThen] at h ⊢
        injection h with h
        exact h.symm
      · simp only [hL, if_true] at h ⊢
        unfold conf_check_lpd at h
        rw [default_lpd_addr] at h
        simp only [] at h
        have w2 : (with_defaults B E g0).lpd_addr = g0.lpd_addr := rfl
        rw [w2] at h
        (repeat' split at h) <;> simp only [Res.andThen] at h <;>
          first
          | (cases h; simp [*])
          | cases h
  · exfalso
    simp only [ne_eq, Classical.not_imp, not_not] at hdns
    obtain ⟨hD, hs, ha⟩ := hdns
    obtain ⟨s, hs1⟩ := Option.ne_none_iff_exists'.mp hs
    rw [hs1] at ha
    obtain ⟨g1, hg1⟩ := conf_check_dns_fails B E g0 s hD hs1 ha
    rw [hg1] at h
    cases h


/-- A call of `conf_handle_option` leaves the address family as it was, or
sets the unset family to AF_INET or AF_INET6. -/
theorem conf_handle_option_af (B : Build) (E : Env) (opt : String) (val : Option String)
    (st : St) :
    (conf_handle_option B E opt val st).state.gconf.af = st.gconf.af ∨
    (st.gconf.af = 0 ∧
      ((conf_handle_option B E opt val st).state.gconf.af = AF_INET ∨
        (conf_handle_option B E opt val st).state.gconf.af = AF_INET6)) := by
  by_cases hcfg : findCode B opt = .oConfig
  · left
    cases val with
    | none => rw [conf_handle_option_config_none B E opt st hcfg]; rfl
    | some v =>
      rw [conf_handle_option_config_some B E opt v st hcfg]
      have h1 := (conf_load_file_frame E v (st.emit (.conf_handle_option opt (some v)))).1
      cases hl : conf_load_file E v (st.emit (.conf_handle_option opt (some v))) with
      | ok s =>
        rw [hl] at h1
        simp only [Res.state_ok, St.emit_gconf] at h1
        simp only [Res.andThen, Res.state_map, St.set_gconf_gconf]
        rw [h1]
      | exit c m s =>
        rw [hl] at h1
        simp only [Res.state_exit, St.emit_gconf] at h1
        simp only [Res.andThen, Res.state_exit]
        rw [h1]
      | undefined s =>
        rw [hl] at h1
        simp only [Res.state_undefined, St.emit_gconf] at h1
        simp only [Res.andThen, Res.state_undefined]
        rw [h1]
  · unfold conf_handle_option
    simp only []
    split
    all_goals first
      | (exfalso; apply hcfg; assumption)
      | (simp [unknown_option, conf_apply_value_frame]; done)
      | ((repeat' split) <;> simp_all [unknown_option, conf_apply_value_frame])

/-- The address family of every state the loop of `conf_load_args` reaches from
a record with an unset family is unset, AF_INET or AF_INET6. -/
theorem conf_load_args_loop_af (B : Build) (E : Env) :
    ∀ (fuel i : Nat) (st : St) (r : Res St),
      (st.gconf.af = 0 ∨ st.gconf.af = AF_INET ∨ st.gconf.af = AF_INET6) →
      conf_load_args_loop B E fuel i st = some r →
      (r.state.gconf.af = 0 ∨ r.state.gconf.af = AF_INET ∨ r.state.gconf.af = AF_INET6) := by
  have key : ∀ (opt : String) (val : Option String) (st : St),
      (st.gconf.af = 0 ∨ st.gconf.af = AF_INET ∨ st.gconf.af = AF_INET6) →
      ((conf_handle_option B E opt val st).state.gconf.af = 0 ∨
        (conf_handle_option B E opt val st).state.gconf.af = AF_INET ∨
        (conf_handle_option B E opt val st).state.gconf.af = AF_INET6) := by
    intro opt val st hP
    rcases conf_handle_option_af B E opt val st with h | ⟨_, h | h⟩
    · rw [h]; exact hP
    · exact Or.inr (Or.inl h)
    · exact Or.inr (Or.inr h)
  apply conf_load_args_loop_rule_calls B E
    (fun st => st.gconf.af = 0 ∨ st.gconf.af = AF_INET ∨ st.gconf.af = AF_INET6)
    (fun r => r.state.gconf.af = 0 ∨ r.state.gconf.af = AF_INET ∨ r.state.gconf.af = AF_INET6)
  · intro st hP; exact ⟨hP, hP⟩
  · intro opt val st st1 hP hr
    have := key opt val st hP
    rw [hr] at this; exact this
  · intro opt val st c m s hP hr
    have := key opt val st hP
    rw [hr] at this; exact this
  · intro opt val st s hP hr
    have := key opt val st hP
    rw [hr] at this; exact this

/-- Claim C14: after `conf_check` succeeds on a record whose address family is
unset, AF_INET or AF_INET6, the family is AF_INET or AF_INET6 (AF_INET when it
was unset, unchanged when it was set); an unset DHT address has become
DHT_ADDR4 for AF_INET and DHT_ADDR6 otherwise, an unset local discovery
address LPD_ADDR4 or LPD_ADDR6 by the same rule, and every unset port field of
a feature compiled in has become its default, whatever the family. -/
theorem conf_check_defaults (B : Build) (E : Env) (g0 g : gconf_t)
    (haf : g0.af = 0 ∨ g0.af = AF_INET ∨ g0.af = AF_INET6)
    (h : conf_check B E g0 = .ok g) :
    (g.af = AF_INET ∨ g.af = AF_INET6) ∧
    (g0.af = 0 → g.af = AF_INET) ∧
    (g0.af ≠ 0 → g.af = g0.af) ∧
    (g0.dht_addr = none →
      g.dht_addr = some (if g.af = AF_INET then B.DHT_ADDR4 else B.DHT_ADDR6)) ∧
    (B.LPD = true → g0.lpd_addr = none →
      g.lpd_addr = some (if g.af = AF_INET then B.LPD_ADDR4 else B.LPD_ADDR6)) ∧
    (g0.dht_port = none → g.dht_port = some B.DHT_PORT) ∧
    (B.CMD = true → g0.cmd_port = none → g.cmd_port = some B.CMD_PORT) ∧
    (B.DNS = true → g0.dns_port = none → g.dns_port = some B.DNS_PORT) ∧
    (B.NSS = true → g0.nss_port = none → g.nss_port = some B.NSS_PORT) ∧
    (B.WEB = true → g0.web_port = none → g.web_port = some B.WEB_PORT) := by
  have hg := conf_check_ok B E g0 g h
  have e_af : g.af = if g0.af = 0 then AF_INET else g0.af := by
    rw [hg]; cases B.LPD <;> rfl
  have e_dht_addr : g.dht_addr = some (g0.dht_addr.getD
      (if (if g0.af = 0 then AF_INET else g0.af) = AF_INET then B.DHT_ADDR4
        else B.DHT_ADDR6)) := by
    rw [hg]; cases B.LPD <;> rfl
  have e_lpd : B.LPD = true → g.lpd_addr = some (g0.lpd_addr.getD
      (if (if g0.af = 0 then AF_INET else g0.af) = AF_INET then B.LPD_ADDR4
        else B.LPD_ADDR6)) := by
    intro hL; rw [hg, hL]; rfl
  have e_dht_port : g.dht_port = some (g0.dht_port.getD B.DHT_PORT) := by
    rw [hg]; cases B.LPD <;> rfl
  have e_cmd : B.CMD = true → g.cmd_port = some (g0.cmd_port.getD B.CMD_PORT) := by
    intro hC; rw [hg]; cases B.LPD <;> simp [with_defaults, hC]
  have e_dns : B.DNS = true → g.dns_port = some (g0.dns_port.getD B.DNS_PORT) := by
    intro hC; rw [hg]; cases B.LPD <;> simp [with_defaults, hC]
  have e_nss : B.NSS = true → g.nss_port = some (g0.nss_port.getD B.NSS_PORT) := by
    intro hC; rw [hg]; cases B.LPD <;> simp [with_defaults, hC]
  have e_web : B.WEB = true → g.web_port = some (g0.web_port.getD B.WEB_PORT) := by
    intro hC; rw [hg]; cases B.LPD <;> simp [with_defaults, hC]
  refine ⟨?_, ?_, ?_, ?_, ?_, ?_, ?_, ?_, ?_, ?_⟩
  · rw [e_af]
    rcases haf with h0 | h4 | h6
    · left; simp [h0]
    · left; rw [h4]; simp
    · right; rw [h6]; simp [AF_INET6]
  · intro h0; rw [e_af]; simp [h0]
  · intro h0; rw [e_af]; simp [h0]
  · intro hn; rw [e_dht_addr, e_af, hn]; rfl
  · intro hL hn; rw [e_lpd hL, e_af, hn]; rfl
  · intro hn; rw [e_dht_port, hn]; rfl
  · intro hC hn; rw [e_cmd hC, hn]; rfl
  · intro hC hn; rw [e_dns hC, hn]; rfl
  · intro hC hn; rw [e_nss hC, hn]; rfl
  · intro hC hn; rw [e_web hC, hn]; rfl

/-- The theorem at work: `conf_check` on the record of `conf_init`. -/
theorem conf_check_defaults_witness :
    ((conf_init sample_build).af = 0 ∨ (conf_init sample_build).af = AF_INET ∨
      (conf_init sample_build).af = AF_INET6) ∧
    conf_check sample_build (env_answering 0 []) (conf_init sample_build) =
      .ok { conf_init sample_build with
        af := AF_INET, query_tld := some ".p2p"
        node_id_str := some "0000000000000000000000000000000000000000"
        dht_port := some "6881", dht_addr := some "0.0.0.0", cmd_port := some "1700"
        dns_port := some "3535", nss_port := some "4053", web_port := some "8053"
        lpd_addr := some "239.192.152.143" } ∧
    ({ conf_init sample_build with
        af := AF_INET, query_tld := some ".p2p"
        node_id_str := some "0000000000000000000000000000000000000000"
        dht_port := some "6881", dht_addr := some "0.0.0.0", cmd_port := some "1700"
        dns_port := some "3535", nss_port := some "4053", web_port := some "8053"
        lpd_addr := some "239.192.152.143" } : gconf_t).af = AF_INET :=
  ⟨by decide, by decide,
    (conf_check_defaults sample_build (env_answering 0 []) (conf_init sample_build) _
      (by decide) (by decide)).2.1 (by decide)⟩


/-- The record of every run of `conf_load_args` from the record of `conf_init`
that returns has the family AF_INET or AF_INET6: the family is unset, AF_INET
or AF_INET6 when `conf_check` starts. -/
theorem conf_load_args_family (B : Build) (E : Env) (fuel : Nat) (argv : List String) (s : St)
    (h : conf_load_args B E fuel (conf_init B) argv = some (.ok s)) :
    s.gconf.af = AF_INET ∨ s.gconf.af = AF_INET6 := by
  unfold conf_load_args at h
  cases h0 : conf_load_args_loop B E fuel 1 (initial_state (conf_init B) argv) with
  | none => rw [h0] at h; cases h
  | some r0 =>
    rw [h0] at h
    simp only [Option.some.injEq] at h
    have hfam := conf_load_args_loop_af B E fuel 1 (initial_state (conf_init B) argv) r0
      (Or.inl rfl) h0
    cases r0 with
    | exit c m st => cases h
    | undefined st => cases h
    | ok st =>
      simp only [Res.andThen, Res.state_ok] at h hfam
      cases hc : conf_check B E st.gconf with
      | exit c m g1 => rw [hc] at h; cases h
      | undefined g1 => rw [hc] at h; cases h
      | ok g1 =>
        rw [hc] at h
        simp only [Res.map, Res.ok.injEq] at h
        subst h
        have hg := conf_check_ok B E st.gconf g1 hc
        have e_af : g1.af = if st.gconf.af = 0 then AF_INET else st.gconf.af := by
          rw [hg]; cases B.LPD <;> rfl
        simp only [St.set_gconf_gconf]
        rw [e_af]
        rcases hfam with h0 | h4 | h6
        · left; simp [h0]
        · left; rw [h4]; simp
        · right; rw [h6]; simp [AF_INET6]

/-! ## The handlers of `conf_handle_option` -/

theorem findCode_of_mode (B : Build) : findCode B "--mode" = .oMode := by
  unfold findCode options
  cases B.CMD <;> cases B.DNS <;> cases B.NSS <;> cases B.TLS <;> cases B.WEB <;>
    simp [findCodeIn]

/-- Claim C13: the handler of `--mode` sets the address family at most once.
On a state whose family is unset, the value `ipv4` sets AF_INET, `ipv6` sets
AF_INET6, and every other value ends the process with "Invalid argument" and
leaves the family unset; on a state whose family is set, every value, valid
or not, ends the process with "Option was already set" and leaves the record
as it was (the state changes by the trace entry of the call only).  The
handler is the same for a pair from the command line and one from a file.  So
the run of `kadnode --mode ipv4 --mode ipv6` ends in the second call with
"Option was already set". -/
theorem conf_handle_option_mode (B : Build) (E : Env) (v : String) (st : St) :
    (st.gconf.af = 0 → v = "ipv4" →
      conf_handle_option B E "--mode" (some v) st =
        .ok ((st.emit (.conf_handle_option "--mode" (some v))).set_gconf
          { st.gconf with af := AF_INET })) ∧
    (st.gconf.af = 0 → v = "ipv6" →
      conf_handle_option B E "--mode" (some v) st =
        .ok ((st.emit (.conf_handle_option "--mode" (some v))).set_gconf
          { st.gconf with af := AF_INET6 })) ∧
    (st.gconf.af = 0 → v ≠ "ipv4" → v ≠ "ipv6" →
      conf_handle_option B E "--mode" (some v) st =
        .exit 1 (some (.InvalidArgument "--mode"))
          (st.emit (.conf_handle_option "--mode" (some v)))) ∧
    (st.gconf.af ≠ 0 →
      conf_handle_option B E "--mode" (some v) st =
        .exit 1 (some (.DuplicateOption "--mode"))
          (st.emit (.conf_handle_option "--mode" (some v)))) ∧
    ∀ fuel, conf_load_args B E (fuel + 2) (conf_init B)
        ["kadnode", "--mode", "ipv4", "--mode", "ipv6"] =
      some (.exit 1 (some (.DuplicateOption "--mode"))
        ((((initial_state (conf_init B) ["kadnode", "--mode", "ipv4", "--mode", "ipv6"]).emit
          (.conf_handle_option "--mode" (some "ipv4"))).set_gconf
            { conf_init B with af := AF_INET }).emit
          (.conf_handle_option "--mode" (some "ipv6")))) := by
  have hcode := findCode_of_mode B
  refine ⟨?_, ?_, ?_, ?_, ?_⟩
  · intro haf hv
    subst hv
    unfold conf_handle_option
    simp [hcode, haf, «match»]
  · intro haf hv
    subst hv
    unfold conf_handle_option
    simp [hcode, haf, «match»]
  · intro haf h4 h6
    unfold conf_handle_option
    simp [hcode, haf, «match», h4, h6]
  · intro haf
    unfold conf_handle_option
    simp [hcode, haf]
  · intro fuel
    simp [conf_load_args, conf_load_args_loop, conf_load_args_turn, St.read, St.g_argc,
      initial_state, Res.andThen, is_value, Turn.of_call, conf_handle_option, hcode, «match»,
      St.emit, St.set_gconf, conf_init, AF_INET]
/-- An option code stands in the table only when its feature is compiled in. -/
theorem findCode_enabled (B : Build) (opt : String) :
    (findCode B opt = .oCmdDisableStdin → B.CMD = true) ∧
    (findCode B opt = .oLpdDisable → B.LPD = true) ∧
    (findCode B opt = .oFwdDisable → B.FWD = true) ∧
    (findCode B opt = .oServiceInstall → B.CYGWIN = true) ∧
    (findCode B opt = .oServiceRemove → B.CYGWIN = true) ∧
    (findCode B opt = .oServiceStart → B.CYGWIN = true) ∧
    (findCode B opt = .oBobGenKeys → B.BOB = true) ∧
    (findCode B opt = .oBobAddSkey → B.BOB = true) ∧
    (findCode B opt = .oTlsClientEntry → B.TLS = true) ∧
    (findCode B opt = .oTlsServerEntry → B.TLS = true) := by
  have key : ∀ c, c ≠ OpCode.oUnknown → findCode B opt = c → (opt, c) ∈ options B :=
    fun c hc h => findCodeIn_mem opt (options B) c h hc
  refine ⟨?_, ?_, ?_, ?_, ?_, ?_, ?_, ?_, ?_, ?_⟩ <;> intro h <;>
    have hm := key _ (by decide) h <;> simp only [options] at hm <;> simp at hm <;> simp [hm]

/-- Claim C16 fails on the code for `-h`, `--help`, `-v` and `--version`: with
a value token present, `--help` prints the usage text and ends the process
with status 0. -/
theorem conf_handle_option_help_counterexample :
    conf_handle_option sample_build (env_answering 0 []) "--help" (some "x") (start_state []) =
      .exit 0 (some .Usage) ((start_state []).emit (.conf_handle_option "--help" (some "x"))) := by
  decide


/-- With or without a value token, `-h`/`--help` print the usage text and
`-v`/`--version` print the version, and the process ends with status 0. -/
theorem conf_handle_option_help_version (B : Build) (E : Env) (opt : String) (st : St) :
    (findCode B opt = .oHelp → ∀ val,
      conf_handle_option B E opt val st =
        .exit 0 (some .Usage) (st.emit (.conf_handle_option opt val))) ∧
    (findCode B opt = .oVersion → ∀ val,
      conf_handle_option B E opt val st =
        .exit 0 (some .Version) (st.emit (.conf_handle_option opt val))) := by
  refine ⟨?_, ?_⟩
  · intro h val
    unfold conf_handle_option
    simp only [h]
  · intro h val
    unfold conf_handle_option
    simp only [h]

/-- Claim C16, amended: called with a value token present, each of `--daemon`,
`--lpd-disable`, `--fwd-disable`, `--cmd-disable-stdin` and the service
options ends the process with "No argument expected" (exit status 1), and the
record it leaves is the one it was given. -/
theorem conf_handle_option_no_argument_expected (B : Build) (E : Env) (opt v : String)
    (st : St)
    (h : findCode B opt ∈ [OpCode.oDaemon, .oLpdDisable, .oFwdDisable, .oCmdDisableStdin,
        .oServiceInstall, .oServiceRemove, .oServiceStart]) :
    conf_handle_option B E opt (some v) st =
        .exit 1 (some (.NoArgumentExpected opt)) (st.emit (.conf_handle_option opt (some v))) ∧
    (st.emit (.conf_handle_option opt (some v))).gconf = st.gconf := by
  obtain ⟨e1, e2, e3, e4, e5, e6, _⟩ := findCode_enabled B opt
  refine ⟨?_, rfl⟩
  simp only [List.mem_cons, List.mem_nil_iff, or_false] at h
  unfold conf_handle_option
  rcases h with h | h | h | h | h | h | h <;> simp [h, e1, e2, e3, e4, e5, e6]

/-- The theorem at work: `--daemon x`. -/
theorem conf_handle_option_no_argument_expected_witness :
    findCode sample_build "--daemon" ∈ [OpCode.oDaemon, .oLpdDisable, .oFwdDisable,
        .oCmdDisableStdin, .oServiceInstall, .oServiceRemove, .oServiceStart] ∧
    conf_handle_option sample_build (env_answering 0 []) "--daemon" (some "x")
        (start_state []) =
      .exit 1 (some (.NoArgumentExpected "--daemon"))
        ((start_state []).emit (.conf_handle_option "--daemon" (some "x"))) :=
  ⟨by decide,
    (conf_handle_option_no_argument_expected sample_build (env_answering 0 []) "--daemon" "x"
      (start_state []) (by decide)).1⟩

theorem findCode_of_tls_entry (B : Build) (hTLS : B.TLS = true) :
    findCode B "--tls-client-entry" = .oTlsClientEntry ∧
    findCode B "--tls-server-entry" = .oTlsServerEntry := by
  unfold findCode options
  cases B.CMD <;> cases B.DNS <;> cases B.NSS <;> simp [findCodeIn, hTLS]

/-- Without a value, every option that needs one ends the process with
"Argument expected" before anything else is done, the two TLS options apart. -/
theorem conf_handle_option_argument_expected (B : Build) (E : Env) (opt : String) (st : St)
    (h : str_field (findCode B opt) ≠ none ∨
      findCode B opt ∈ [OpCode.oPeer, .oVerbosity, .oConfig, .oMode, .oValueId, .oBobAddSkey]) :
    conf_handle_option B E opt none st =
      .exit 1 (some (.ArgumentExpected opt)) (st.emit (.conf_handle_option opt none)) := by
  obtain ⟨_, _, _, _, _, _, _, e8, _⟩ := findCode_enabled B opt
  rcases h with h | h
  · obtain ⟨f, hf⟩ := Option.ne_none_iff_exists'.mp h
    obtain ⟨k1, k2, k3, k4, k5, k6⟩ := findCode_str_enabled B opt f hf
    generalize hc : findCode B opt = c at hf k1 k2 k3 k4 k5 k6
    obtain ⟨g, a, t, tr⟩ := st
    cases g
    cases c <;> simp [str_field] at hf <;> subst hf <;>
      (unfold conf_handle_option; simp only [hc]) <;>
      simp_all [conf_str, Res.map, St.set_gconf, St.emit]
  · simp only [List.mem_cons, List.mem_nil_iff, or_false] at h
    unfold conf_handle_option
    rcases h with h | h | h | h | h | h <;> simp [h, e8]

/-- Claim C17 fails on the code for the two TLS options, which lack the test
`val == NULL` that every other option with a value has.  Called with no
value, `--tls-server-entry` hands the null pointer to `sscanf`, which has no
defined behaviour, and `--tls-client-entry` calls the collaborator
`tls_add_ca_entry` with the null pointer and goes on when that returns 0.
The command line `kadnode --tls-server-entry --daemon` gets there.  For every
other option that needs a value the claim holds: the call ends the process
with "Argument expected", and the state changes by the trace entry of the
call only. -/
theorem conf_handle_option_tls_entry_without_value (B : Build) (E : Env) (st : St) :
    (B.TLS = true →
      conf_handle_option B E "--tls-server-entry" none st =
        .undefined (st.emit (.conf_handle_option "--tls-server-entry" none))) ∧
    (B.TLS = true →
      (conf_handle_option B E "--tls-client-entry" none st).state.trace =
        st.trace ++ [.conf_handle_option "--tls-client-entry" none, .tls_add_ca_entry none] ∧
      (E.tls_add_ca_entry (st.trace ++ [.conf_handle_option "--tls-client-entry" none]) none = 0 →
        ∃ s, conf_handle_option B E "--tls-client-entry" none st = .ok s)) ∧
    (∀ fuel, conf_load_args sample_build (env_answering 0 []) (fuel + 1)
        (conf_init sample_build) ["kadnode", "--tls-server-entry", "--daemon"] =
      some (.undefined ((start_state ["kadnode", "--tls-server-entry", "--daemon"]).emit
        (.conf_handle_option "--tls-server-entry" none)))) ∧
    (∀ opt, (str_field (findCode B opt) ≠ none ∨
        findCode B opt ∈ [OpCode.oPeer, .oVerbosity, .oConfig, .oMode, .oValueId,
          .oBobAddSkey]) →
      conf_handle_option B E opt none st =
        .exit 1 (some (.ArgumentExpected opt)) (st.emit (.conf_handle_option opt none))) := by
  refine ⟨?_, ?_, ?_, fun opt h => conf_handle_option_argument_expected B E opt st h⟩
  · intro hTLS
    unfold conf_handle_option
    simp only [(findCode_of_tls_entry B hTLS).2, hTLS, if_true]
  · intro hTLS
    unfold conf_handle_option
    simp only [(findCode_of_tls_entry B hTLS).1, hTLS, if_true]
    constructor
    · split <;> simp [St.emit]
    · intro h0
      simp [St.emit, h0]
  · intro fuel
    have ht : conf_load_args_turn sample_build (env_answering 0 []) 1
        (initial_state (conf_init sample_build) ["kadnode", "--tls-server-entry", "--daemon"]) =
        .stop (.undefined ((start_state ["kadnode", "--tls-server-entry", "--daemon"]).emit
          (.conf_handle_option "--tls-server-entry" none))) := by
      rfl
    simp only [conf_load_args, conf_load_args_loop, ht, Res.andThen]

theorem usage_options_in_table (B : Build) (name : String) (hmem : name ∈ usage_options B)
    (hne : name ≠ "--bob-gen-pair") : name ∈ (options B).map Prod.fst := by
  simp only [usage_options, List.mem_append, List.mem_ite_nil_right] at hmem
  simp only [options, List.map_append, List.map_cons, List.map_nil, apply_ite (List.map Prod.fst),
    List.mem_append, List.mem_ite_nil_right]
  rcases hmem with ((((((((((h | h) | h) | h) | h) | h) | h) | h) | h) | h) | h)
  · have h1 := (by decide : ∀ n ∈ ["--value-id", "--peerfile", "--peer", "--user", "--port",
        "--addr", "--config", "--ifname", "--daemon", "--verbosity", "--pidfile", "--mode",
        "--query-tld"],
        n ∈ ["--query-tld", "--pidfile", "--peerfile", "--peer", "--verbosity"] ∨
        n ∈ ["--config", "--mode", "--port", "--addr"] ∨
        n ∈ ["--value-id", "--ifname", "--user", "--daemon", "-h", "--help", "-v",
          "--version"]) name h
    rcases h1 with h1 | h1 | h1 <;> simp only [h1, true_or, or_true]
  · simp only [h, and_self, true_or, or_true]
  · have h1 : name ∈ ["--bob-gen-keys", "--bob-add-skey"] := by
      have h2 := h.2
      simp only [List.mem_cons, List.mem_nil_iff, or_false] at h2 ⊢
      rcases h2 with h2 | h2
      · exact absurd h2 hne
      · exact Or.inr h2
    simp only [h.1, h1, and_self, true_or, or_true]
  · simp only [h, and_self, true_or, or_true]
  · simp only [h, and_self, true_or, or_true]
  · simp only [h, and_self, true_or, or_true]
  · simp only [h, and_self, true_or, or_true]
  · simp only [h, and_self, true_or, or_true]
  · simp only [h, and_self, true_or, or_true]
  · have h1 := (by decide : ∀ n ∈ ["--service-start", "--service-install", "--service-remove"],
        n ∈ ["--service-install", "--service-remove", "--service-start"]) name h.2
    simp only [h.1, h1, and_self, true_or, or_true]
  · have h1 := (by decide : ∀ n ∈ ["-h", "--help", "-v", "--version"],
        n ∈ ["--value-id", "--ifname", "--user", "--daemon", "-h", "--help", "-v",
          "--version"]) name h
    simp only [h1, true_or, or_true]

theorem findCodeIn_append_of_not_mem (name : String) (a b : List (String × OpCode))
    (h : ∀ e ∈ a, name ≠ e.1) : findCodeIn name (a ++ b) = findCodeIn name b := by
  induction a with
  | nil => rfl
  | cons e es ih =>
    rw [List.cons_append, findCodeIn]
    rw [if_neg (h e (by simp))]
    exact ih (fun x hx => h x (by simp [hx]))

theorem findCodeIn_ne_unknown (name : String) (tbl : List (String × OpCode))
    (hcodes : ∀ e ∈ tbl, e.2 ≠ .oUnknown) (hmem : name ∈ tbl.map Prod.fst) :
    findCodeIn name tbl ≠ .oUnknown := by
  induction tbl with
  | nil => simp at hmem
  | cons e es ih =>
    rw [findCodeIn]
    by_cases he : name = e.1
    · rw [if_pos he]; exact hcodes e (by simp)
    · rw [if_neg he]
      refine ih (fun x hx => hcodes x (by simp [hx])) ?_
      simp only [List.map_cons, List.mem_cons] at hmem
      rcases hmem with h | h
      · exact absurd h he
      · exact h

theorem options_codes (B : Build) : ∀ e ∈ options B, e.2 ≠ .oUnknown := by
  intro e he
  simp only [options, List.mem_append, List.mem_ite_nil_right, List.mem_cons,
    List.mem_nil_iff, or_false] at he
  casesm* _ ∨ _, _ ∧ _
  all_goals subst e
  all_goals simp

/-- Claim C18 fails on the code: with the BOB feature compiled in, the usage
text documents `--bob-gen-pair`, but the table `options[]` has the name
`--bob-gen-keys` for the key-generation code, so `findCode` gives `oUnknown`
for the documented name and `conf_handle_option` ends the process with
"Unkown option".  Every other documented name is found. -/
theorem findCode_bob_gen_pair_unknown (B : Build) (E : Env) (val : Option String) (st : St) :
    (B.BOB = true → "--bob-gen-pair" ∈ usage_options B) ∧
    findCode B "--bob-gen-pair" = .oUnknown ∧
    conf_handle_option B E "--bob-gen-pair" val st =
      .exit 1 (some (.UnknownOption "--bob-gen-pair"))
        (st.emit (.conf_handle_option "--bob-gen-pair" val)) ∧
    (∀ name ∈ usage_options B, name ≠ "--bob-gen-pair" → findCode B name ≠ .oUnknown) := by
  have hu : findCode B "--bob-gen-pair" = .oUnknown := by
    unfold findCode options
    simp only [List.append_assoc]
    repeat (first
      | rw [findCodeIn_append_of_not_mem _ _ _ (by decide)]
      | rw [findCodeIn_append_of_not_mem _ _ _
          (by intro e he; split at he <;> revert e <;> decide)])
    decide
  refine ⟨?_, hu, ?_, ?_⟩
  · intro hB
    simp [usage_options, hB]
  · unfold conf_handle_option
    simp only [hu, unknown_option]
  · intro name hmem hne
    exact findCodeIn_ne_unknown name (options B) (options_codes B)
      (usage_options_in_table B name hmem hne)

/-! ## At most one configuration file -/

theorem loads_append (a b : List Event) : loads (a ++ b) = loads a ++ loads b := by
  induction a with
  | nil => rfl
  | cons e es ih => cases e <;> simp [loads, ih]

theorem conf_apply_value_loads (B : Build) (E : Env) (val : String) (st : St) :
    loads (conf_apply_value B E val st).state.trace = loads st.trace := by
  unfold conf_apply_value
  simp only []
  split <;> [skip; split] <;> simp [loads_append, loads]

theorem conf_handle_option_loads (B : Build) (E : Env) (opt : String) (val : Option String)
    (st : St) (hcfg : findCode B opt ≠ .oConfig) :
    loads (conf_handle_option B E opt val st).state.trace = loads st.trace := by
  unfold conf_handle_option
  simp only []
  split
  all_goals first
    | (exfalso; apply hcfg; assumption)
    | (simp [unknown_option, conf_apply_value_loads, loads_append, loads]; done)
    | ((repeat' split) <;>
        simp [unknown_option, conf_apply_value_loads, loads_append, loads])

theorem conf_load_file_line_exits (n : Nat) (buf : List Char) (st : St) :
    (∃ s, conf_load_file_line n buf st = .ok s) ∨
    (∃ s, conf_load_file_line n buf st = .exit 1 (some (.TooManyArguments n)) s) ∨
    (∃ s, conf_load_file_line n buf st = .exit 1 (some (.NestedConfig n)) s) := by
  unfold conf_load_file_line
  split
  · exact Or.inr (Or.inl ⟨_, rfl⟩)
  · exact Or.inl ⟨_, rfl⟩
  · split
    · exact Or.inr (Or.inr ⟨_, rfl⟩)
    · exact Or.inl ⟨_, rfl⟩

theorem conf_load_file_loop_exits (bufs : List (List Char)) :
    ∀ (n : Nat) (st : St),
      (∃ s, conf_load_file_loop bufs n st = .ok s) ∨
      (∃ k s, conf_load_file_loop bufs n st = .exit 1 (some (.TooManyArguments k)) s) ∨
      (∃ k s, conf_load_file_loop bufs n st = .exit 1 (some (.NestedConfig k)) s) := by
  induction bufs with
  | nil => intro n st; exact Or.inl ⟨st, rfl⟩
  | cons buf rest ih =>
    intro n st
    rw [conf_load_file_loop]
    rcases conf_load_file_line_exits (n + 1) buf st with ⟨s, h⟩ | ⟨s, h⟩ | ⟨s, h⟩
    · rw [h]; exact ih (n + 1) s
    · rw [h]; exact Or.inr (Or.inl ⟨_, _, rfl⟩)
    · rw [h]; exact Or.inr (Or.inr ⟨_, _, rfl⟩)

/-- How `conf_load_file` ends: it returns, or it ends the process with one of
its four messages. -/
theorem conf_load_file_exits (E : Env) (filename : String) (st : St) :
    (∃ s, conf_load_file E filename st = .ok s) ∨
    (∃ m s, conf_load_file E filename st = .exit 1 (some m) s ∧
      (m = .FileExpected filename ∨ m = .CannotOpen filename ∨
        (∃ k, m = .TooManyArguments k) ∨ (∃ k, m = .NestedConfig k))) := by
  unfold conf_load_file
  simp only []
  split
  · exact Or.inr ⟨_, _, rfl, Or.inl rfl⟩
  · split
    · exact Or.inr ⟨_, _, rfl, Or.inr (Or.inl rfl)⟩
    · rcases conf_load_file_loop_exits _ 0 (st.emit (.conf_load_file filename)) with
        ⟨s, h⟩ | ⟨k, s, h⟩ | ⟨k, s, h⟩
      · exact Or.inl ⟨s, h⟩
      · exact Or.inr ⟨_, s, h, Or.inr (Or.inr (Or.inl ⟨k, rfl⟩))⟩
      · exact Or.inr ⟨_, s, h, Or.inr (Or.inr (Or.inr ⟨k, rfl⟩))⟩


theorem conf_handle_option_config_loads (B : Build) (E : Env) (opt : String)
    (val : Option String) (st : St) (hcfg : findCode B opt = .oConfig) :
    loads (conf_handle_option B E opt val st).state.trace = loads st.trace ++ val.toList := by
  cases val with
  | none =>
    rw [conf_handle_option_config_none B E opt st hcfg]
    simp [loads_append, loads]
  | some v =>
    rw [conf_handle_option_config_some B E opt v st hcfg]
    have h2 := (conf_load_file_frame E v (st.emit (.conf_handle_option opt (some v)))).2.1
    cases hl : conf_load_file E v (st.emit (.conf_handle_option opt (some v))) with
    | ok s =>
      rw [hl] at h2
      simp only [Res.state_ok, St.emit_trace] at h2
      simp only [Res.andThen, Res.state_map, St.set_gconf_trace, h2]
      simp [loads_append, loads]
    | exit c m s =>
      rw [hl] at h2
      simp only [Res.state_exit, St.emit_trace] at h2
      simp only [Res.andThen, Res.state_exit, h2]
      simp [loads_append, loads]
    | undefined s =>
      rw [hl] at h2
      simp only [Res.state_undefined, St.emit_trace] at h2
      simp only [Res.andThen, Res.state_undefined, h2]
      simp [loads_append, loads]

/-- A call of `--config` with a value on a state whose `configfile` is set
reads the file and ends the process: with the message of `conf_load_file` when
the file is refused, and with "Option was already set" when it was read. -/
theorem conf_handle_option_config_again (B : Build) (E : Env) (opt v : String) (st : St)
    (hcfg : findCode B opt = .oConfig) (hset : st.gconf.configfile ≠ none) :
    (∃ m s, conf_handle_option B E opt (some v) st = .exit 1 (some m) s ∧
      (m = .DuplicateOption opt ∨ m = .FileExpected v ∨ m = .CannotOpen v ∨
        (∃ k, m = .TooManyArguments k) ∨ (∃ k, m = .NestedConfig k))) ∧
    ((∃ s, conf_load_file E v (st.emit (.conf_handle_option opt (some v))) = .ok s) →
      ∃ s, conf_handle_option B E opt (some v) st = .exit 1 (some (.DuplicateOption opt)) s) := by
  rw [conf_handle_option_config_some B E opt v st hcfg]
  have h1 := (conf_load_file_frame E v (st.emit (.conf_handle_option opt (some v)))).1
  rcases conf_load_file_exits E v (st.emit (.conf_handle_option opt (some v))) with
    ⟨s, h⟩ | ⟨m, s, h, hm⟩
  · rw [h] at h1 ⊢
    simp only [Res.state_ok, St.emit_gconf] at h1
    obtain ⟨d, hd⟩ := Option.ne_none_iff_exists'.mp hset
    have hs : s.gconf.configfile = some d := by rw [h1, hd]
    simp only [Res.andThen, hs, conf_str, Res.map]
    exact ⟨⟨_, _, rfl, Or.inl rfl⟩, fun _ => ⟨_, rfl⟩⟩
  · rw [h]
    simp only [Res.andThen]
    refine ⟨⟨m, s, rfl, Or.inr hm⟩, ?_⟩
    rintro ⟨s1, h1⟩
    cases h1

theorem config_opt (B : Build) (opt : String) :
    findCode B opt = .oConfig ↔ opt = "--config" :=
  ⟨findCode_config B opt, fun h => by rw [h]; exact findCode_of_config B⟩

theorem config_once_ok (B : Build) (E : Env) (opt : String) (val : Option String)
    (st st1 : St) (hP : config_once st) (hr : conf_handle_option B E opt val st = .ok st1) :
    config_once st1 := by
  obtain ⟨p1, p2, p3, p4⟩ := hP
  have hd := conf_handle_option_dispatches B E opt val st
  rw [hr] at hd
  simp only [Res.state_ok] at hd
  by_cases hcfg : findCode B opt = .oConfig
  · obtain ⟨k1, k2, k3⟩ := (conf_handle_option_config_frame B E opt val st hcfg).2.2.1 st1 hr
    have hl := conf_handle_option_config_loads B E opt val st hcfg
    rw [hr] at hl
    simp only [Res.state_ok] at hl
    have hempty : loads st.trace = [] := by
      by_contra hne
      exact p2 hne k1
    have hset : st1.gconf.configfile ≠ none := by rw [k2]; exact k3
    refine ⟨?_, fun _ => hset, fun _ _ => hset, ?_⟩
    · rw [hl, hempty]
      cases val <;> simp
    · intro pre v1 mid v2 post hdec
      rw [hd] at hdec
      rcases append_singleton_eq_two _ _ _ _ _ _ _ hdec with ⟨_, hD, _⟩ | ⟨post1, _, hD⟩
      · exact p3 v1 (by rw [hD]; simp) k1
      · exact p4 pre v1 mid v2 post1 hD
  · obtain ⟨_, _, k3⟩ := conf_handle_option_stream B E opt val st hcfg
    have hl := conf_handle_option_loads B E opt val st hcfg
    rw [hr] at hl k3
    simp only [Res.state_ok] at hl k3
    have hopt : opt ≠ "--config" := fun h => hcfg ((config_opt B opt).mpr h)
    refine ⟨by rw [hl]; exact p1, fun h => by rw [k3]; exact p2 (by rw [← hl]; exact h), ?_, ?_⟩
    · intro v hmem
      rw [hd, List.mem_append] at hmem
      rcases hmem with hmem | hmem
      · rw [k3]; exact p3 v hmem
      · simp only [List.mem_singleton, Prod.mk.injEq] at hmem
        exact absurd hmem.1.symm hopt
    · intro pre v1 mid v2 post hdec
      rw [hd] at hdec
      rcases append_singleton_eq_two _ _ _ _ _ _ _ hdec with ⟨_, _, hx⟩ | ⟨post1, _, hD⟩
      · injection hx with ho _
        exact hopt ho
      · exact p4 pre v1 mid v2 post1 hD


theorem config_twice_ends_idle (E : Env) (st : St) (hP : config_once st) :
    config_twice_ends E (.ok st) ∧ config_twice_ends E (.undefined st) := by
  obtain ⟨p1, _, _, p4⟩ := hP
  constructor
  · exact ⟨fun _ => p1, fun v1 v2 pre mid post h => absurd h (p4 pre v1 mid v2 post)⟩
  · exact ⟨fun ⟨s, h⟩ => (by cases h),
      fun v1 v2 pre mid post h => absurd h (p4 pre v1 mid v2 post)⟩

theorem config_twice_ends_of_call (B : Build) (E : Env) (opt : String) (val : Option String)
    (st : St) (hP : config_once st) (hr : ∀ s, conf_handle_option B E opt val st ≠ .ok s) :
    config_twice_ends E (conf_handle_option B E opt val st) := by
  obtain ⟨_, _, p3, p4⟩ := hP
  refine ⟨fun ⟨s, h⟩ => absurd h (hr s), ?_⟩
  intro v1 v2 pre mid post hdec
  rw [conf_handle_option_dispatches] at hdec
  rcases append_singleton_eq_two _ _ _ _ _ _ _ hdec with ⟨hpost, hD, hx⟩ | ⟨post1, _, hD⟩
  · injection hx with ho hv
    subst ho; subst hv
    have hset : st.gconf.configfile ≠ none := p3 v1 (by rw [hD]; simp)
    obtain ⟨⟨m, s, k1, k2⟩, k3⟩ :=
      conf_handle_option_config_again B E "--config" v2 st (findCode_of_config B) hset
    refine ⟨hpost, ⟨m, by rw [k1]; rfl, k2⟩, ?_⟩
    intro content hmode hopen hwf
    obtain ⟨s1, h1, _⟩ := conf_load_file_well_formed E v2 content
      (st.emit (.conf_handle_option "--config" (some v2))) hmode hopen hwf
    obtain ⟨s2, h2⟩ := k3 ⟨s1, h1⟩
    rw [h2]; rfl
  · exact absurd hD (p4 pre v1 mid v2 post1)

theorem conf_load_args_loop_config_once (B : Build) (E : Env) :
    ∀ (fuel i : Nat) (st : St) (r : Res St),
      config_once st → conf_load_args_loop B E fuel i st = some r → config_twice_ends E r := by
  apply conf_load_args_loop_rule_calls B E config_once (config_twice_ends E)
  · exact config_twice_ends_idle E
  · exact config_once_ok B E
  · intro opt val st c m s hP hr
    have := config_twice_ends_of_call B E opt val st hP (by rw [hr]; intro s1 h; cases h)
    rw [hr] at this; exact this
  · intro opt val st s hP hr
    have := config_twice_ends_of_call B E opt val st hP (by rw [hr]; intro s1 h; cases h)
    rw [hr] at this; exact this

/-- Claim C20: every run of `conf_load_args` comes to an end; a run that ends
without a fatal error has called `conf_load_file` at most once; and when the
calls of `conf_handle_option` hand `--config` over twice with a value,
wherever the two come from (the command line, or a line of a file with
`--config` as its second token), the run ended in the second of them
(`post = []`) with a fatal error, which is "Option was already set" for
`--config` once the second file was read, and the message of `conf_load_file`
when the second file is refused.  So no run that returns has loaded two
files. -/
theorem conf_load_args_loads_once (B : Build) (E : Env) (g : gconf_t) (argv : List String) :
    (∃ fuel r, ∀ fuel1, fuel ≤ fuel1 → conf_load_args B E fuel1 g argv = some r) ∧
    ∀ fuel r, conf_load_args B E fuel g argv = some r →
      ((∃ s, r = .ok s) → (loads r.state.trace).length ≤ 1) ∧
      ∀ (v1 v2 : String) (pre mid post : List (String × Option String)),
        dispatches r.state.trace =
          pre ++ ("--config", some v1) :: (mid ++ ("--config", some v2) :: post) →
        post = [] ∧
        (∃ m, r = .exit 1 (some m) r.state ∧
          (m = .DuplicateOption "--config" ∨ m = .FileExpected v2 ∨ m = .CannotOpen v2 ∨
            (∃ k, m = .TooManyArguments k) ∨ (∃ k, m = .NestedConfig k))) ∧
        (∀ content, not_regular (E.fs v2) = false → (E.fs v2).content = some content →
          well_formed content → r = .exit 1 (some (.DuplicateOption "--config")) r.state) := by
  refine ⟨conf_load_args_total B E g argv, ?_⟩
  intro fuel r hr
  obtain ⟨r0, h0, ht, _, hsame⟩ := conf_load_args_eq B E fuel g argv r hr
  have hstart : config_once (initial_state g argv) := by
    refine ⟨by simp [initial_state, loads], fun h => by simp [initial_state, loads] at h,
      fun v h => by simp [initial_state, dispatches] at h,
      fun pre v1 mid v2 post h => by simp [initial_state, dispatches] at h⟩
  obtain ⟨q1, q2⟩ := conf_load_args_loop_config_once B E fuel 1 (initial_state g argv) r0
    hstart h0
  constructor
  · intro hex
    rw [ht]
    by_cases hok : ∃ s, r0 = .ok s
    · exact q1 hok
    · have := hsame (fun s h => hok ⟨s, h⟩)
      subst this
      exact absurd hex hok
  · intro v1 v2 pre mid post hdec
    rw [ht] at hdec
    obtain ⟨k1, ⟨m, k2, k2m⟩, k3⟩ := q2 v1 v2 pre mid post hdec
    have hne : ∀ s, r0 ≠ .ok s := by
      intro s h
      rw [h] at k2
      cases k2
    have := hsame hne
    subst this
    exact ⟨k1, ⟨m, k2, k2m⟩, k3⟩

/-- The run of `kadnode --config f --config f`: the second call reads the
file again and ends the process. -/
theorem conf_load_args_config_twice_run :
    (conf_load_args sample_build (env_answering 0 [("f", sample_file)]) 8
        (conf_init sample_build) ["kadnode", "--config", "f", "--config", "f"]).map
      (fun r => (dispatches r.state.trace, loads r.state.trace, r.map (fun s => s.gconf.configfile))) =
    some ([("--config", some "f"), ("--config", some "f")], ["f", "f"],
      .exit 1 (some (.DuplicateOption "--config")) (some "f")) := by
  decide

/-- The run of `kadnode --config g` on a file with `--config` as the second
token of a line: the file named on the next line is read, and then the
process is ended. -/
theorem conf_load_args_config_from_file_run :
    well_formed second_token_file ∧
    (conf_load_args sample_build
        (env_answering 0 [("f", sample_file), ("g", second_token_file)]) 8
        (conf_init sample_build) ["kadnode", "--config", "g"]).map
      (fun r => (dispatches r.state.trace, loads r.state.trace,
        r.map (fun s => s.gconf.configfile))) =
    some ([("--config", some "g"), ("--daemon", none), ("--config", some "f")], ["g", "f"],
      .exit 1 (some (.DuplicateOption "--config")) (some "g")) := by
  refine ⟨by unfold well_formed; decide, by decide⟩


/-! ## The lines of the file and the calls -/

theorem drop_eq_cons_of_getElem {α : Type} (l : List α) (i : Nat) (x : α) (h : l[i]? = some x) :
    l.drop i = x :: l.drop (i + 1) := by
  rw [List.drop_eq_getElem?_toList_append, h]; rfl

theorem cell_pairs_null (V : List (Option String)) (i : Nat) (h : V[i]? = some none) :
    cell_pairs (V.drop i) = cell_pairs (V.drop (i + 1)) := by
  rw [drop_eq_cons_of_getElem V i none h, cell_pairs]

theorem cell_pairs_valued (V : List (Option String)) (i : Nat) (opt v : String)
    (ho : V[i]? = some (some opt)) (hv : V[i + 1]? = some (some v))
    (hval : is_value (some v) = true) :
    cell_pairs (V.drop i) = (opt, some v) :: cell_pairs (V.drop (i + 2)) := by
  rw [drop_eq_cons_of_getElem V i _ ho, drop_eq_cons_of_getElem V (i + 1) _ hv, cell_pairs]
  simp [hval]

theorem cell_pairs_valueless (V : List (Option String)) (i : Nat) (opt : String)
    (ho : V[i]? = some (some opt))
    (hv : V[i + 1]? = none ∨ ∃ val, V[i + 1]? = some val ∧ is_value val = false) :
    cell_pairs (V.drop i) = (opt, none) :: cell_pairs (V.drop (i + 1)) := by
  rw [drop_eq_cons_of_getElem V i _ ho]
  rcases hv with hv | ⟨val, hv, hval⟩
  · have : V.drop (i + 1) = [] := by
      apply List.drop_eq_nil_of_le
      exact List.getElem?_eq_none_iff.mp hv
    rw [this]
    simp [cell_pairs]
  · rw [drop_eq_cons_of_getElem V (i + 1) _ hv, cell_pairs]
    simp [hval]


theorem cell_pairs_command_line (ents : List (Option String))
    (h : ents = [] ∨ ∃ o tl, ents = some o :: tl ∧ begins_with_dash o = true) :
    ∀ (n : Nat) (cmd : List String), cmd.length ≤ n →
      cell_pairs (cmd.map some ++ ents) = spec_pairs cmd ++ cell_pairs ents := by
  intro n
  induction n with
  | zero =>
    intro cmd hn
    have : cmd = [] := List.length_eq_zero.mp (by omega)
    subst this
    simp [spec_pairs]
  | succ n ih =>
    intro cmd hn
    rcases cmd with _ | ⟨opt, _ | ⟨next, rest⟩⟩
    · simp [spec_pairs]
    · rcases h with rfl | ⟨o, tl, rfl, hd⟩
      · simp [spec_pairs, cell_pairs]
      · have hv : is_value (some o) = false := by rw [is_value_some_eq, hd]; rfl
        simp [spec_pairs, cell_pairs, hv]
    · have h1 := ih rest (by simp at hn; omega)
      have h2 := ih (next :: rest) (by simp at hn ⊢; omega)
      simp only [List.map_cons, List.cons_append] at h2 ⊢
      rw [cell_pairs, spec_pairs, is_value_some_eq]
      by_cases hd : begins_with_dash next = true
      · simp [hd, h2]
      · have hd1 : begins_with_dash next = false := by simpa using hd
        simp [hd1, h1]

theorem line_entries_pair (buf : List Char) :
    (line_entries buf = [] ∧ line_pair buf = none) ∨
    (∃ o, line_entries buf = [some o, none] ∧ line_pair buf = some (o, none)) ∨
    (∃ o v, line_entries buf = [some o, some v] ∧ line_pair buf = some (o, some v)) := by
  unfold line_entries line_pair
  rcases line_tokens buf with _ | ⟨a, _ | ⟨b, _ | ⟨c, r⟩⟩⟩
  · exact Or.inl ⟨rfl, rfl⟩
  · exact Or.inr (Or.inl ⟨a, rfl, rfl⟩)
  · exact Or.inr (Or.inr ⟨a, b, rfl, rfl⟩)
  · exact Or.inl ⟨rfl, rfl⟩

theorem cell_pairs_entries (bufs : List (List Char))
    (h : ∀ buf ∈ bufs, leads_with_option buf = true) :
    cell_pairs (bufs.map line_entries).flatten = bufs.filterMap line_pair ∧
    ((bufs.map line_entries).flatten = [] ∨
      ∃ o tl, (bufs.map line_entries).flatten = some o :: tl ∧ begins_with_dash o = true) := by
  induction bufs with
  | nil => exact ⟨rfl, Or.inl rfl⟩
  | cons buf rest ih =>
    obtain ⟨ih1, ih2⟩ := ih (fun b hb => h b (by simp [hb]))
    have hb := h buf (by simp)
    simp only [List.map_cons, List.flatten_cons]
    rcases line_entries_pair buf with ⟨e1, e2⟩ | ⟨o, e1, e2⟩ | ⟨o, v, e1, e2⟩
    · rw [e1, List.filterMap_cons, e2]
      exact ⟨ih1, ih2⟩
    · rw [e1, List.filterMap_cons, e2]
      unfold leads_with_option at hb
      rw [e2] at hb
      refine ⟨?_, Or.inr ⟨o, _, rfl, hb⟩⟩
      simp [cell_pairs, is_value, ih1]
    · rw [e1, List.filterMap_cons, e2]
      unfold leads_with_option at hb
      rw [e2] at hb
      simp only [Bool.and_eq_true, Bool.not_eq_true'] at hb
      refine ⟨?_, Or.inr ⟨o, _, rfl, hb.1⟩⟩
      have hv : is_value (some v) = true := by
        rw [is_value_some_eq, hb.2]; rfl
      simp [cell_pairs, hv, ih1]

theorem cell_pairs_file (cmd : List String) (content : List Char)
    (hlead : options_lead content) :
    cell_pairs (cmd.map some ++ file_entries content) =
      spec_pairs cmd ++ file_pairs content := by
  obtain ⟨h1, h2⟩ := cell_pairs_entries (fgets_all 512 content) hlead
  unfold file_entries file_pairs
  rw [cell_pairs_command_line _ h2 cmd.length cmd (le_refl _), h1]


theorem read_in_longer (st : St) (V : List (Option String)) (i : Nat) (val : Option String)
    (hV : st.g_argv = V ∨ (∃ ext, V = st.g_argv ++ ext) ∧ i + 1 < st.g_argv.length)
    (hr : st.read (i + 1) = some val) (hval : is_value val = false) :
    V[i + 1]? = none ∨ ∃ val1, V[i + 1]? = some val1 ∧ is_value val1 = false := by
  unfold St.read at hr
  cases hc : st.g_argv[i + 1]? with
  | some cell =>
    rw [hc] at hr
    simp only [Option.some.injEq] at hr
    subst hr
    right
    refine ⟨cell, ?_, hval⟩
    rcases hV with h | ⟨⟨ext, h⟩, _⟩
    · rw [← h]; exact hc
    · rw [h, List.getElem?_append_left (List.getElem?_eq_some.mp hc).1]; exact hc
  | none =>
    left
    rcases hV with h | ⟨_, hlt⟩
    · rw [← h]; exact hc
    · exact absurd (List.getElem?_eq_none_iff.mp hc) (by omega)

/-- With `--config f` on the command line and no `--config` before it, the
calls of `conf_handle_option` are the pairs that the rule of the loop makes of
the command line followed by the entries of the file: all of them when the
loop runs to its end, a first part of them otherwise. -/
theorem conf_load_args_loop_cell_pairs (B : Build) (E : Env) (g : gconf_t)
    (name : String) (pre : List String) (f : String) (post : List String)
    (content : List Char) (hpre : "--config" ∉ pre)
    (hmode : not_regular (E.fs f) = false)
    (hopen : (E.fs f).content = some content) (hwf : well_formed content) :
    ∀ (fuel : Nat) (r : Res St),
      conf_load_args_loop B E fuel 1
        (initial_state g (name :: (pre ++ "--config" :: f :: post))) = some r →
      dispatches r.state.trace <+:
        cell_pairs ((pre ++ "--config" :: f :: post).map some ++ file_entries content) ∧
      ((∃ s, r = .ok s) → dispatches r.state.trace =
        cell_pairs ((pre ++ "--config" :: f :: post).map some ++ file_entries content)) := by
  intro fuel r
  generalize hA : (name :: (pre ++ "--config" :: f :: post)).map some = A
  generalize hV : A ++ file_entries content = V
  have hT : (pre ++ "--config" :: f :: post).map some ++ file_entries content = V.drop 1 := by
    rw [← hV, ← hA]; rfl
  rw [hT]
  have hlen : A.length = pre.length + post.length + 3 := by
    rw [← hA]; simp; omega
  have hk : A[pre.length + 1]? = some (some "--config") := by
    rw [← hA]
    simp only [List.map_cons, List.getElem?_cons_succ, List.map_append]
    rw [List.getElem?_append_right (by simp)]
    simp
  have hk1 : A[pre.length + 1 + 1]? = some (some f) := by
    rw [← hA]
    simp only [List.map_cons, List.getElem?_cons_succ, List.map_append]
    rw [List.getElem?_append_right (by simp)]
    simp
  have hlow : ∀ (j : Nat) (s : String), 1 ≤ j → j < pre.length + 1 → A[j]? = some (some s) → s ≠ "--config" := by
    intro j s h1 h2 hj
    obtain ⟨j0, rfl⟩ : ∃ j0, j = j0 + 1 := ⟨j - 1, by omega⟩
    rw [← hA] at hj
    simp only [List.map_cons, List.getElem?_cons_succ, List.map_append] at hj
    rw [List.getElem?_append_left (by simp; omega), List.getElem?_map] at hj
    cases hp : pre[j0]? with
    | none => rw [hp] at hj; simp at hj
    | some t =>
      rw [hp] at hj
      simp only [Option.map_some', Option.some.injEq] at hj
      subst hj
      intro e
      exact hpre (e ▸ List.getElem?_mem hp)
  have hsome : ∀ (j : Nat), A[j]? ≠ some none := by
    intro j hj
    rw [← hA, List.getElem?_map] at hj
    cases hp : (name :: (pre ++ "--config" :: f :: post))[j]? with
    | none => rw [hp] at hj; simp at hj
    | some t => rw [hp] at hj; simp at hj
  have hAV : ∀ (j : Nat) (c : Option String), A[j]? = some c → V[j]? = some c := by
    intro j c hj
    rw [← hV, List.getElem?_append_left (List.getElem?_eq_some.mp hj).1]; exact hj
  have hinit : (initial_state g (name :: (pre ++ "--config" :: f :: post))).g_argv = A := by
    rw [← hA]; rfl
  have hcall : ∀ (opt : String) (val : Option String) (st : St) (i i1 : Nat), 1 ≤ i →
      (st.g_argv = A ∧ i ≤ pre.length + 1 ∨ st.g_argv = V ∧ st.gconf.configfile ≠ none) →
      dispatches st.trace ++ cell_pairs (V.drop i) = cell_pairs (V.drop 1) →
      st.g_argv[i]? = some (some opt) →
      cell_pairs (V.drop i) = (opt, val) :: cell_pairs (V.drop i1) →
      (∀ v, val = some v → st.g_argv[i + 1]? = some (some v)) →
      (i < pre.length + 1 → i1 ≤ pre.length + 1) →
      dispatches (conf_handle_option B E opt val st).state.trace ++ cell_pairs (V.drop i1) =
        cell_pairs (V.drop 1) ∧
      ∀ s, conf_handle_option B E opt val st = .ok s →
        (s.g_argv = A ∧ i1 ≤ pre.length + 1 ∨ s.g_argv = V ∧ s.gconf.configfile ≠ none) := by
    intro opt val st i i1 h1i hph hD ho hcp hval hi1
    constructor
    · rw [conf_handle_option_dispatches, List.append_assoc, List.singleton_append, ← hcp, hD]
    · intro s hs
      by_cases hcfg : findCode B opt = .oConfig
      · have hopt := findCode_config B opt hcfg
        subst hopt
        obtain ⟨k1, k2, k3⟩ := (conf_handle_option_config_frame B E "--config" val st hcfg).2.2.1 s hs
        rcases hph with ⟨hg, hle⟩ | ⟨_, hset⟩
        · right
          have hik : i = pre.length + 1 := by
            by_contra hne
            rw [hg] at ho
            exact hlow i "--config" h1i (by omega) ho rfl
          obtain ⟨v, hv⟩ := Option.ne_none_iff_exists'.mp k3
          subst hv
          have hvf := hval v rfl
          rw [hg, hik, hk1] at hvf
          simp only [Option.some.injEq] at hvf
          subst hvf
          have hload := conf_handle_option_config_loaded B E f content st hmode hopen hwf
          rw [hs] at hload
          simp only [Res.state_ok] at hload
          refine ⟨by rw [hload, hg, hV], by rw [k2]; simp⟩
        · exact absurd k1 hset
      · obtain ⟨k1, _, k3⟩ := conf_handle_option_stream B E opt val st hcfg
        rw [hs] at k1 k3
        simp only [Res.state_ok] at k1 k3
        rcases hph with ⟨hg, hle⟩ | ⟨hg, hset⟩
        · left
          refine ⟨by rw [k1, hg], hi1 ?_⟩
          by_contra hne
          have hik : i = pre.length + 1 := by omega
          rw [hg, hik, hk] at ho
          simp only [Option.some.injEq] at ho
          exact hcfg (by rw [← ho]; exact findCode_of_config B)
        · right
          exact ⟨by rw [k1, hg], by rw [k3]; exact hset⟩
  have hcells : ∀ (st : St) (i : Nat),
      (st.g_argv = A ∧ i ≤ pre.length + 1 ∨ st.g_argv = V ∧ st.gconf.configfile ≠ none) →
      (∀ (j : Nat) (c : Option String), st.g_argv[j]? = some c → V[j]? = some c) ∧
      st.g_argv[pre.length + 1]? = some (some "--config") ∧
      (st.g_argv = V ∨ (∃ ext, V = st.g_argv ++ ext) ∧ i + 1 < st.g_argv.length) := by
    intro st i hph
    rcases hph with ⟨hg, hle⟩ | ⟨hg, _⟩
    · rw [hg]
      exact ⟨hAV, hk, Or.inr ⟨⟨_, hV.symm⟩, by omega⟩⟩
    · rw [hg]
      exact ⟨fun _ _ h => h, hAV _ _ hk, Or.inl rfl⟩
  have hvalued : ∀ (opt v : String) (st : St) (i : Nat), 1 ≤ i →
      (st.g_argv = A ∧ i ≤ pre.length + 1 ∨ st.g_argv = V ∧ st.gconf.configfile ≠ none) →
      dispatches st.trace ++ cell_pairs (V.drop i) = cell_pairs (V.drop 1) →
      st.g_argv[i]? = some (some opt) → st.g_argv[i + 1]? = some (some v) →
      is_value (some v) = true →
      dispatches (conf_handle_option B E opt (some v) st).state.trace ++
          cell_pairs (V.drop (i + 2)) = cell_pairs (V.drop 1) ∧
      ∀ s, conf_handle_option B E opt (some v) st = .ok s →
        (s.g_argv = A ∧ i + 2 ≤ pre.length + 1 ∨ s.g_argv = V ∧ s.gconf.configfile ≠ none) := by
    intro opt v st i h1i hph hD ho hv hval
    obtain ⟨c1, c2, _⟩ := hcells st i hph
    refine hcall opt (some v) st i (i + 2) h1i hph hD ho
      (cell_pairs_valued V i opt v (c1 _ _ ho) (c1 _ _ hv) hval)
      (fun w hw => by injection hw with hw; subst hw; exact hv) ?_
    intro hlt
    by_contra hne
    have hik : i + 1 = pre.length + 1 := by omega
    rw [hik, c2] at hv
    simp only [Option.some.injEq] at hv
    subst hv
    simp [is_value] at hval
  have hvalueless : ∀ (opt : String) (val : Option String) (st : St) (i : Nat), 1 ≤ i →
      (st.g_argv = A ∧ i ≤ pre.length + 1 ∨ st.g_argv = V ∧ st.gconf.configfile ≠ none) →
      dispatches st.trace ++ cell_pairs (V.drop i) = cell_pairs (V.drop 1) →
      st.g_argv[i]? = some (some opt) → st.read (i + 1) = some val → is_value val = false →
      dispatches (conf_handle_option B E opt none st).state.trace ++
          cell_pairs (V.drop (i + 1)) = cell_pairs (V.drop 1) ∧
      ∀ s, conf_handle_option B E opt none st = .ok s →
        (s.g_argv = A ∧ i + 1 ≤ pre.length + 1 ∨ s.g_argv = V ∧ s.gconf.configfile ≠ none) := by
    intro opt val st i h1i hph hD ho hr hval
    obtain ⟨c1, _, c3⟩ := hcells st i hph
    exact hcall opt none st i (i + 1) h1i hph hD ho
      (cell_pairs_valueless V i opt (c1 _ _ ho) (read_in_longer st V i val c3 hr hval))
      (fun w hw => by cases hw) (fun hlt => by omega)
  refine conf_load_args_loop_rule B E
    (fun i st => 1 ≤ i ∧
      dispatches st.trace ++ cell_pairs (V.drop i) = cell_pairs (V.drop 1) ∧
      (st.g_argv = A ∧ i ≤ pre.length + 1 ∨ st.g_argv = V ∧ st.gconf.configfile ≠ none))
    (fun r => dispatches r.state.trace <+: cell_pairs (V.drop 1) ∧
      ((∃ s, r = .ok s) → dispatches r.state.trace = cell_pairs (V.drop 1)))
    ?_ ?_ fuel 1 (initial_state g (name :: (pre ++ "--config" :: f :: post))) r
    ⟨le_refl 1, by simp [initial_state, dispatches], Or.inl ⟨hinit, by omega⟩⟩
  · intro i st r ⟨h1i, hD, hph⟩ ht
    rcases conf_load_args_turn_cases B E i st with ⟨hi, e⟩ | ⟨_, _, e⟩ | ⟨_, _, e⟩ |
      ⟨opt, v, hlt, ho, hv, hval, e⟩ | ⟨opt, val, hlt, ho, hv, hnv, e⟩
    · rw [e] at ht; injection ht with ht; subst ht
      rcases hph with ⟨hg, hle⟩ | ⟨hg, _⟩
      · rw [hg] at hi; omega
      · have hd : V.drop i = [] := by
          apply List.drop_eq_nil_of_le
          rw [hg] at hi
          omega
        rw [hd] at hD
        simp only [cell_pairs, List.append_nil] at hD
        simp only [Res.state_ok]
        exact ⟨by rw [hD], fun _ => hD⟩
    · rw [e] at ht; injection ht with ht; subst ht
      simp only [Res.state_undefined]
      exact ⟨⟨_, hD⟩, fun ⟨s, hs⟩ => by cases hs⟩
    · rw [e] at ht; cases ht
    · obtain ⟨k1, _⟩ := hvalued opt v st i h1i hph hD ho hv hval
      rw [e] at ht
      cases hr : conf_handle_option B E opt (some v) st with
      | ok s => rw [hr] at ht; cases ht
      | exit c m s =>
        rw [hr] at ht k1; injection ht with ht; subst ht
        exact ⟨⟨_, k1⟩, fun ⟨s1, hs⟩ => by cases hs⟩
      | undefined s =>
        rw [hr] at ht k1; injection ht with ht; subst ht
        exact ⟨⟨_, k1⟩, fun ⟨s1, hs⟩ => by cases hs⟩
    · obtain ⟨k1, _⟩ := hvalueless opt val st i h1i hph hD ho hv hnv
      rw [e] at ht
      cases hr : conf_handle_option B E opt none st with
      | ok s => rw [hr] at ht; cases ht
      | exit c m s =>
        rw [hr] at ht k1; injection ht with ht; subst ht
        exact ⟨⟨_, k1⟩, fun ⟨s1, hs⟩ => by cases hs⟩
      | undefined s =>
        rw [hr] at ht k1; injection ht with ht; subst ht
        exact ⟨⟨_, k1⟩, fun ⟨s1, hs⟩ => by cases hs⟩
  · intro i st i1 st1 ⟨h1i, hD, hph⟩ ht
    rcases conf_load_args_turn_cases B E i st with ⟨hi, e⟩ | ⟨_, _, e⟩ | ⟨_, hn, e⟩ |
      ⟨opt, v, hlt, ho, hv, hval, e⟩ | ⟨opt, val, hlt, ho, hv, hnv, e⟩
    · rw [e] at ht; cases ht
    · rw [e] at ht; cases ht
    · rw [e] at ht; injection ht with h1 h2; subst h1; subst h2
      rcases hph with ⟨hg, _⟩ | ⟨hg, hset⟩
      · rw [hg] at hn
        exact absurd hn (hsome i)
      · rw [hg] at hn
        exact ⟨by omega, by rw [← cell_pairs_null V i hn]; exact hD, Or.inr ⟨hg, hset⟩⟩
    · obtain ⟨k1, k2⟩ := hvalued opt v st i h1i hph hD ho hv hval
      rw [e] at ht
      cases hr : conf_handle_option B E opt (some v) st with
      | ok s =>
        rw [hr] at ht k1; injection ht with h1 h2; subst h1; subst h2
        exact ⟨by omega, k1, k2 s hr⟩
      | exit c m s => rw [hr] at ht; cases ht
      | undefined s => rw [hr] at ht; cases ht
    · obtain ⟨k1, k2⟩ := hvalueless opt val st i h1i hph hD ho hv hnv
      rw [e] at ht
      cases hr : conf_handle_option B E opt none st with
      | ok s =>
        rw [hr] at ht k1; injection ht with h1 h2; subst h1; subst h2
        exact ⟨by omega, k1, k2 s hr⟩
      | exit c m s => rw [hr] at ht; cases ht
      | undefined s => rw [hr] at ht; cases ht


/-- The calls of a run by the buffers of `fgets`: with `--config f` on the
command line (and no `--config` before it), a file `f` that is read and
accepted, and every buffer starting with an option, the calls of
`conf_handle_option` are the pairs of the command line followed by one call
for each buffer that is not empty: all of them when the run returns, and a
first part of them otherwise. -/
theorem conf_load_args_file_buffers (B : Build) (E : Env) (g : gconf_t)
    (name : String) (pre : List String) (f : String) (post : List String)
    (content : List Char) (hpre : "--config" ∉ pre)
    (hmode : not_regular (E.fs f) = false)
    (hopen : (E.fs f).content = some content) (hwf : well_formed content)
    (hlead : options_lead content) :
    (∃ fuel r, ∀ fuel1, fuel ≤ fuel1 →
      conf_load_args B E fuel1 g (name :: (pre ++ "--config" :: f :: post)) = some r) ∧
    ∀ fuel r, conf_load_args B E fuel g (name :: (pre ++ "--config" :: f :: post)) = some r →
      dispatches r.state.trace <+:
        spec_pairs (pre ++ "--config" :: f :: post) ++ file_pairs content ∧
      ((∃ s, r = .ok s) → dispatches r.state.trace =
        spec_pairs (pre ++ "--config" :: f :: post) ++ file_pairs content) := by
  refine ⟨conf_load_args_total B E g _, ?_⟩
  intro fuel r hr
  obtain ⟨r0, h0, ht, _, hsame⟩ := conf_load_args_eq B E fuel g _ r hr
  obtain ⟨k1, k2⟩ := conf_load_args_loop_cell_pairs B E g name pre f post content hpre hmode
    hopen hwf fuel r0 h0
  rw [cell_pairs_file _ content hlead] at k1 k2
  rw [ht]
  refine ⟨k1, fun hex => ?_⟩
  by_cases hok : ∃ s, r0 = .ok s
  · exact k2 hok
  · have := hsame (fun s h => hok ⟨s, h⟩)
    subst this
    exact absurd hex hok

/-! ## The frame of `conf_check` -/

theorem keeps_settings_refl (B : Build) (g : gconf_t) : keeps_settings B g g := by
  unfold keeps_settings
  simp

theorem keeps_settings_trans (B : Build) (g0 g1 g2 : gconf_t)
    (h1 : keeps_settings B g0 g1) (h2 : keeps_settings B g1 g2) : keeps_settings B g0 g2 := by
  obtain ⟨a1, a2, a3, a4, a5, a6, a7, a8, a9, a10, a11, a12, a13, a14, a15, a16, a17, a18,
    a19, a20, a21, a22, a23, a24⟩ := h1
  obtain ⟨b1, b2, b3, b4, b5, b6, b7, b8, b9, b10, b11, b12, b13, b14, b15, b16, b17, b18,
    b19, b20, b21, b22, b23, b24⟩ := h2
  refine ⟨fun h => ?_, fun h => ?_, fun h => ?_, fun h => ?_, fun h => ?_, fun h => ?_,
    fun h => ?_, fun h => ?_, fun h => ?_, fun h => ?_, fun h => ?_, b12.trans a12,
    b13.trans a13, b14.trans a14, b15.trans a15, b16.trans a16, b17.trans a17, b18.trans a18,
    b19.trans a19, b20.trans a20, b21.trans a21, b22.trans a22, b23.trans a23, b24.trans a24⟩
  · exact (b1 (by rw [a1 h]; exact h)).trans (a1 h)
  · exact (b2 (by rw [a2 h]; exact h)).trans (a2 h)
  · exact (b3 (by rw [a3 h]; exact h)).trans (a3 h)
  · exact (b4 (by rw [a4 h]; exact h)).trans (a4 h)
  · exact (b5 (by rw [a5 h]; exact h)).trans (a5 h)
  · exact (b6 (h.imp_left (fun hn => by rw [a6 h]; exact hn))).trans (a6 h)
  · exact (b7 (h.imp_left (fun hn => by rw [a7 h]; exact hn))).trans (a7 h)
  · exact (b8 (h.imp_left (fun hn => by rw [a8 h]; exact hn))).trans (a8 h)
  · exact (b9 (h.imp_left (fun hn => by rw [a9 h]; exact hn))).trans (a9 h)
  · exact (b10 (h.imp_left (fun hn => by rw [a10 h]; exact hn))).trans (a10 h)
  · exact (b11 (h.imp_left (fun hn => by rw [a22]; exact hn))).trans (a11 h)

theorem keeps_settings_af (B : Build) (x : gconf_t) :
    keeps_settings B x (if x.af = 0 then { x with af := AF_INET } else x) := by
  unfold keeps_settings
  split <;> simp_all

theorem keeps_settings_query_tld (B : Build) (x : gconf_t) (d : String) :
    keeps_settings B x (if x.query_tld = none then { x with query_tld := some d } else x) := by
  unfold keeps_settings
  split <;> simp_all

theorem keeps_settings_node_id_str (B : Build) (x : gconf_t) (d : String) :
    keeps_settings B x
      (if x.node_id_str = none then { x with node_id_str := some d } else x) := by
  unfold keeps_settings
  split <;> simp_all

theorem keeps_settings_dht_port (B : Build) (x : gconf_t) (d : String) :
    keeps_settings B x (if x.dht_port = none then { x with dht_port := some d } else x) := by
  unfold keeps_settings
  split <;> simp_all

theorem keeps_settings_dht_addr (B : Build) (x : gconf_t) (d : String) :
    keeps_settings B x (if x.dht_addr = none then { x with dht_addr := some d } else x) := by
  unfold keeps_settings
  split <;> simp_all

theorem keeps_settings_cmd_port (B : Build) (x : gconf_t) :
    keeps_settings B x
      (if B.CMD = true ∧ x.cmd_port = none then { x with cmd_port := some B.CMD_PORT }
        else x) := by
  unfold keeps_settings
  split <;> simp_all

theorem keeps_settings_dns_port (B : Build) (x : gconf_t) :
    keeps_settings B x
      (if B.DNS = true ∧ x.dns_port = none then { x with dns_port := some B.DNS_PORT }
        else x) := by
  unfold keeps_settings
  split <;> simp_all

theorem keeps_settings_nss_port (B : Build) (x : gconf_t) :
    keeps_settings B x
      (if B.NSS = true ∧ x.nss_port = none then { x with nss_port := some B.NSS_PORT }
        else x) := by
  unfold keeps_settings
  split <;> simp_all

theorem keeps_settings_web_port (B : Build) (x : gconf_t) :
    keeps_settings B x
      (if B.WEB = true ∧ x.web_port = none then { x with web_port := some B.WEB_PORT }
        else x) := by
  unfold keeps_settings
  split <;> simp_all

theorem keeps_settings_dns (B : Build) (E : Env) (x : gconf_t) :
    keeps_settings B x (if B.DNS = true then conf_check_dns E x else Res.ok x).state := by
  unfold keeps_settings conf_check_dns
  split
  · split
    · simp
    · split <;> simp_all
  · simp

theorem keeps_settings_lpd (B : Build) (E : Env) (x : gconf_t) :
    keeps_settings B x (if B.LPD = true then conf_check_lpd B E x else Res.ok x).state := by
  unfold keeps_settings conf_check_lpd
  rw [default_lpd_addr]
  split
  · simp only []
    cases hx : x.lpd_addr <;> (repeat' split) <;> simp_all
  · simp

theorem keeps_settings_times (B : Build) (x : gconf_t) (t1 t2 : Nat) :
    keeps_settings B x { x with time_now := t1, startup_time := t2 } := by
  unfold keeps_settings
  simp

/-- Every step of `conf_check` keeps the settings, so the record `conf_check`
ends with, whether it returns or ends the process, keeps those of the record
it was given. -/
theorem conf_check_keeps_settings (B : Build) (E : Env) (g0 : gconf_t) :
    keeps_settings B g0 (conf_check B E g0).state := by
  unfold conf_check
  lift_lets
  extract_lets g1 g2 g3 g4 g5 g6 g7
  have h07 : keeps_settings B g0 g7 :=
    keeps_settings_trans B _ _ _ (keeps_settings_trans B _ _ _ (keeps_settings_trans B _ _ _
      (keeps_settings_trans B _ _ _ (keeps_settings_trans B _ _ _ (keeps_settings_trans B _ _ _
        (keeps_settings_af B g0) (keeps_settings_query_tld B g1 _))
        (keeps_settings_node_id_str B g2 _)) (keeps_settings_dht_port B g3 _))
        (keeps_settings_dht_addr B g4 _)) (keeps_settings_cmd_port B g5))
        (keeps_settings_dns_port B g6)
  have hd := keeps_settings_dns B E g7
  generalize (if B.DNS = true then conf_check_dns E g7 else Res.ok g7) = r at hd ⊢
  cases r with
  | exit c m s => exact keeps_settings_trans B _ _ _ h07 hd
  | undefined s => exact keeps_settings_trans B _ _ _ h07 hd
  | ok g8 =>
    have h08 : keeps_settings B g0 g8 := keeps_settings_trans B _ _ _ h07 hd
    simp only [Res.andThen]
    have h9 := keeps_settings_nss_port B g8
    generalize (if B.NSS = true ∧ g8.nss_port = none then { g8 with nss_port := some B.NSS_PORT }
      else g8) = g9 at h9 ⊢
    have h10 := keeps_settings_web_port B g9
    generalize (if B.WEB = true ∧ g9.web_port = none then { g9 with web_port := some B.WEB_PORT }
      else g9) = g at h10 ⊢
    have h0 : keeps_settings B g0 g :=
      keeps_settings_trans B _ _ _ (keeps_settings_trans B _ _ _ h08 h9) h10
    have hl := keeps_settings_lpd B E g
    generalize (if B.LPD = true then conf_check_lpd B E g else Res.ok g) = rl at hl ⊢
    split_ifs
    · exact h0
    · exact h0
    · exact h0
    · exact h0
    · exact h0
    · cases rl with
      | exit c m s => exact keeps_settings_trans B _ _ _ h0 hl
      | undefined s => exact keeps_settings_trans B _ _ _ h0 hl
      | ok gl =>
        exact keeps_settings_trans B _ _ _ (keeps_settings_trans B _ _ _ h0 hl)
          (keeps_settings_times B gl _ _)

/-- Claim C21 fails on the code in its last part: `conf_check` writes more
than the unset fields with a default and the startup time.  With the DNS
feature compiled in and a DNS server given, it stores the address the server
resolves to in `dns_server_addr`, a field without a default, and replaces an
address that was there; and with the startup time it stores the current time
in `time_now`. -/
theorem conf_check_dns_server_addr_counterexample :
    ((conf_init sample_build).dns_server_addr, (conf_init sample_build).time_now,
      (conf_init sample_build).startup_time) = (none, 0, 0) ∧
    (conf_check sample_build
      { env_answering 0 [] with
        addr_parse := fun s _ af =>
          if s = some "192.168.1.1" then some { family := AF_INET, addr := [192, 168, 1, 1] }
          else some { family := af, addr := [if af = AF_INET then 239 else 255] }
        time_now_sec := 1700000000 }
      { conf_init sample_build with dns_server := some "192.168.1.1" }).map
        (fun g => (g.dns_server_addr, g.time_now, g.startup_time)) =
      .ok (some { family := AF_INET, addr := [192, 168, 1, 1] }, 1700000000, 1700000000) ∧
    (conf_check sample_build
      { env_answering 0 [] with
        addr_parse := fun s _ af =>
          if s = some "192.168.1.1" then some { family := AF_INET, addr := [192, 168, 1, 1] }
          else some { family := af, addr := [if af = AF_INET then 239 else 255] }
        time_now_sec := 1700000000 }
      { conf_init sample_build with
        dns_server := some "192.168.1.1"
        dns_server_addr := some { family := AF_INET, addr := [10, 0, 0, 53] } }).map
        (fun g => g.dns_server_addr) =
      .ok (some { family := AF_INET, addr := [192, 168, 1, 1] }) := by
  decide

/-- Claim C21, amended: `conf_check` never replaces a setting that was already
made.  For every record `g0`, in the record `g` that `conf_check` ends with,
whether it returns or ends the process: each of address family, query TLD,
node id, DHT port, DHT address, the CMD, DNS, NSS and WEB ports and the local
discovery address that is set (non-zero, non-null) in `g0` has the same value
in `g`; the fields without a default (pid file, peer file, interface name,
user, configuration file, daemon flag, verbosity) are unchanged; and only the
unset fields with a default, the resolved address of the DNS server, the
current time and the startup time are written, every other field of `g` being
the one of `g0`.  The resolved address is written only when the DNS feature is
compiled in and a DNS server is given, and the port or address of a feature
that is not compiled in is not written. -/
theorem conf_check_frame (B : Build) (E : Env) (g0 : gconf_t) :
    let g := (conf_check B E g0).state
    ((g0.af ≠ 0 → g.af = g0.af) ∧
      (g0.query_tld ≠ none → g.query_tld = g0.query_tld) ∧
      (g0.node_id_str ≠ none → g.node_id_str = g0.node_id_str) ∧
      (g0.dht_port ≠ none → g.dht_port = g0.dht_port) ∧
      (g0.dht_addr ≠ none → g.dht_addr = g0.dht_addr) ∧
      (g0.cmd_port ≠ none → g.cmd_port = g0.cmd_port) ∧
      (g0.dns_port ≠ none → g.dns_port = g0.dns_port) ∧
      (g0.nss_port ≠ none → g.nss_port = g0.nss_port) ∧
      (g0.web_port ≠ none → g.web_port = g0.web_port) ∧
      (g0.lpd_addr ≠ none → g.lpd_addr = g0.lpd_addr)) ∧
    (g.pidfile = g0.pidfile ∧ g.peerfile = g0.peerfile ∧ g.dht_ifname = g0.dht_ifname ∧
      g.user = g0.user ∧ g.configfile = g0.configfile ∧ g.is_daemon = g0.is_daemon ∧
      g.verbosity = g0.verbosity) ∧
    g = { g0 with
      af := g.af, query_tld := g.query_tld, node_id_str := g.node_id_str
      dht_port := g.dht_port, dht_addr := g.dht_addr, cmd_port := g.cmd_port
      dns_port := g.dns_port, nss_port := g.nss_port, web_port := g.web_port
      lpd_addr := g.lpd_addr, dns_server_addr := g.dns_server_addr
      time_now := g.time_now, startup_time := g.startup_time } ∧
    (g0.dns_server = none ∨ B.DNS = false → g.dns_server_addr = g0.dns_server_addr) ∧
    ((B.CMD = false → g.cmd_port = g0.cmd_port) ∧ (B.DNS = false → g.dns_port = g0.dns_port) ∧
      (B.NSS = false → g.nss_port = g0.nss_port) ∧ (B.WEB = false → g.web_port = g0.web_port) ∧
      (B.LPD = false → g.lpd_addr = g0.lpd_addr)) := by
  intro g
  have h : keeps_settings B g0 g := conf_check_keeps_settings B E g0
  clear_value g
  obtain ⟨a1, a2, a3, a4, a5, a6, a7, a8, a9, a10, a11, a12, a13, a14, a15, a16, a17, a18,
    a19, a20, a21, a22, a23, a24⟩ := h
  refine ⟨⟨a1, a2, a3, a4, a5, fun h => a6 (Or.inl h), fun h => a7 (Or.inl h),
    fun h => a8 (Or.inl h), fun h => a9 (Or.inl h), fun h => a10 (Or.inl h)⟩,
    ⟨a16, a17, a18, a15, a19, a14, a13⟩, ?_, a11,
    ⟨fun h => a6 (Or.inr h), fun h => a7 (Or.inr h), fun h => a8 (Or.inr h),
      fun h => a9 (Or.inr h), fun h => a10 (Or.inr h)⟩⟩
  cases g
  cases g0
  simp only [gconf_t.mk.injEq] at *
  simp only [a12, a13, a14, a15, a16, a17, a18, a19, a20, a21, a22, a23, a24, and_self]

/-! ## The run as the calls for the command line, then for the file -/

/-- For a file whose lines fit the buffer and hold no NUL byte, each buffer
of `fgets` holds one line of the file. -/
theorem fgets_all_holds_lines (content : List Char)
    (hfit : ∀ l ∈ spec_lines content, l.length ≤ 510 ∧ Char.ofNat 0 ∉ l) :
    List.Forall₂ holds_line (fgets_all 512 content) (spec_lines content) := by
  unfold fgets_all
  have hpieces : ∀ l ∈ content.splitOnP (fun c => c == '\n'), l.length < 511 := by
    intro l hl
    by_cases hne : l = []
    · subst hne; simp
    · have := (hfit l (mem_drop_final_empty_of_ne_nil _ l hl hne)).1
      omega
  exact fgets_from_holds_lines content (512 - 1) (by
    intro h t e
    rw [e] at hpieces
    exact ⟨hpieces h (by simp), fun l hl => hpieces l (by simp [hl])⟩)

theorem line_pair_of_holds_line (buf line : List Char) (hb : holds_line buf line)
    (h : Char.ofNat 0 ∉ line) :
    line_pair buf = spec_line_pair line ∧
    leads_with_option buf = spec_leads_with_option line := by
  have e := line_tokens_of_holds_line buf line hb h
  have e1 : line_pair buf = spec_line_pair line := by
    unfold line_pair spec_line_pair
    rw [e]
  refine ⟨e1, ?_⟩
  unfold leads_with_option spec_leads_with_option
  rw [e1]

/-- Buffers that hold the lines of a file give the tokens, the calls and the
conditions of the lines. -/
theorem buffers_as_lines (bufs lines : List (List Char))
    (hb : List.Forall₂ holds_line bufs lines) (h : ∀ l ∈ lines, Char.ofNat 0 ∉ l) :
    bufs.map line_tokens = lines.map spec_tokens ∧
    bufs.filterMap line_pair = lines.filterMap spec_line_pair ∧
    ((∀ buf ∈ bufs, leads_with_option buf = true) ↔
      (∀ line ∈ lines, spec_leads_with_option line = true)) := by
  induction hb with
  | nil => simp
  | @cons buf line bufs lines hd _ ih =>
    have hline := h line (by simp)
    obtain ⟨i1, i2, i3⟩ := ih (fun l hl => h l (by simp [hl]))
    obtain ⟨p1, p2⟩ := line_pair_of_holds_line buf line hd hline
    refine ⟨?_, ?_, ?_⟩
    · simp [line_tokens_of_holds_line buf line hd hline, i1]
    · simp [List.filterMap_cons, p1, i2]
    · simp [p2, i3]

/-- A file whose lines fit the buffer and hold no NUL byte is accepted by
`conf_load_file` exactly when it is well-formed in the words of the
specification. -/
theorem well_formed_iff_spec (content : List Char)
    (hfit : ∀ l ∈ spec_lines content, l.length ≤ 510 ∧ Char.ofNat 0 ∉ l) :
    well_formed content ↔ spec_well_formed content := by
  obtain ⟨e, _⟩ := buffers_as_lines _ _ (fgets_all_holds_lines content hfit)
    (fun l hl => (hfit l hl).2)
  have k : ∀ (P : List String → Prop) (bufs lines : List (List Char)),
      bufs.map line_tokens = lines.map spec_tokens →
      ((∀ buf ∈ bufs, P (line_tokens buf)) ↔ (∀ line ∈ lines, P (spec_tokens line))) := by
    intro P bufs lines he
    have a : (∀ buf ∈ bufs, P (line_tokens buf)) ↔ ∀ t ∈ bufs.map line_tokens, P t := by
      simp [List.mem_map]
    have b : (∀ line ∈ lines, P (spec_tokens line)) ↔ ∀ t ∈ lines.map spec_tokens, P t := by
      simp [List.mem_map]
    rw [a, b, he]
  exact k (fun t => t.length ≤ 2 ∧ t.head? ≠ some "--config") _ _ e

/-- Claim C19 fails on the code, which pairs the cells of the vector by the
rule of the command line, whatever line a cell comes from.  In the run of
`kadnode --config f` on the file with the line `--daemon --lpd-disable`, the
second token of the line is handed over as an option of its own; and in the
run of `kadnode --config f --user` on the file with the line `kad`, the first
token of the line is taken as the value of the command-line option before
it.  Both files are well-formed, and their lines ask for the calls
`(--daemon, --lpd-disable)` and `(kad, no value)`. -/
theorem conf_load_args_file_lines_counterexample :
    spec_well_formed "--daemon --lpd-disable\n".data ∧
    spec_file_pairs "--daemon --lpd-disable\n".data = [("--daemon", some "--lpd-disable")] ∧
    (conf_load_args sample_build (env_answering 0 [("f", "--daemon --lpd-disable\n".data)]) 8
        (conf_init sample_build) ["kadnode", "--config", "f"]).map
      (fun r => dispatches r.state.trace) =
      some [("--config", some "f"), ("--daemon", none), ("--lpd-disable", none)] ∧
    spec_well_formed "kad\n".data ∧
    spec_file_pairs "kad\n".data = [("kad", none)] ∧
    (conf_load_args sample_build (env_answering 0 [("f", "kad\n".data)]) 8
        (conf_init sample_build) ["kadnode", "--config", "f", "--user"]).map
      (fun r => dispatches r.state.trace) =
      some [("--config", some "f"), ("--user", some "kad")] := by
  refine ⟨by unfold spec_well_formed; decide, by decide, by decide,
    by unfold spec_well_formed; decide, by decide, by decide⟩

/-- Claim C19, amended: for every command line with `--config f` (and no
`--config` before it) and every file `f` that is read, whose lines all have
at most 510 bytes before the newline and no NUL byte, that is well-formed
(no line has more than two tokens or `--config` as its first token) and
whose lines all start with an option (the first token of a line begins with
`-`, the second token does not), every run of `conf_load_args` comes to an
end, and its calls of `conf_handle_option` are the pairs of the command line
followed by one call for each line of the file that is not empty, with the
first token of the line as the option and the second token as the value (no
value for a line with one token), in the order of the file: all of them when
the run returns, and a first part of them when a call ends the process. -/
theorem conf_load_args_file_lines (B : Build) (E : Env) (g : gconf_t)
    (name : String) (pre : List String) (f : String) (post : List String)
    (content : List Char) (hpre : "--config" ∉ pre)
    (hmode : not_regular (E.fs f) = false)
    (hopen : (E.fs f).content = some content)
    (hfit : ∀ l ∈ spec_lines content, l.length ≤ 510 ∧ Char.ofNat 0 ∉ l)
    (hwf : spec_well_formed content) (hlead : spec_options_lead content) :
    (∃ fuel r, ∀ fuel1, fuel ≤ fuel1 →
      conf_load_args B E fuel1 g (name :: (pre ++ "--config" :: f :: post)) = some r) ∧
    ∀ fuel r, conf_load_args B E fuel g (name :: (pre ++ "--config" :: f :: post)) = some r →
      dispatches r.state.trace <+:
        spec_pairs (pre ++ "--config" :: f :: post) ++ spec_file_pairs content ∧
      ((∃ s, r = .ok s) → dispatches r.state.trace =
        spec_pairs (pre ++ "--config" :: f :: post) ++ spec_file_pairs content) := by
  obtain ⟨_, e2, e3⟩ := buffers_as_lines _ _ (fgets_all_holds_lines content hfit)
    (fun l hl => (hfit l hl).2)
  have hfp : file_pairs content = spec_file_pairs content := e2
  have h := conf_load_args_file_buffers B E g name pre f post content hpre hmode hopen
    ((well_formed_iff_spec content hfit).mpr hwf) (e3.mpr hlead)
  rw [hfp] at h
  exact h

/-- The theorem at work: the run of `kadnode --config f --user kad` on the
sample file returns, and its calls are the two of the command line, then the
two of the lines of the file. -/
theorem conf_load_args_file_lines_witness :
    "--config" ∉ ([] : List String) ∧
    not_regular ((env_answering 0 [("f", sample_file)]).fs "f") = false ∧
    ((env_answering 0 [("f", sample_file)]).fs "f").content = some sample_file ∧
    (∀ l ∈ spec_lines sample_file, l.length ≤ 510 ∧ Char.ofNat 0 ∉ l) ∧
    spec_well_formed sample_file ∧ spec_options_lead sample_file ∧
    spec_file_pairs sample_file = [("--port", some "6881"), ("--daemon", none)] ∧
    ∃ s, conf_load_args sample_build (env_answering 0 [("f", sample_file)]) 8
        (conf_init sample_build)
        ("kadnode" :: ([] ++ "--config" :: "f" :: ["--user", "kad"])) = some (.ok s) ∧
      dispatches s.trace =
        [("--config", some "f"), ("--user", some "kad"), ("--port", some "6881"),
          ("--daemon", none)] := by
  refine ⟨by decide, by decide, by decide, by decide, by unfold spec_well_formed; decide,
    by unfold spec_options_lead; decide, by decide, ?_⟩
  have hrun : (conf_load_args sample_build (env_answering 0 [("f", sample_file)]) 8
      (conf_init sample_build)
      ("kadnode" :: ([] ++ "--config" :: "f" :: ["--user", "kad"]))).map
        (fun r => r.map (fun _ => ())) = some (.ok ()) := by
    decide
  cases hr : conf_load_args sample_build (env_answering 0 [("f", sample_file)]) 8
      (conf_init sample_build)
      ("kadnode" :: ([] ++ "--config" :: "f" :: ["--user", "kad"])) with
  | none => rw [hr] at hrun; cases hrun
  | some r =>
    rw [hr] at hrun
    cases r with
    | exit c m s => simp [Res.map] at hrun
    | undefined s => simp [Res.map] at hrun
    | ok s =>
      refine ⟨s, rfl, ?_⟩
      exact (((conf_load_args_file_lines sample_build
        (env_answering 0 [("f", sample_file)]) (conf_init sample_build) "kadnode" [] "f"
        ["--user", "kad"] sample_file (by decide) (by decide) (by decide) (by decide)
        (by unfold spec_well_formed; decide)
        (by unfold spec_options_lead; decide)).2 8 (.ok s) hr).2 ⟨s, rfl⟩).trans (by decide)

end KadNode
